import Mathlib

/-!
# onlinechat: connection registry and message pipeline

A shallow embedding of `server/internal/ws` (hub.go, client.go, models.go,
chat_service.go, chat_repository.go).

Conventions of the embedding.

* A Go `int` is an `Int`, a Go `string` is a `String` whose Go `len` is the
  UTF-8 byte size, a `[]byte` is a list of bytes, a `time.Time` is an `Int`.
* A `*Client` is a pointer `Ptr`; the cells it points to live in `Hub.heap`.
* A Go `map[K]V` is an `AList` (association list with distinct keys); `range`
  visits the entries in list order.
* A Go `error` is an `Option String` (`none` is `nil`).
* A run-time panic (close of a closed channel, send on a closed channel) is
  `Except.error`; nothing in these goroutines recovers from a panic.
* Collaborators outside the package (JSON encoding, the Redis client, the SQL
  database, the clock) are the fields of `Env`.
-/

namespace OnlineChat

/-! ## Data model (models.go, client.go, pkg/redis/redis.go) -/

/-- A pointer to a Client struct. -/
abbrev Ptr := Nat

/-- A byte slice. -/
abbrev Bytes := List UInt8

/-- A point in time. -/
abbrev Time := Int

/-- Go error value: none is nil. -/
abbrev GoError := Option String

/-- Struct Message of models.go. -/
structure Message where
  ID : Int
  ChatID : Int
  UserID : Int
  Username : String
  Content : String
  MessageType : String
  ReplyToID : Option Int
  EditedAt : Option Time
  IsDeleted : Bool
  DeletedAt : Option Time
  CreatedAt : Time
  UpdatedAt : Time
deriving DecidableEq, Repr

/-- Struct MessageRequest of models.go. -/
structure MessageRequest where
  Content : String
  MessageType : String
  ReplyToID : Option Int
deriving DecidableEq, Repr

/-- Struct MessageCache of pkg/redis/redis.go. -/
structure MessageCache where
  ID : Int
  ChatID : Int
  UserID : Int
  Username : String
  Content : String
  MessageType : String
  CreatedAt : Time
deriving DecidableEq, Repr

/-- A buffered channel of byte slices: the pending frames (head is the oldest),
the capacity and whether close has been called on it. -/
structure Chan where
  buf : List Bytes
  cap : Nat
  closed : Bool
deriving DecidableEq, Repr

/-- The state of a websocket connection object. -/
structure Conn where
  closed : Bool
deriving DecidableEq, Repr

/-- Struct Client of client.go: the fields the hub and the pumps use. Connection
is none for a nil pointer. -/
structure Client where
  ID : Int
  Username : String
  ChatID : Int
  Connection : Option Conn
  Send : Chan
deriving DecidableEq, Repr

/-- The calls the hub makes on the Redis client. -/
inductive CacheCall where
  | AddUser (chatID userID : Int)
  | RemoveUser (chatID userID : Int)
  | CacheMessage (m : MessageCache)
  | UpdateChatLastMessage (chatID : Int) (lastMessage : Time)
deriving DecidableEq, Repr

/-- A value stored in the map that sendError marshals. -/
inductive JsonValue where
  | str (s : String)
  | time (t : Time)
deriving DecidableEq, Repr

/-- The map literal errorMsg of Client.sendError: type, message and time. -/
def errorEnvelope (message : String) (now : Time) : List (String × JsonValue) :=
  [("type", JsonValue.str "error"), ("message", JsonValue.str message),
   ("time", JsonValue.time now)]

/-- The collaborators outside package ws. -/
structure Env where
  /-- Result of time.Now(). -/
  now : Time
  /-- Result of json.Marshal on a Message. -/
  marshalMessage : Message → Except String Bytes
  /-- Result of json.Marshal on a map from field names to strings and times. -/
  marshalMap : List (String × JsonValue) → Except String Bytes
  /-- Result of json.Unmarshal of a frame into a MessageRequest. -/
  unmarshalRequest : Bytes → Except String MessageRequest
  /-- The error, if any, a Redis call returns. -/
  redis : CacheCall → GoError
  /-- The row the database returns for the INSERT of SaveMessage:
  id, created_at, updated_at. -/
  dbInsertMessage : Message → Except String (Int × Time × Time)

/-- Result of json.Marshal on the error envelope with the given message and time. -/
def Env.marshalError (env : Env) (message : String) (now : Time) : Except String Bytes :=
  env.marshalMap (errorEnvelope message now)

/-! ## Message validation (client.go, Client.validateMessage) -/

/-- The map literal validTypes of validateMessage. -/
def validTypes : List (String × Bool) :=
  [("text", true), ("image", true), ("file", true), ("system", true)]

/-- Indexing a Go map of booleans: an absent key reads as false. -/
def mapBool (m : List (String × Bool)) (k : String) : Bool :=
  (m.lookup k).getD false

/-- Client.validateMessage. The request is passed by value, so the assignment
of the default type is to the local copy only; the result is the error. -/
def validateMessage (msg : MessageRequest) : GoError :=
  if msg.Content.utf8ByteSize = 0 then
    some "message content cannot be empty"
  else if msg.Content.utf8ByteSize > 4000 then
    some "message content too long"
  else
    let msg := if msg.MessageType = "" then { msg with MessageType := "text" } else msg
    if !mapBool validTypes msg.MessageType then
      some "invalid message type"
    else
      none

/-- A string of n bytes: n copies of the letter a. -/
def bytesOfLength (n : Nat) : String := ⟨List.replicate n 'a'⟩

/-! ## Channels, connections and handles (client.go) -/

/-- The builtin close on a channel: closing a closed channel panics. -/
def Chan.close (ch : Chan) : Except String Chan :=
  if ch.closed then .error "close of closed channel"
  else .ok { ch with closed := true }

/-- The select statement with one send case and a default case. A send on a closed
channel panics; otherwise the frame is appended when the buffer has room (some),
and the default branch is taken when it is full (none). -/
def Chan.trySend (ch : Chan) (data : Bytes) : Except String (Option Chan) :=
  if ch.closed then .error "send on closed channel"
  else if ch.buf.length < ch.cap then .ok (some { ch with buf := ch.buf ++ [data] })
  else .ok none

/-- Close of a websocket connection. -/
def Conn.Close (_ : Conn) : Conn := { closed := true }

/-- Client.Close: closes the connection when it is not nil, then closes Send. -/
def Client.Close (c : Client) : Except String Client :=
  let c1 : Client :=
    match c.Connection with
    | some conn => { c with Connection := some conn.Close }
    | none => c
  match c1.Send.close with
  | .error e => .error e
  | .ok ch => .ok { c1 with Send := ch }

/-- Client.sendError: marshal the error envelope and offer it to the own Send
queue; when the queue is full the connection is closed. -/
def Client.sendError (env : Env) (c : Client) (message : String) : Except String Client :=
  match env.marshalError message env.now with
  | .error _ => .ok c
  | .ok data =>
    match c.Send.trySend data with
    | .error e => .error e
    | .ok (some ch) => .ok { c with Send := ch }
    | .ok none =>
      match c.Connection with
      | some conn => .ok { c with Connection := some conn.Close }
      | none => .error "nil pointer dereference"

/-- Client.sendMessage: marshal a message and offer it to the own Send queue;
when the queue is full the connection is closed. No function of the repository
calls it. -/
def Client.sendMessage (env : Env) (c : Client) (message : Message) : Except String Client :=
  match env.marshalMessage message with
  | .error _ => .ok c
  | .ok data =>
    match c.Send.trySend data with
    | .error e => .error e
    | .ok (some ch) => .ok { c with Send := ch }
    | .ok none =>
      match c.Connection with
      | some conn => .ok { c with Connection := some conn.Close }
      | none => .error "nil pointer dereference"

/-- True when the Send queue has room for one more frame. -/
def Client.hasRoom (c : Client) : Bool := decide (c.Send.buf.length < c.Send.cap)

/-- The handle with one more frame at the tail of its Send queue. -/
def Client.enqueued (c : Client) (data : Bytes) : Client :=
  { c with Send := { c.Send with buf := c.Send.buf ++ [data] } }

/-- The handle with its connection (when not nil) and its Send queue closed. -/
def Client.tornDown (c : Client) : Client :=
  { c with Connection := c.Connection.map Conn.Close, Send := { c.Send with closed := true } }

/-- The handle with its connection closed and its Send queue untouched. -/
def Client.hungUp (c : Client) : Client :=
  { c with Connection := c.Connection.map Conn.Close }

/-- The handle after the hub has offered it one frame without blocking. -/
def Client.afterOffer (c : Client) (data : Bytes) : Client :=
  if c.hasRoom then c.enqueued data else c.tornDown

/-! ## The message store (chat_repository.go, chat_service.go) -/

/-- Method SaveMessage of chatRepository: the message (a pointer in the source)
after the call, and the error. On success the id and the two timestamps are
those of the returned row; no other field is written. -/
def chatRepository.SaveMessage (env : Env) (message : Message) : Message × GoError :=
  match env.dbInsertMessage message with
  | .error e => (message, some ("failed to save message: " ++ e))
  | .ok (id, createdAt, updatedAt) =>
    ({ message with ID := id, CreatedAt := createdAt, UpdatedAt := updatedAt }, none)

/-- Method SaveMessage of chatService. -/
def chatService.SaveMessage (env : Env) (message : Message) : Message × GoError :=
  match chatRepository.SaveMessage env message with
  | (m, some e) => (m, some ("failed to save message: " ++ e))
  | (m, none) => (m, none)

/-! ## The inbound task (client.go, Client.readPump) -/

/-- What one pass of the read loop does to the outside of the handle, in order. -/
inductive PumpEvent where
  /-- Call of c.Hub.service.SaveMessage with this message. -/
  | save (m : Message)
  /-- Send of this message on c.Hub.broadcast. -/
  | broadcast (m : Message)
  /-- Send of the handle on c.Hub.unregister (the deferred function). -/
  | unregister
deriving DecidableEq, Repr

/-- Result of one pass of the read loop. -/
structure PumpStep where
  /-- The handle after the pass. -/
  client : Client
  events : List PumpEvent
  logs : List String
  /-- True when the loop goes on to the next ReadMessage, false when it breaks. -/
  continues : Bool
deriving DecidableEq, Repr

/-- Result of c.Connection.ReadMessage(): a closed connection yields an error,
an open one yields what the peer sent (a frame or a transport error). -/
def Client.ReadMessage (c : Client) (incoming : Except String Bytes) :
    Except String (Except String Bytes) :=
  match c.Connection with
  | none => .error "nil pointer dereference"
  | some conn => if conn.closed then .ok (.error "use of closed network connection")
                 else .ok incoming

/-- The Message literal readPump builds from a decoded request: the fields it
names, the others at their zero values. -/
def Client.buildMessage (env : Env) (c : Client) (msg : MessageRequest) : Message :=
  { ID := 0, ChatID := c.ChatID, UserID := c.ID, Username := c.Username,
    Content := msg.Content, MessageType := msg.MessageType,
    ReplyToID := msg.ReplyToID, EditedAt := none, IsDeleted := false,
    DeletedAt := none, CreatedAt := env.now, UpdatedAt := 0 }

/-- One pass of the loop of Client.readPump, with the deferred function when the
loop breaks. -/
def Client.readPump (env : Env) (c : Client) (incoming : Except String Bytes) :
    Except String PumpStep :=
  match c.ReadMessage incoming with
  | .error e => .error e
  | .ok (.error _) =>
    -- break; deferred: c.Hub.unregister <- c; c.Connection.Close()
    .ok { client := { c with Connection := c.Connection.map Conn.Close },
          events := [PumpEvent.unregister], logs := [], continues := false }
  | .ok (.ok messageData) =>
    match env.unmarshalRequest messageData with
    | .error _ =>
      .ok { client := c, events := [], logs := ["Failed to parse message"], continues := true }
    | .ok msg =>
      match validateMessage msg with
      | some err =>
        match c.sendError env ("Invalid message: " ++ err) with
        | .error e => .error e
        | .ok c1 => .ok { client := c1, events := [], logs := [], continues := true }
      | none =>
        let message : Message := c.buildMessage env msg
        match chatService.SaveMessage env message with
        | (_, some _) =>
          match c.sendError env "Failed to save message" with
          | .error e => .error e
          | .ok c1 =>
            .ok { client := c1, events := [PumpEvent.save message],
                  logs := ["Failed to save message"], continues := true }
        | (saved, none) =>
          .ok { client := c,
                events := [PumpEvent.save message, PumpEvent.broadcast saved],
                logs := [], continues := true }

/-! ## The hub (hub.go) -/

/-- The member map of one room: owner id to handle. -/
abbrev ChatMap := AList (fun _ : Int => Ptr)

/-- Struct Hub: the membership table, and the memory the handles live in. A room
map is a reference in the source: a delete on it is seen through h.chats, which
the embedding writes as storing the updated room map under the room id. -/
structure Hub where
  chats : AList (fun _ : Int => ChatMap)
  heap : Ptr → Client

/-- Result of processing one hub event. -/
structure HubStep where
  /-- The hub after the event. -/
  hub : Hub
  /-- The Redis calls made, in order. -/
  cache : List CacheCall
  /-- The messages sendSystemMessage sends on the unbuffered channel h.broadcast,
  in order. The send is the last effect of the call; which goroutine receives it
  is a matter of the event loop, not of the function that sends. -/
  sent : List Message
  logs : List String

/-- The outcome of an event without the log: the hub, the Redis calls made and
the notices sent. -/
def HubStep.effects (s : HubStep) : Hub × List CacheCall × List Message :=
  (s.hub, s.cache, s.sent)

/-- NewHub: no rooms. -/
def NewHub (heap : Ptr → Client) : Hub := { chats := ∅, heap := heap }

/-- Log line written when a Redis call returns an error. -/
def logIfErr (env : Env) (call : CacheCall) (line : String) : List String :=
  match env.redis call with
  | some _ => [line]
  | none => []

/-- Hub.sendSystemMessage: the message it builds and sends on h.broadcast. -/
def Hub.sendSystemMessage (env : Env) (chatID : Int) (content : String) : Message :=
  { ID := 0, ChatID := chatID, UserID := 0, Username := "System", Content := content,
    MessageType := "system", ReplyToID := none, EditedAt := none, IsDeleted := false,
    DeletedAt := none, CreatedAt := env.now, UpdatedAt := 0 }

/-- Hub.registerClient. -/
def Hub.registerClient (env : Env) (h : Hub) (client : Ptr) : Except String HubStep :=
  let c := h.heap client
  -- if h.chats[client.ChatID] == nil: make the room map
  let chat : ChatMap := (h.chats.lookup c.ChatID).getD ∅
  -- if existingClient, exists := h.chats[client.ChatID][client.ID]; exists
  let closing : Except String ((Ptr → Client) × List String) :=
    match chat.lookup c.ID with
    | some existingClient =>
      match (h.heap existingClient).Close with
      | .error e => .error e
      | .ok closed =>
        .ok (Function.update h.heap existingClient closed,
             ["User already connected to chat, closing existing connection"])
    | none => .ok (h.heap, [])
  match closing with
  | .error e => .error e
  | .ok (heap1, warn) =>
    let chats1 := h.chats.insert c.ChatID (chat.insert c.ID client)
    let call := CacheCall.AddUser c.ChatID c.ID
    .ok { hub := { chats := chats1, heap := heap1 },
          cache := [call],
          sent := [Hub.sendSystemMessage env c.ChatID ("User " ++ c.Username ++ " joined the chat")],
          logs := warn ++ logIfErr env call "Failed to add user to Redis" ++ ["Client registered"] }

/-- Hub.unregisterClient. -/
def Hub.unregisterClient (env : Env) (h : Hub) (client : Ptr) : Except String HubStep :=
  let c := h.heap client
  match h.chats.lookup c.ChatID with
  | none => .ok { hub := h, cache := [], sent := [], logs := [] }
  | some chat =>
    match chat.lookup c.ID with
    | none => .ok { hub := h, cache := [], sent := [], logs := [] }
    | some _ =>
      let call := CacheCall.RemoveUser c.ChatID c.ID
      match c.Close with
      | .error e => .error e
      | .ok closed =>
        let chat1 := chat.erase c.ID
        let chats1 :=
          if chat1.entries.length = 0 then h.chats.erase c.ChatID
          else h.chats.insert c.ChatID chat1
        .ok { hub := { chats := chats1, heap := Function.update h.heap client closed },
              cache := [call],
              sent := [Hub.sendSystemMessage env c.ChatID ("User " ++ c.Username ++ " left the chat")],
              logs := logIfErr env call "Failed to remove user from Redis" ++ ["Client unregistered"] }

/-- The range loop of Hub.broadcastMessage over the entries of the room map:
a non-blocking send to each member; a member whose queue is full is closed and
deleted from the room map. -/
def Hub.fanOut (messageData : Bytes) :
    List (Sigma fun _ : Int => Ptr) → (Ptr → Client) → ChatMap → List String →
      Except String ((Ptr → Client) × ChatMap × List String)
  | [], heap, chat, logs => .ok (heap, chat, logs)
  | ⟨clientID, client⟩ :: rest, heap, chat, logs =>
    match (heap client).Send.trySend messageData with
    | .error e => .error e
    | .ok (some ch) =>
      Hub.fanOut messageData rest
        (Function.update heap client { heap client with Send := ch }) chat logs
    | .ok none =>
      match (heap client).Close with
      | .error e => .error e
      | .ok closed =>
        Hub.fanOut messageData rest (Function.update heap client closed)
          (chat.erase clientID)
          (logs ++ ["Failed to send message to client, closing connection"])

/-- Hub.broadcastMessage. -/
def Hub.broadcastMessage (env : Env) (h : Hub) (message : Message) : Except String HubStep :=
  let messageCache : MessageCache :=
    { ID := message.ID, ChatID := message.ChatID, UserID := message.UserID,
      Username := message.Username, Content := message.Content,
      MessageType := message.MessageType, CreatedAt := message.CreatedAt }
  let call1 := CacheCall.CacheMessage messageCache
  let call2 := CacheCall.UpdateChatLastMessage message.ChatID message.CreatedAt
  let logs0 := logIfErr env call1 "Failed to cache message" ++
    logIfErr env call2 "Failed to update chat last message timestamp"
  match h.chats.lookup message.ChatID with
  | none => .ok { hub := h, cache := [call1, call2], sent := [], logs := logs0 }
  | some chat =>
    match env.marshalMessage message with
    | .error _ =>
      .ok { hub := h, cache := [call1, call2], sent := [],
            logs := logs0 ++ ["Failed to marshal message"] }
    | .ok messageData =>
      match Hub.fanOut messageData chat.entries h.heap chat logs0 with
      | .error e => .error e
      | .ok (heap1, chat1, logs1) =>
        .ok { hub := { chats := h.chats.insert message.ChatID chat1, heap := heap1 },
              cache := [call1, call2], sent := [], logs := logs1 }

/-- Hub.GetChatClients. -/
def Hub.GetChatClients (h : Hub) (chatID : Int) : List Ptr :=
  match h.chats.lookup chatID with
  | some chat => chat.entries.map (fun e => e.2)
  | none => []

/-- Hub.IsUserInChat. -/
def Hub.IsUserInChat (h : Hub) (chatID userID : Int) : Bool :=
  match h.chats.lookup chatID with
  | some chat => (chat.lookup userID).isSome
  | none => false

/-- The handle registered for an owner in a room, if any: h.chats[chatID][userID]. -/
def Hub.member (h : Hub) (chatID userID : Int) : Option Ptr :=
  match h.chats.lookup chatID with
  | some chat => chat.lookup userID
  | none => none

/-! ## Events of the hub and reachable states -/

/-- The three kinds of event Hub.Run receives. -/
inductive Event where
  | register (client : Ptr)
  | unregister (client : Ptr)
  | broadcast (message : Message)

/-- The handler Hub.Run calls for an event. -/
def Hub.process (env : Env) (h : Hub) : Event → Except String HubStep
  | .register client => h.registerClient env client
  | .unregister client => h.unregisterClient env client
  | .broadcast message => h.broadcastMessage env message

/-- The room an event concerns. -/
def Event.room (h : Hub) : Event → Int
  | .register client => (h.heap client).ChatID
  | .unregister client => (h.heap client).ChatID
  | .broadcast message => message.ChatID

/-- Every entry chats[r][u] = p has p.ChatID = r and p.ID = u. -/
def Hub.KeyConsistent (h : Hub) : Prop :=
  ∀ r u p, h.member r u = some p → (h.heap p).ChatID = r ∧ (h.heap p).ID = u

/-- Every handle in the table has a Send queue that has not been closed. -/
def Hub.MembersOpen (h : Hub) : Prop :=
  ∀ r u p, h.member r u = some p → (h.heap p).Send.closed = false

/-- The handle has no entry anywhere in the table. -/
def Hub.Absent (h : Hub) (p : Ptr) : Prop :=
  ∀ r u, h.member r u ≠ some p

/-- The invariant of the hub with the handles seen so far: the table is key
consistent, its handles have open queues, and each of them has occurred in an
event. -/
def Hub.Inv (s : Hub × List Ptr) : Prop :=
  s.1.KeyConsistent ∧ s.1.MembersOpen ∧ ∀ r u p, s.1.member r u = some p → p ∈ s.2

/-- One event processed without a panic, on a hub together with the list of the
handles that have occurred in events so far. A Register is of a fresh handle: one
that has not occurred before and whose queue is open, as Handler.ServeWS makes it. -/
inductive Hub.Next (env : Env) : Hub × List Ptr → Hub × List Ptr → Prop where
  | register (h : Hub) (seen : List Ptr) (client : Ptr) (step : HubStep) :
      client ∉ seen → (h.heap client).Send.closed = false →
      h.registerClient env client = .ok step →
      Hub.Next env (h, seen) (step.hub, client :: seen)
  | unregister (h : Hub) (seen : List Ptr) (client : Ptr) (step : HubStep) :
      h.unregisterClient env client = .ok step →
      Hub.Next env (h, seen) (step.hub, client :: seen)
  | broadcast (h : Hub) (seen : List Ptr) (message : Message) (step : HubStep) :
      h.broadcastMessage env message = .ok step →
      Hub.Next env (h, seen) (step.hub, seen)

/-- Zero or more events processed in sequence. -/
def Hub.Reaches (env : Env) : Hub × List Ptr → Hub × List Ptr → Prop :=
  Relation.ReflTransGen (Hub.Next env)

/-- A handle the hub is done with: its queue has been closed, or it has occurred
in an event and has no entry in the table. -/
def Hub.Retired (s : Hub × List Ptr) (p : Ptr) : Prop :=
  (s.1.heap p).Send.closed = true ∨ (p ∈ s.2 ∧ s.1.Absent p)

/-- The step an event produces, or a step that changes nothing when its handler
panics. -/
def Hub.stepOrStay (env : Env) (h : Hub) (e : Event) : HubStep :=
  match h.process env e with
  | .ok step => step
  | .error _ => { hub := h, cache := [], sent := [], logs := [] }

/-! ## The goroutine of Hub.Run and its channels -/

/-- The three unbuffered channels of the hub (NewHub makes them without a
capacity). -/
inductive ChanId where
  | register
  | unregister
  | broadcast
deriving DecidableEq, Repr

/-- The channel operation a goroutine is blocked at. -/
inductive ChanOp where
  /-- A select (or receive) over these channels. -/
  | recv (chans : List ChanId)
  /-- A send on this channel. -/
  | send (chan : ChanId)
deriving DecidableEq, Repr

/-- True when the operation is a receive that includes the channel. -/
def ChanOp.receives (op : ChanOp) (chan : ChanId) : Bool :=
  match op with
  | .recv chans => decide (chan ∈ chans)
  | .send _ => false

/-- A send on an unbuffered channel by goroutine i completes only together with
a receive on that channel by another goroutine: true when some goroutine other
than i is blocked at a receive that includes the channel. -/
def sendCanComplete (ops : List ChanOp) (i : Nat) (chan : ChanId) : Bool :=
  (ops.eraseIdx i).any (fun op => op.receives chan)

/-- Where the goroutine running Hub.Run is blocked. -/
inductive RunPc where
  /-- At the select of Hub.Run. -/
  | select
  /-- Inside sendSystemMessage, called from registerClient or unregisterClient
  with h.mu held, at the send of this message on h.broadcast. -/
  | sendNotice (m : Message)
deriving DecidableEq, Repr

/-- The channel operation of the Hub.Run goroutine at each point. -/
def RunPc.op : RunPc → ChanOp
  | .select => .recv [ChanId.register, ChanId.unregister, ChanId.broadcast]
  | .sendNotice _ => .send ChanId.broadcast

/-- Hub.Run from its select: receive the event, run its handler on this same
goroutine up to the next channel operation. The handler of Register and of
Unregister reaches a send on h.broadcast when it emits a notice; the handler of
Broadcast returns to the select. -/
def Hub.Run (env : Env) (h : Hub) (e : Event) : Except String (Hub × RunPc) :=
  match h.process env e with
  | .error p => .error p
  | .ok step =>
    match step.sent with
    | m :: _ => .ok (step.hub, RunPc.sendNotice m)
    | [] => .ok (step.hub, RunPc.select)

/-! ## The remaining queries and Hub.Close (hub.go) -/

/-- Hub.GetChatClientCount. -/
def Hub.GetChatClientCount (h : Hub) (chatID : Int) : Nat :=
  match h.chats.lookup chatID with
  | some chat => chat.entries.length
  | none => 0

/-- The handles of the table in the order the two range loops of Hub.Close visit
them: room by room, entry by entry. -/
def Hub.allClients (h : Hub) : List Ptr :=
  h.chats.entries.flatMap (fun room => room.2.entries.map (fun e => e.2))

/-- The loops of Hub.Close: Close on each handle in turn. -/
def Hub.closeAll : List Ptr → (Ptr → Client) → Except String (Ptr → Client)
  | [], heap => .ok heap
  | client :: rest, heap =>
    match (heap client).Close with
    | .error e => .error e
    | .ok closed => Hub.closeAll rest (Function.update heap client closed)

/-- Hub.Close: close every handle of the table, then replace the table by an
empty one. -/
def Hub.Close (h : Hub) : Except String Hub :=
  match Hub.closeAll h.allClients h.heap with
  | .error e => .error e
  | .ok heap1 => .ok { chats := ∅, heap := heap1 }

/-- One call on the hub that returns: the handler of any event (a Register need
not be of a fresh handle), or Hub.Close. -/
inductive Hub.AnyNext (env : Env) : Hub → Hub → Prop where
  | event (h : Hub) (e : Event) (step : HubStep) :
      h.process env e = .ok step → Hub.AnyNext env h step.hub
  | close (h h1 : Hub) : h.Close = .ok h1 → Hub.AnyNext env h h1

/-! ## Constants of the connection (client.go) -/

/-- Constant time.Second, in nanoseconds, the unit of time.Duration. -/
def Second : Int := 1000000000

/-- Constant writeWait. -/
def writeWait : Int := 10 * Second

/-- Constant pongWait. -/
def pongWait : Int := 60 * Second

/-- Constant pingPeriod: a constant expression, evaluated exactly, with the
truncating division of Go. -/
def pingPeriod : Int := Int.tdiv (pongWait * 9) 10

/-- Constant maxMessageSize. -/
def maxMessageSize : Int := 4096

/-! ## The repository and the chat service (chat_repository.go, chat_service.go) -/

/-- Struct Chat of models.go: the fields the service reads. -/
structure Chat where
  ID : Int
  Name : String
  CreatedBy : Int
  IsPrivate : Bool
  IsActive : Bool
  MaxMembers : Int
  CurrentMembers : Int
deriving DecidableEq, Repr

/-- Interface ChatRepository: the methods the modelled service functions call,
each with the result the database gives. -/
structure ChatRepo where
  GetChatByID : Int → Except String Chat
  GetChatMembers : Int → Except String (List Int)
  AddUserToChat : Int → Int → String → GoError
  GetMessages : Int → Int → Int → Except String (List Message × Int)

/-- A call made on the repository. -/
inductive RepoCall where
  | GetChatByID (chatID : Int)
  | GetChatMembers (chatID : Int)
  | AddUserToChat (userID chatID : Int) (role : String)
deriving DecidableEq, Repr

/-- The loop that looks for the user id in the member list. -/
def isMemberLoop (userID : Int) : List Int → Bool
  | [] => false
  | memberID :: rest => if memberID = userID then true else isMemberLoop userID rest

/-- Method GetChatMembers of chatService. -/
def chatService.GetChatMembers (repo : ChatRepo) (chatID : Int) : Except String (List Int) :=
  match repo.GetChatMembers chatID with
  | .error e => .error ("failed to get chat members: " ++ e)
  | .ok members => .ok members

/-- Method JoinChat of chatService: the error it returns and the calls it makes
on the repository, in order. -/
def chatService.JoinChat (repo : ChatRepo) (userID chatID : Int) : GoError × List RepoCall :=
  match repo.GetChatByID chatID with
  | .error e => (some ("chat not found: " ++ e), [RepoCall.GetChatByID chatID])
  | .ok chat =>
    if !chat.IsActive then
      (some "chat is not active", [RepoCall.GetChatByID chatID])
    else
      match repo.GetChatMembers chatID with
      | .error e =>
        (some ("failed to get chat members: " ++ e),
          [RepoCall.GetChatByID chatID, RepoCall.GetChatMembers chatID])
      | .ok members =>
        if isMemberLoop userID members then
          (some "user already in chat",
            [RepoCall.GetChatByID chatID, RepoCall.GetChatMembers chatID])
        else if (members.length : Int) ≥ chat.MaxMembers then
          (some "chat is full", [RepoCall.GetChatByID chatID, RepoCall.GetChatMembers chatID])
        else
          match repo.AddUserToChat userID chatID "member" with
          | some e =>
            (some ("failed to join chat: " ++ e),
              [RepoCall.GetChatByID chatID, RepoCall.GetChatMembers chatID,
               RepoCall.AddUserToChat userID chatID "member"])
          | none =>
            (none, [RepoCall.GetChatByID chatID, RepoCall.GetChatMembers chatID,
               RepoCall.AddUserToChat userID chatID "member"])

/-- Struct MessageListResponse of models.go. -/
structure MessageListResponse where
  Messages : List Message
  Total : Int
  HasMore : Bool
deriving DecidableEq, Repr

/-- A value of the 64 bit type int: the integer reduced to the signed range. -/
def int64 (x : Int) : Int := (x + 2 ^ 63) % 2 ^ 64 - 2 ^ 63

/-- Addition of two values of type int. -/
def goAdd (a b : Int) : Int := int64 (a + b)

/-- Method GetMessages of chatService. -/
def chatService.GetMessages (repo : ChatRepo) (chatID limit offset : Int) :
    Except String MessageListResponse :=
  match repo.GetMessages chatID limit offset with
  | .error e => .error ("failed to get messages: " ++ e)
  | .ok (messages, total) =>
    .ok { Messages := messages, Total := total,
          HasMore := decide (goAdd offset messages.length < total) }

/-! ## Admission of a connection (chat_handler.go, Handler.ServeWS) -/

/-- What Handler.ServeWS reads from the request context and what the upgrade of
the connection gives. -/
structure ServeInput where
  /-- Result of utils.GetUserID. -/
  userID : Except String Int
  /-- Result of utils.GetUsername. -/
  username : Except String String
  /-- Result of strconv.Atoi on the chatID parameter. -/
  chatID : Except String Int
  /-- Result of upgrader.Upgrade. -/
  upgrade : Except String Conn

/-- What Handler.ServeWS does to the outside, in order. -/
inductive ServeEvent where
  /-- Call of h.service.GetChatMembers for this room. -/
  | getChatMembers (chatID : Int)
  /-- Call of upgrader.Upgrade. -/
  | upgrade
  /-- Send of the new handle on h.hub.register. -/
  | register (client : Client)
  /-- Start of the writePump and readPump goroutines of the new handle. -/
  | startPumps
deriving DecidableEq, Repr

/-- Result of Handler.ServeWS: the status of the JSON error response, or none
when the connection was established, and the events. -/
structure ServeResult where
  status : Option Nat
  events : List ServeEvent
deriving DecidableEq, Repr

/-- Handler.ServeWS. -/
def Handler.ServeWS (repo : ChatRepo) (inp : ServeInput) : ServeResult :=
  match inp.userID with
  | .error _ => { status := some 401, events := [] }
  | .ok userID =>
    match inp.username with
    | .error _ => { status := some 401, events := [] }
    | .ok username =>
      match inp.chatID with
      | .error _ => { status := some 400, events := [] }
      | .ok chatID =>
        match chatService.GetChatMembers repo chatID with
        | .error _ => { status := some 500, events := [ServeEvent.getChatMembers chatID] }
        | .ok members =>
          if !isMemberLoop userID members then
            { status := some 403, events := [ServeEvent.getChatMembers chatID] }
          else
            match inp.upgrade with
            | .error _ =>
              { status := some 500,
                events := [ServeEvent.getChatMembers chatID, ServeEvent.upgrade] }
            | .ok conn =>
              { status := none,
                events := [ServeEvent.getChatMembers chatID, ServeEvent.upgrade,
                  ServeEvent.register
                    { ID := userID, Username := username, ChatID := chatID,
                      Connection := some conn,
                      Send := { buf := [], cap := 256, closed := false } },
                  ServeEvent.startPumps] }

/-! ## Sample data -/

/-- A fresh handle as Handler.ServeWS builds it: open connection, empty queue of
capacity 256. -/
def newClient (id : Int) (username : String) (chatID : Int) : Client :=
  { ID := id, Username := username, ChatID := chatID,
    Connection := some { closed := false },
    Send := { buf := [], cap := 256, closed := false } }

/-- A sample environment: every frame decodes to the given request, the encoders
return the bytes of the content, Redis succeeds, and the database assigns id 42
when it is up and fails when it is down. -/
def sampleEnv (req : MessageRequest) (dbUp : Bool) : Env :=
  { now := 1000
    marshalMessage := fun m => .ok (m.Content.toList.map (fun ch => ch.toNat.toUInt8))
    marshalMap := fun fields =>
      .ok (fields.foldr (fun f acc => f.1.toList.map (fun ch => ch.toNat.toUInt8) ++ acc) [])
    unmarshalRequest := fun _ => .ok req
    redis := fun _ => none
    dbInsertMessage := fun m =>
      if dbUp then .ok (42, m.CreatedAt, m.CreatedAt) else .error "connection refused" }

/-- A handle whose queue of capacity 256 holds 256 pending frames. -/
def fullClient (id : Int) (username : String) (chatID : Int) : Client :=
  { ID := id, Username := username, ChatID := chatID,
    Connection := some { closed := false },
    Send := { buf := List.replicate 256 [], cap := 256, closed := false } }

/-- A sample environment in which every collaborator succeeds. -/
def okEnv : Env := sampleEnv { Content := "hi", MessageType := "text", ReplyToID := none } true

/-- Sample memory: handles 1 and 2 are two connections of owner 1 to room 7,
handle 3 is owner 2 in room 7, handle 4 is owner 3 in room 7 with a full queue,
every other handle is owner 9 in room 8. -/
def sampleHeap : Ptr → Client := fun p =>
  if p = 1 then newClient 1 "ann" 7
  else if p = 2 then newClient 1 "ann" 7
  else if p = 3 then newClient 2 "bob" 7
  else if p = 4 then fullClient 3 "cy" 7
  else newClient 9 "zed" 8

/-- Sample room map: owner 1 on handle 1, owner 2 on handle 3, owner 3 on handle 4. -/
def sampleRoom : ChatMap := (((∅ : ChatMap).insert 1 1).insert 2 3).insert 3 4

/-- Sample hub: room 7 with the sample room map. -/
def sampleHub : Hub :=
  { chats := (∅ : AList (fun _ : Int => ChatMap)).insert 7 sampleRoom, heap := sampleHeap }

/-- Sample hub in which owner 1 of room 7 is on handle 2 and is alone in the room. -/
def soloHub : Hub :=
  { chats := (∅ : AList (fun _ : Int => ChatMap)).insert 7 ((∅ : ChatMap).insert 1 2),
    heap := sampleHeap }

/-- Sample hub with two rooms: owner 1 on handle 1 and owner 2 on handle 3 in
room 7, owner 9 on handle 5 in room 8. -/
def pairHub : Hub :=
  Hub.mk
    (AList.insert 7 (AList.insert 2 3 (AList.insert 1 1 (∅ : ChatMap)))
      (AList.insert 8 (AList.insert 9 5 (∅ : ChatMap)) (∅ : AList (fun _ : Int => ChatMap))))
    sampleHeap

/-- The sample memory after Register of handle 1 and then of handle 2, which
supersedes handle 1. -/
def supersededHub : Hub :=
  (((NewHub sampleHeap).stepOrStay okEnv (Event.register 1)).hub.stepOrStay okEnv
    (Event.register 2)).hub

/-- The state has room 7 with exactly owner 1 on handle 1, and handle 1 is as
Handler.ServeWS made it except for k pending frames. -/
def soloWith (k : Nat) (s : Hub × List Ptr) : Prop :=
  (∀ u, s.1.member 7 u = if u = 1 then some 1 else none) ∧
  s.1.heap 1 = { newClient 1 "ann" 7 with
    Send := { buf := List.replicate k [104, 105], cap := 256, closed := false } }

/-- A sample environment in which no frame decodes. -/
def badJsonEnv : Env :=
  { okEnv with unmarshalRequest := fun _ => .error "invalid character" }

/-- A sample repository: chat 7 is active with room for 3 members and has the
members 1 and 2; any other chat is not found; the database accepts a new member;
a page of messages holds the sample content and the total is 5. -/
def sampleRepo : ChatRepo :=
  { GetChatByID := fun chatID =>
      if chatID = 7 then
        .ok { ID := 7, Name := "general", CreatedBy := 1, IsPrivate := false, IsActive := true,
              MaxMembers := 3, CurrentMembers := 2 }
      else .error "sql: no rows in result set"
    GetChatMembers := fun chatID => if chatID = 7 then .ok [1, 2] else .ok []
    AddUserToChat := fun _ _ _ => none
    GetMessages := fun chatID _ _ =>
      .ok ([{ ID := 42, ChatID := chatID, UserID := 1, Username := "ann", Content := "hi",
              MessageType := "text", ReplyToID := none, EditedAt := none, IsDeleted := false,
              DeletedAt := none, CreatedAt := 1000, UpdatedAt := 1000 }], 5) }

/-- A sample message for room 7. -/
def sampleMessage : Message :=
  { ID := 42, ChatID := 7, UserID := 1, Username := "ann", Content := "hi",
    MessageType := "text", ReplyToID := none, EditedAt := none, IsDeleted := false,
    DeletedAt := none, CreatedAt := 1000, UpdatedAt := 1000 }

/-! ## Lemmas on validation -/

theorem utf8ByteSize_bytesOfLength (n : Nat) : (bytesOfLength n).utf8ByteSize = n := by
  unfold bytesOfLength
  rw [String.utf8ByteSize_mk]
  induction n with
  | zero => rfl
  | succ k ih =>
    rw [List.replicate_succ, String.utf8Len_cons, ih]
    rfl

theorem mapBool_validTypes (t : String) :
    mapBool validTypes t = true ↔
      (t = "text" ∨ t = "image" ∨ t = "file" ∨ t = "system") := by
  unfold mapBool validTypes
  by_cases h1 : t = "text"
  · subst h1; simp [List.lookup]
  by_cases h2 : t = "image"
  · subst h2; simp [List.lookup]
  by_cases h3 : t = "file"
  · subst h3; simp [List.lookup]
  by_cases h4 : t = "system"
  · subst h4; simp [List.lookup]
  have e1 : (t == "text") = false := beq_eq_false_iff_ne.mpr h1
  have e2 : (t == "image") = false := beq_eq_false_iff_ne.mpr h2
  have e3 : (t == "file") = false := beq_eq_false_iff_ne.mpr h3
  have e4 : (t == "system") = false := beq_eq_false_iff_ne.mpr h4
  simp [List.lookup, h1, h2, h3, h4, e1, e2, e3, e4]

/-- The type test of validateMessage, after defaulting. -/
theorem typeAccepted_iff (t : String) :
    mapBool validTypes (if t = "" then "text" else t) = true ↔
      (t = "" ∨ t = "text" ∨ t = "image" ∨ t = "file" ∨ t = "system") := by
  by_cases h : t = ""
  · subst h; simp [mapBool, validTypes, List.lookup]
  · rw [if_neg h, mapBool_validTypes]
    simp only [h, false_or]

theorem validateMessage_eq (msg : MessageRequest) :
    validateMessage msg =
      if msg.Content.utf8ByteSize = 0 then some "message content cannot be empty"
      else if msg.Content.utf8ByteSize > 4000 then some "message content too long"
      else if mapBool validTypes (if msg.MessageType = "" then "text" else msg.MessageType)
        then none else some "invalid message type" := by
  unfold validateMessage
  by_cases h : msg.MessageType = "" <;>
    cases hv : mapBool validTypes (if msg.MessageType = "" then "text" else msg.MessageType) <;>
    simp [h] at hv ⊢ <;> simp [hv]

/-! ## Lemmas on channels and handles -/

theorem Chan.trySend_room (ch : Chan) (data : Bytes) (ho : ch.closed = false)
    (hr : ch.buf.length < ch.cap) :
    ch.trySend data = .ok (some { ch with buf := ch.buf ++ [data] }) := by
  simp [Chan.trySend, ho, hr]

theorem Chan.trySend_full (ch : Chan) (data : Bytes) (ho : ch.closed = false)
    (hr : ¬ ch.buf.length < ch.cap) : ch.trySend data = .ok none := by
  simp [Chan.trySend, ho, hr]

theorem Client.Close_of_open (c : Client) (ho : c.Send.closed = false) :
    c.Close = .ok c.tornDown := by
  unfold Client.Close Client.tornDown Chan.close
  cases hc : c.Connection <;> simp [ho, hc]

theorem Client.Close_of_closed (c : Client) (ho : c.Send.closed = true) :
    c.Close = .error "close of closed channel" := by
  unfold Client.Close Chan.close
  cases hc : c.Connection <;> simp [ho, hc]

/-- What sendError does to a handle whose Send queue has not been closed. -/
theorem Client.sendError_of_open (env : Env) (c : Client) (message : String)
    (ho : c.Send.closed = false) (hconn : c.Connection ≠ none) :
    c.sendError env message = .ok
      (match env.marshalError message env.now with
       | .error _ => c
       | .ok data => if c.hasRoom then c.enqueued data else c.hungUp) := by
  unfold Client.sendError
  cases hm : env.marshalError message env.now with
  | error e => rfl
  | ok data =>
    by_cases hr : c.Send.buf.length < c.Send.cap
    · simp [Chan.trySend_room _ _ ho hr, Client.hasRoom, hr, Client.enqueued]
    · cases hc : c.Connection with
      | none => exact absurd hc hconn
      | some conn =>
        simp [Chan.trySend_full _ _ ho hr, Client.hasRoom, hr, Client.hungUp, hc]

/-! ## Lemmas on the inbound task -/

theorem Client.connection_of_ReadMessage (c : Client) (incoming : Except String Bytes)
    (r : Except String Bytes) (h : c.ReadMessage incoming = .ok r) : c.Connection ≠ none := by
  intro hc
  simp [Client.ReadMessage, hc] at h

/-- The pass of the read loop on a frame that decodes but fails validation. -/
theorem Client.readPump_invalid (env : Env) (c : Client) (incoming : Except String Bytes)
    (data : Bytes) (msg : MessageRequest) (err : String)
    (hread : c.ReadMessage incoming = .ok (.ok data))
    (hdec : env.unmarshalRequest data = .ok msg)
    (hval : validateMessage msg = some err) :
    c.readPump env incoming =
      match c.sendError env ("Invalid message: " ++ err) with
      | .error e => .error e
      | .ok c1 => .ok { client := c1, events := [], logs := [], continues := true } := by
  simp only [Client.readPump, hread, hdec, hval]

theorem chatService.SaveMessage_error (env : Env) (m : Message) (e : String)
    (h : env.dbInsertMessage m = .error e) :
    chatService.SaveMessage env m = (m, some ("failed to save message: " ++ ("failed to save message: " ++ e))) := by
  simp [chatService.SaveMessage, chatRepository.SaveMessage, h]

theorem chatService.SaveMessage_ok (env : Env) (m : Message) (id : Int) (t1 t2 : Time)
    (h : env.dbInsertMessage m = .ok (id, t1, t2)) :
    chatService.SaveMessage env m =
      ({ m with ID := id, CreatedAt := t1, UpdatedAt := t2 }, none) := by
  simp [chatService.SaveMessage, chatRepository.SaveMessage, h]

/-- The pass of the read loop on a valid frame when SaveMessage returns an error. -/
theorem Client.readPump_store_down (env : Env) (c : Client) (incoming : Except String Bytes)
    (data : Bytes) (msg : MessageRequest) (e : String)
    (hread : c.ReadMessage incoming = .ok (.ok data))
    (hdec : env.unmarshalRequest data = .ok msg)
    (hval : validateMessage msg = none)
    (hsave : (chatService.SaveMessage env (c.buildMessage env msg)).2 = some e) :
    c.readPump env incoming =
      match c.sendError env "Failed to save message" with
      | .error e => .error e
      | .ok c1 => .ok { client := c1, events := [PumpEvent.save (c.buildMessage env msg)],
                        logs := ["Failed to save message"], continues := true } := by
  simp only [Client.readPump, hread, hdec, hval]
  generalize chatService.SaveMessage env (c.buildMessage env msg) = r at hsave
  obtain ⟨m1, r1⟩ := r
  simp only at hsave
  subst hsave
  rfl

/-- The pass of the read loop on a valid frame when the store succeeds. -/
theorem Client.readPump_saved (env : Env) (c : Client) (incoming : Except String Bytes)
    (data : Bytes) (msg : MessageRequest) (id : Int) (t1 t2 : Time)
    (hread : c.ReadMessage incoming = .ok (.ok data))
    (hdec : env.unmarshalRequest data = .ok msg)
    (hval : validateMessage msg = none)
    (hdb : env.dbInsertMessage (c.buildMessage env msg) = .ok (id, t1, t2)) :
    c.readPump env incoming =
      .ok { client := c,
            events := [PumpEvent.save (c.buildMessage env msg),
                       PumpEvent.broadcast
                         { c.buildMessage env msg with ID := id, CreatedAt := t1, UpdatedAt := t2 }],
            logs := [], continues := true } := by
  have hs := chatService.SaveMessage_ok env (c.buildMessage env msg) id t1 t2 hdb
  simp only [Client.readPump, hread, hdec, hval, hs]

/-! ## Lemmas on the fan-out loop -/

theorem Client.afterOffer_step (c : Client) (data : Bytes) (ho : c.Send.closed = false) :
    (c.hasRoom = true ∧ c.Send.trySend data = .ok (some (c.afterOffer data).Send) ∧
        c.afterOffer data = { c with Send := (c.afterOffer data).Send }) ∨
    (c.hasRoom = false ∧ c.Send.trySend data = .ok none ∧
        c.Close = .ok (c.afterOffer data)) := by
  by_cases hr : c.Send.buf.length < c.Send.cap
  · left
    have h1 : c.hasRoom = true := by simp [Client.hasRoom, hr]
    refine ⟨h1, ?_, ?_⟩
    · simp [Client.afterOffer, h1, Client.enqueued, Chan.trySend_room _ _ ho hr]
    · simp [Client.afterOffer, h1, Client.enqueued]
  · right
    have h1 : c.hasRoom = false := by simp [Client.hasRoom, hr]
    refine ⟨h1, Chan.trySend_full _ _ ho hr, ?_⟩
    simp [Client.afterOffer, h1, Client.Close_of_open c ho]

/-- The range loop succeeds on members with open queues and distinct handles:
every handle in the list is offered the frame once, no other cell changes, and
exactly the keys of the members with a full queue are deleted from the room map. -/
theorem Hub.fanOut_spec (data : Bytes) :
    ∀ (l : List (Sigma fun _ : Int => Ptr)) (heap : Ptr → Client) (chat : ChatMap)
      (logs : List String),
      (∀ e ∈ l, (heap e.2).Send.closed = false) →
      (l.map (fun e => e.2)).Nodup →
      ∃ heap1 chat1 logs1, Hub.fanOut data l heap chat logs = .ok (heap1, chat1, logs1) ∧
        (∀ p, p ∉ l.map (fun e => e.2) → heap1 p = heap p) ∧
        (∀ e ∈ l, heap1 e.2 = (heap e.2).afterOffer data) ∧
        (∀ u, (∀ e ∈ l, e.1 = u → (heap e.2).hasRoom = true) →
          chat1.lookup u = chat.lookup u) ∧
        (∀ e ∈ l, (heap e.2).hasRoom = false → chat1.lookup e.1 = none) ∧
        (∀ u q, chat1.lookup u = some q → chat.lookup u = some q) := by
  intro l
  induction l with
  | nil =>
    intro heap chat logs _ _
    exact ⟨heap, chat, logs, rfl, fun _ _ => rfl, by simp, fun _ _ => rfl, by simp,
      fun _ _ hq => hq⟩
  | cons hd rest ih =>
    intro heap chat logs hopen hnd
    obtain ⟨u, p⟩ := hd
    have hp_open : (heap p).Send.closed = false := hopen ⟨u, p⟩ (List.mem_cons_self _ _)
    rw [List.map_cons, List.nodup_cons] at hnd
    obtain ⟨hp_notin, hnd_rest⟩ := hnd
    -- the cell of the head after its offer; the other cells are untouched
    have hagree : ∀ e ∈ rest,
        Function.update heap p ((heap p).afterOffer data) e.2 = heap e.2 := by
      intro e he
      have hne : e.2 ≠ p := by
        intro h
        exact hp_notin (List.mem_map.mpr ⟨e, he, h⟩)
      exact Function.update_noteq hne _ _
    have hopen_rest : ∀ e ∈ rest,
        (Function.update heap p ((heap p).afterOffer data) e.2).Send.closed = false := by
      intro e he
      rw [hagree e he]
      exact hopen e (List.mem_cons_of_mem _ he)
    rcases Client.afterOffer_step (heap p) data hp_open with ⟨hroom, hsend, hcell⟩ | ⟨hfull, hsend, hclose⟩
    · obtain ⟨heap1, chat1, logs1, hrun, hout, hin, hkeep, hgone, hsub⟩ :=
        ih (Function.update heap p ((heap p).afterOffer data)) chat logs hopen_rest hnd_rest
      refine ⟨heap1, chat1, logs1, ?_, ?_, ?_, ?_, ?_, hsub⟩
      · simp only [Hub.fanOut, hsend]
        rw [← hcell]
        exact hrun
      · intro q hq
        rw [List.map_cons, List.mem_cons, not_or] at hq
        rw [hout q hq.2]
        exact Function.update_noteq hq.1 _ _
      · intro e he
        rcases List.mem_cons.mp he with rfl | he
        · rw [hout p hp_notin]
          exact Function.update_same _ _ _
        · rw [hin e he, hagree e he]
      · intro k hk
        apply hkeep
        intro e he hek
        rw [hagree e he]
        exact hk e (List.mem_cons_of_mem _ he) hek
      · intro e he hef
        rcases List.mem_cons.mp he with rfl | he
        · rw [hroom] at hef
          exact absurd hef (by decide)
        · apply hgone e he
          rw [hagree e he]
          exact hef
    · obtain ⟨heap1, chat1, logs1, hrun, hout, hin, hkeep, hgone, hsub⟩ :=
        ih (Function.update heap p ((heap p).afterOffer data)) (chat.erase u)
          (logs ++ ["Failed to send message to client, closing connection"])
          hopen_rest hnd_rest
      have hsub1 : ∀ k q, chat1.lookup k = some q → chat.lookup k = some q := by
        intro k q hk
        have h1 := hsub k q hk
        by_cases hku : k = u
        · rw [hku, AList.lookup_erase] at h1
          exact Option.noConfusion h1
        · rwa [AList.lookup_erase_ne hku] at h1
      refine ⟨heap1, chat1, logs1, ?_, ?_, ?_, ?_, ?_, hsub1⟩
      · simp only [Hub.fanOut, hsend, hclose]
        exact hrun
      · intro q hq
        rw [List.map_cons, List.mem_cons, not_or] at hq
        rw [hout q hq.2]
        exact Function.update_noteq hq.1 _ _
      · intro e he
        rcases List.mem_cons.mp he with rfl | he
        · rw [hout p hp_notin]
          exact Function.update_same _ _ _
        · rw [hin e he, hagree e he]
      · intro k hk
        have hku : k ≠ u := by
          intro h
          have := hk ⟨u, p⟩ (List.mem_cons_self _ _) h.symm
          rw [hfull] at this
          exact absurd this (by decide)
        rw [hkeep k ?_, AList.lookup_erase_ne hku]
        intro e he hek
        rw [hagree e he]
        exact hk e (List.mem_cons_of_mem _ he) hek
      · intro e he hef
        rcases List.mem_cons.mp he with rfl | he
        · by_cases hall : ∀ e ∈ rest, e.1 = u →
              (Function.update heap p ((heap p).afterOffer data) e.2).hasRoom = true
          · rw [hkeep u hall]
            exact AList.lookup_erase u chat
          · push_neg at hall
            obtain ⟨e, he, hek, hef⟩ := hall
            rw [← hek]
            exact hgone e he (by simpa using hef)
        · apply hgone e he
          rw [hagree e he]
          exact hef

/-! ## Lemmas on the membership table -/

theorem Hub.member_eq_some (h : Hub) (r u : Int) (p : Ptr) :
    h.member r u = some p ↔
      ∃ chat, h.chats.lookup r = some chat ∧ chat.lookup u = some p := by
  unfold Hub.member
  cases hc : h.chats.lookup r with
  | none => simp
  | some chat => simp

theorem ChatMap.mem_entries (chat : ChatMap) (e : Sigma fun _ : Int => Ptr) :
    e ∈ chat.entries ↔ chat.lookup e.1 = some e.2 := by
  obtain ⟨u, p⟩ := e
  exact (AList.mem_lookup_iff (s := chat) (a := u) (b := p)).symm

theorem ChatMap.ptrs_nodup (chat : ChatMap)
    (hinj : ∀ u1 u2 p, chat.lookup u1 = some p → chat.lookup u2 = some p → u1 = u2) :
    (chat.entries.map (fun e => e.2)).Nodup := by
  apply List.Nodup.map_on _ chat.nodupKeys.nodup
  intro x hx y hy hxy
  obtain ⟨u1, p1⟩ := x
  obtain ⟨u2, p2⟩ := y
  simp only at hxy
  subst hxy
  have h1 := (ChatMap.mem_entries chat _).mp hx
  have h2 := (ChatMap.mem_entries chat _).mp hy
  have := hinj u1 u2 p1 h1 h2
  subst this
  rfl

/-- Hub.broadcastMessage on a room that exists, with an encodable message, open
member queues and no handle registered under two owners of the room. -/
theorem Hub.broadcastMessage_spec (env : Env) (h : Hub) (m : Message) (data : Bytes)
    (chat : ChatMap)
    (hroom : h.chats.lookup m.ChatID = some chat)
    (hm : env.marshalMessage m = .ok data)
    (hopen : ∀ u p, chat.lookup u = some p → (h.heap p).Send.closed = false)
    (hinj : ∀ u1 u2 p, chat.lookup u1 = some p → chat.lookup u2 = some p → u1 = u2) :
    ∃ step, h.broadcastMessage env m = .ok step ∧ step.sent = [] ∧
      (∀ p, (∀ u, chat.lookup u ≠ some p) → step.hub.heap p = h.heap p) ∧
      (∀ u p, chat.lookup u = some p → step.hub.heap p = (h.heap p).afterOffer data) ∧
      (∀ u p, chat.lookup u = some p → (h.heap p).hasRoom = true →
        step.hub.member m.ChatID u = some p) ∧
      (∀ u p, chat.lookup u = some p → (h.heap p).hasRoom = false →
        step.hub.member m.ChatID u = none) ∧
      (∀ r, r ≠ m.ChatID → step.hub.chats.lookup r = h.chats.lookup r) ∧
      (∀ u p, step.hub.member m.ChatID u = some p → chat.lookup u = some p) := by
  have hopen1 : ∀ e ∈ chat.entries, (h.heap e.2).Send.closed = false := by
    intro e he
    exact hopen e.1 e.2 ((ChatMap.mem_entries chat e).mp he)
  obtain ⟨heap1, chat1, logs1, hrun, hout, hin, hkeep, hgone, hsub⟩ :=
    Hub.fanOut_spec data chat.entries h.heap chat
      (logIfErr env (CacheCall.CacheMessage
          { ID := m.ID, ChatID := m.ChatID, UserID := m.UserID, Username := m.Username,
            Content := m.Content, MessageType := m.MessageType, CreatedAt := m.CreatedAt })
          "Failed to cache message" ++
        logIfErr env (CacheCall.UpdateChatLastMessage m.ChatID m.CreatedAt)
          "Failed to update chat last message timestamp")
      hopen1 (ChatMap.ptrs_nodup chat hinj)
  have hres : h.broadcastMessage env m = .ok
      { hub := { chats := h.chats.insert m.ChatID chat1, heap := heap1 },
        cache := [CacheCall.CacheMessage
            { ID := m.ID, ChatID := m.ChatID, UserID := m.UserID, Username := m.Username,
              Content := m.Content, MessageType := m.MessageType, CreatedAt := m.CreatedAt },
          CacheCall.UpdateChatLastMessage m.ChatID m.CreatedAt],
        sent := [], logs := logs1 } := by
    simp only [Hub.broadcastMessage, hroom, hm, hrun]
  refine ⟨_, hres, rfl, ?_, ?_, ?_, ?_, ?_, ?_⟩
  rotate_right
  · intro u p hup
    simp only [Hub.member, AList.lookup_insert] at hup
    exact hsub u p hup
  · intro p hp
    apply hout
    intro hmem
    obtain ⟨e, he, hep⟩ := List.mem_map.mp hmem
    apply hp e.1
    rw [← hep]
    exact (ChatMap.mem_entries chat e).mp he
  · intro u p hup
    exact hin ⟨u, p⟩ ((ChatMap.mem_entries chat ⟨u, p⟩).mpr hup)
  · intro u p hup hr
    simp only [Hub.member, AList.lookup_insert]
    rw [hkeep u ?_, hup]
    intro e he heu
    have h1 := (ChatMap.mem_entries chat e).mp he
    rw [heu, hup] at h1
    rw [← Option.some.inj h1]
    exact hr
  · intro u p hup hr
    simp only [Hub.member, AList.lookup_insert]
    exact hgone ⟨u, p⟩ ((ChatMap.mem_entries chat ⟨u, p⟩).mpr hup) hr
  · intro r hr
    exact AList.lookup_insert_ne hr

/-- Hub.broadcastMessage for a room with no entry in the table: nothing changes. -/
theorem Hub.broadcastMessage_no_room (env : Env) (h : Hub) (m : Message)
    (hroom : h.chats.lookup m.ChatID = none) :
    ∃ step, h.broadcastMessage env m = .ok step ∧ step.hub = h ∧ step.sent = [] := by
  have hres : h.broadcastMessage env m = .ok
      { hub := h,
        cache := [CacheCall.CacheMessage
            { ID := m.ID, ChatID := m.ChatID, UserID := m.UserID, Username := m.Username,
              Content := m.Content, MessageType := m.MessageType, CreatedAt := m.CreatedAt },
          CacheCall.UpdateChatLastMessage m.ChatID m.CreatedAt],
        sent := [],
        logs := logIfErr env (CacheCall.CacheMessage
            { ID := m.ID, ChatID := m.ChatID, UserID := m.UserID, Username := m.Username,
              Content := m.Content, MessageType := m.MessageType, CreatedAt := m.CreatedAt })
            "Failed to cache message" ++
          logIfErr env (CacheCall.UpdateChatLastMessage m.ChatID m.CreatedAt)
            "Failed to update chat last message timestamp" } := by
    simp only [Hub.broadcastMessage, hroom]
  exact ⟨_, hres, rfl, rfl⟩

theorem ChatMap.entries_eq_nil_iff (chat : ChatMap) :
    chat.entries.length = 0 ↔ ∀ u, chat.lookup u = none := by
  rw [List.length_eq_zero, List.eq_nil_iff_forall_not_mem]
  constructor
  · intro h u
    cases hl : chat.lookup u with
    | none => rfl
    | some p => exact absurd ((ChatMap.mem_entries chat ⟨u, p⟩).mpr hl) (h ⟨u, p⟩)
  · intro h e he
    have := (ChatMap.mem_entries chat e).mp he
    rw [h e.1] at this
    exact Option.noConfusion this

/-- The entries of a room map under one owner id, after an insert for that owner. -/
theorem ChatMap.filter_insert (chat : ChatMap) (u : Int) (p : Ptr) :
    (chat.insert u p).entries.filter (fun e => decide (e.1 = u)) = [⟨u, p⟩] := by
  rw [AList.insert_entries, List.filter_cons_of_pos (by simp)]
  congr 1
  rw [List.filter_eq_nil_iff]
  intro e he heu
  have hk : e.1 ∈ (List.kerase u chat.entries).keys := List.mem_keys_of_mem he
  rw [of_decide_eq_true heu] at hk
  exact List.not_mem_keys_kerase u chat.nodupKeys hk

/-- Hub.registerClient returns when the handle it supersedes, if any, has an open
queue: the superseded handle is torn down, the new handle takes the slot of its
owner in its room, and no other slot or cell changes. -/
theorem Hub.registerClient_spec (env : Env) (h : Hub) (client : Ptr)
    (hopen : ∀ p, h.member (h.heap client).ChatID (h.heap client).ID = some p →
      (h.heap p).Send.closed = false) :
    ∃ step, h.registerClient env client = .ok step ∧
      step.hub.member (h.heap client).ChatID (h.heap client).ID = some client ∧
      (∀ p, h.member (h.heap client).ChatID (h.heap client).ID = some p →
        step.hub.heap p = (h.heap p).tornDown) ∧
      (∀ q, h.member (h.heap client).ChatID (h.heap client).ID ≠ some q →
        step.hub.heap q = h.heap q) ∧
      (∀ r u, ¬ (r = (h.heap client).ChatID ∧ u = (h.heap client).ID) →
        step.hub.member r u = h.member r u) ∧
      (∀ chat, step.hub.chats.lookup (h.heap client).ChatID = some chat →
        chat.entries.filter (fun e => decide (e.1 = (h.heap client).ID)) =
          [⟨(h.heap client).ID, client⟩]) ∧
      step.cache = [CacheCall.AddUser (h.heap client).ChatID (h.heap client).ID] ∧
      step.sent = [Hub.sendSystemMessage env (h.heap client).ChatID
        ("User " ++ (h.heap client).Username ++ " joined the chat")] := by
  have hmem : h.member (h.heap client).ChatID (h.heap client).ID =
      AList.lookup (h.heap client).ID
        ((AList.lookup (h.heap client).ChatID h.chats).getD ∅) := by
    unfold Hub.member
    cases h.chats.lookup (h.heap client).ChatID with
    | none => simp [AList.lookup_empty]
    | some chat => rfl
  have hslots : ∀ (heap1 : Ptr → Client) (r u : Int),
      ¬ (r = (h.heap client).ChatID ∧ u = (h.heap client).ID) →
      Hub.member (Hub.mk (h.chats.insert (h.heap client).ChatID
          (((AList.lookup (h.heap client).ChatID h.chats).getD ∅).insert
            (h.heap client).ID client)) heap1) r u = h.member r u := by
    intro heap1 r u hru
    unfold Hub.member
    by_cases hr : r = (h.heap client).ChatID
    · subst hr
      have hu : u ≠ (h.heap client).ID := fun hu => hru ⟨rfl, hu⟩
      simp only [AList.lookup_insert, AList.lookup_insert_ne hu]
      cases h.chats.lookup (h.heap client).ChatID with
      | none => simp [AList.lookup_empty]
      | some chat => rfl
    · simp only [AList.lookup_insert_ne hr]
  rw [hmem] at hopen ⊢
  cases hex : AList.lookup (h.heap client).ID
      ((AList.lookup (h.heap client).ChatID h.chats).getD ∅) with
  | none =>
    refine ⟨_, by simp only [Hub.registerClient, hex]; rfl, ?_, ?_, ?_, ?_, ?_, rfl, rfl⟩
    · simp only [Hub.member, AList.lookup_insert]
    · intro p hp
      exact Option.noConfusion hp
    · intro q _
      rfl
    · exact hslots _
    · intro chat hchat
      simp only [AList.lookup_insert] at hchat
      rw [← Option.some.inj hchat]
      exact ChatMap.filter_insert _ _ _
  | some existing =>
    have hcl := Client.Close_of_open (h.heap existing) (hopen existing hex)
    refine ⟨_, by simp only [Hub.registerClient, hex, hcl]; rfl, ?_, ?_, ?_, ?_, ?_, rfl, rfl⟩
    · simp only [Hub.member, AList.lookup_insert]
    · intro p hp
      rw [← Option.some.inj hp]
      exact Function.update_same _ _ _
    · intro q hq
      have hne : q ≠ existing := fun hqe => hq (by rw [hqe])
      exact Function.update_noteq hne _ _
    · exact hslots _
    · intro chat hchat
      simp only [AList.lookup_insert] at hchat
      rw [← Option.some.inj hchat]
      exact ChatMap.filter_insert _ _ _

/-- Hub.unregisterClient has no effect when the owner id of the handle has no
entry in the table. -/
theorem Hub.unregisterClient_absent (env : Env) (h : Hub) (client : Ptr)
    (habs : h.member (h.heap client).ChatID (h.heap client).ID = none) :
    h.unregisterClient env client = .ok { hub := h, cache := [], sent := [], logs := [] } := by
  unfold Hub.member at habs
  cases hc : h.chats.lookup (h.heap client).ChatID with
  | none => simp only [Hub.unregisterClient, hc]
  | some chat =>
    rw [hc] at habs
    simp only at habs
    simp only [Hub.unregisterClient, hc, habs]

/-- Hub.unregisterClient when the owner id of the handle has an entry in its room
and the queue of the handle is open: the handle is torn down, the entry under its
owner id is deleted, the room map is deleted when that leaves it empty, and
nothing else changes. -/
theorem Hub.unregisterClient_spec (env : Env) (h : Hub) (client : Ptr) (chat : ChatMap)
    (p0 : Ptr)
    (hroom : h.chats.lookup (h.heap client).ChatID = some chat)
    (hin : chat.lookup (h.heap client).ID = some p0)
    (hopen : (h.heap client).Send.closed = false) :
    ∃ step, h.unregisterClient env client = .ok step ∧
      step.hub.heap client = (h.heap client).tornDown ∧
      (∀ q, q ≠ client → step.hub.heap q = h.heap q) ∧
      step.hub.member (h.heap client).ChatID (h.heap client).ID = none ∧
      (∀ u, u ≠ (h.heap client).ID →
        step.hub.member (h.heap client).ChatID u = chat.lookup u) ∧
      (∀ r, r ≠ (h.heap client).ChatID → step.hub.chats.lookup r = h.chats.lookup r) ∧
      (step.hub.chats.lookup (h.heap client).ChatID = none ↔
        ∀ u, u ≠ (h.heap client).ID → chat.lookup u = none) ∧
      step.cache = [CacheCall.RemoveUser (h.heap client).ChatID (h.heap client).ID] ∧
      step.sent = [Hub.sendSystemMessage env (h.heap client).ChatID
        ("User " ++ (h.heap client).Username ++ " left the chat")] := by
  have hcl := Client.Close_of_open (h.heap client) hopen
  have hempty : (chat.erase (h.heap client).ID).entries.length = 0 ↔
      ∀ u, u ≠ (h.heap client).ID → chat.lookup u = none := by
    rw [ChatMap.entries_eq_nil_iff]
    constructor
    · intro hall u hu
      rw [← AList.lookup_erase_ne hu]
      exact hall u
    · intro hall u
      by_cases hu : u = (h.heap client).ID
      · rw [hu]
        exact AList.lookup_erase _ _
      · rw [AList.lookup_erase_ne hu]
        exact hall u hu
  by_cases hlen : (chat.erase (h.heap client).ID).entries.length = 0
  · have hres : h.unregisterClient env client = .ok
        { hub := { chats := h.chats.erase (h.heap client).ChatID,
                   heap := Function.update h.heap client (h.heap client).tornDown },
          cache := [CacheCall.RemoveUser (h.heap client).ChatID (h.heap client).ID],
          sent := [Hub.sendSystemMessage env (h.heap client).ChatID
            ("User " ++ (h.heap client).Username ++ " left the chat")],
          logs := logIfErr env (CacheCall.RemoveUser (h.heap client).ChatID (h.heap client).ID)
            "Failed to remove user from Redis" ++ ["Client unregistered"] } := by
      simp only [Hub.unregisterClient, hroom, hin, hcl, hlen, if_true]
    refine ⟨_, hres, Function.update_same _ _ _, fun q hq => Function.update_noteq hq _ _,
      ?_, ?_, ?_, ?_, rfl, rfl⟩
    · simp only [Hub.member, AList.lookup_erase]
    · intro u hu
      simp only [Hub.member, AList.lookup_erase]
      exact ((hempty.mp hlen) u hu).symm
    · intro r hr
      exact AList.lookup_erase_ne hr
    · simp only [AList.lookup_erase, true_iff]
      exact hempty.mp hlen
  · have hres : h.unregisterClient env client = .ok
        { hub := { chats := h.chats.insert (h.heap client).ChatID
                     (chat.erase (h.heap client).ID),
                   heap := Function.update h.heap client (h.heap client).tornDown },
          cache := [CacheCall.RemoveUser (h.heap client).ChatID (h.heap client).ID],
          sent := [Hub.sendSystemMessage env (h.heap client).ChatID
            ("User " ++ (h.heap client).Username ++ " left the chat")],
          logs := logIfErr env (CacheCall.RemoveUser (h.heap client).ChatID (h.heap client).ID)
            "Failed to remove user from Redis" ++ ["Client unregistered"] } := by
      simp only [Hub.unregisterClient, hroom, hin, hcl, hlen, if_false]
    refine ⟨_, hres, Function.update_same _ _ _, fun q hq => Function.update_noteq hq _ _,
      ?_, ?_, ?_, ?_, rfl, rfl⟩
    · simp only [Hub.member, AList.lookup_insert, AList.lookup_erase]
    · intro u hu
      simp only [Hub.member, AList.lookup_insert]
      exact AList.lookup_erase_ne hu
    · intro r hr
      exact AList.lookup_insert_ne hr
    · simp only [AList.lookup_insert]
      constructor
      · intro hc
        exact Option.noConfusion hc
      · intro hall
        exact absurd (hempty.mpr hall) hlen

/-! ## Facts about the sample data -/

theorem sampleRoom_lookup (u : Int) (p : Ptr) (h : sampleRoom.lookup u = some p) :
    (u = 1 ∧ p = 1) ∨ (u = 2 ∧ p = 3) ∨ (u = 3 ∧ p = 4) := by
  unfold sampleRoom at h
  by_cases h3 : u = 3
  · subst h3
    rw [AList.lookup_insert] at h
    exact Or.inr (Or.inr ⟨rfl, (Option.some.inj h).symm⟩)
  rw [AList.lookup_insert_ne h3] at h
  by_cases h2 : u = 2
  · subst h2
    rw [AList.lookup_insert] at h
    exact Or.inr (Or.inl ⟨rfl, (Option.some.inj h).symm⟩)
  rw [AList.lookup_insert_ne h2] at h
  by_cases h1 : u = 1
  · subst h1
    rw [AList.lookup_insert] at h
    exact Or.inl ⟨rfl, (Option.some.inj h).symm⟩
  rw [AList.lookup_insert_ne h1, AList.lookup_empty] at h
  exact Option.noConfusion h

theorem fullClient_full (id : Int) (n : String) (r : Int) :
    ¬ (fullClient id n r).Send.buf.length < (fullClient id n r).Send.cap := by
  simp only [fullClient, List.length_replicate, lt_self_iff_false, not_false_eq_true]

theorem sampleHub_member (u : Int) (p : Ptr) (h : sampleHub.member 7 u = some p) :
    (u = 1 ∧ p = 1) ∨ (u = 2 ∧ p = 3) ∨ (u = 3 ∧ p = 4) := by
  apply sampleRoom_lookup
  simpa only [Hub.member, sampleHub, AList.lookup_insert] using h

theorem sampleHub_open (u : Int) (p : Ptr) (h : sampleHub.member 7 u = some p) :
    (sampleHub.heap p).Send.closed = false := by
  rcases sampleHub_member u p h with ⟨_, rfl⟩ | ⟨_, rfl⟩ | ⟨_, rfl⟩ <;> rfl

theorem sampleHub_inj (u1 u2 : Int) (p : Ptr) (h1 : sampleHub.member 7 u1 = some p)
    (h2 : sampleHub.member 7 u2 = some p) : u1 = u2 := by
  rcases sampleHub_member u1 p h1 with ⟨rfl, rfl⟩ | ⟨rfl, rfl⟩ | ⟨rfl, rfl⟩ <;>
    rcases sampleHub_member u2 _ h2 with ⟨rfl, hp⟩ | ⟨rfl, hp⟩ | ⟨rfl, hp⟩ <;>
    first | rfl | exact absurd hp (by decide)

/-! ## The hub: broadcast, register, unregister -/

/-- C1: Hub.broadcastMessage fans a message out to exactly the handles in the
member map of its room. Given a message the JSON encoder accepts, and a room
whose members have open queues and distinct handles, the call returns and:
every member whose queue is not full has the encoded bytes appended once at the
tail of its queue (the same bytes for all), a member whose queue is full gets no
frame, and every handle that is not in the member map of the room is left
exactly as it was. -/
theorem broadcast_delivers_to_exactly_the_members (env : Env) (h : Hub) (m : Message)
    (data : Bytes)
    (hm : env.marshalMessage m = .ok data)
    (hopen : ∀ u p, h.member m.ChatID u = some p → (h.heap p).Send.closed = false)
    (hinj : ∀ u1 u2 p, h.member m.ChatID u1 = some p → h.member m.ChatID u2 = some p →
      u1 = u2) :
    ∃ step, h.broadcastMessage env m = .ok step ∧
      (∀ u p, h.member m.ChatID u = some p →
        (h.heap p).Send.buf.length < (h.heap p).Send.cap →
          (step.hub.heap p).Send.buf = (h.heap p).Send.buf ++ [data]) ∧
      (∀ u p, h.member m.ChatID u = some p →
        ¬ (h.heap p).Send.buf.length < (h.heap p).Send.cap →
          (step.hub.heap p).Send.buf = (h.heap p).Send.buf) ∧
      (∀ p, (∀ u, h.member m.ChatID u ≠ some p) → step.hub.heap p = h.heap p) := by
  cases hroom : h.chats.lookup m.ChatID with
  | none =>
    obtain ⟨step, hrun, hhub, _⟩ := Hub.broadcastMessage_no_room env h m hroom
    have hnone : ∀ u, h.member m.ChatID u = none := by
      intro u
      simp only [Hub.member, hroom]
    refine ⟨step, hrun, ?_, ?_, ?_⟩
    · intro u p hup
      rw [hnone u] at hup
      exact Option.noConfusion hup
    · intro u p hup
      rw [hnone u] at hup
      exact Option.noConfusion hup
    · intro p _
      rw [hhub]
  | some chat =>
    have hmem : ∀ u, h.member m.ChatID u = chat.lookup u := by
      intro u
      simp only [Hub.member, hroom]
    simp only [hmem] at hopen hinj ⊢
    obtain ⟨step, hrun, _, hout, hin, _, _, _, _⟩ :=
      Hub.broadcastMessage_spec env h m data chat hroom hm hopen hinj
    refine ⟨step, hrun, ?_, ?_, hout⟩
    · intro u p hup hr
      rw [hin u p hup]
      simp [Client.afterOffer, Client.hasRoom, hr, Client.enqueued]
    · intro u p hup hr
      rw [hin u p hup]
      simp [Client.afterOffer, Client.hasRoom, hr, Client.tornDown]

/-- C1, witness: the sample hub (three members in room 7, one with a full queue)
and the sample message. -/
theorem broadcast_delivers_to_exactly_the_members_witness :
    ∃ step, sampleHub.broadcastMessage okEnv sampleMessage = .ok step ∧
      (∀ u p, sampleHub.member sampleMessage.ChatID u = some p →
        (sampleHub.heap p).Send.buf.length < (sampleHub.heap p).Send.cap →
          (step.hub.heap p).Send.buf = (sampleHub.heap p).Send.buf ++ [[104, 105]]) ∧
      (∀ u p, sampleHub.member sampleMessage.ChatID u = some p →
        ¬ (sampleHub.heap p).Send.buf.length < (sampleHub.heap p).Send.cap →
          (step.hub.heap p).Send.buf = (sampleHub.heap p).Send.buf) ∧
      (∀ p, (∀ u, sampleHub.member sampleMessage.ChatID u ≠ some p) →
        step.hub.heap p = sampleHub.heap p) :=
  broadcast_delivers_to_exactly_the_members okEnv sampleHub sampleMessage [104, 105] rfl
    sampleHub_open sampleHub_inj

/-- C2: a member X of the room whose queue is full when Hub.broadcastMessage
runs is closed (connection and Send queue) and deleted from the member map of
the room, while every other member with a non-full queue gets the frame and
keeps its entry. As in C1 the message is one the JSON encoder accepts and the
members of the room have open queues and distinct handles. -/
theorem broadcast_drops_full_member_only (env : Env) (h : Hub) (m : Message)
    (data : Bytes) (x : Int) (px : Ptr)
    (hm : env.marshalMessage m = .ok data)
    (hopen : ∀ u p, h.member m.ChatID u = some p → (h.heap p).Send.closed = false)
    (hinj : ∀ u1 u2 p, h.member m.ChatID u1 = some p → h.member m.ChatID u2 = some p →
      u1 = u2)
    (hx : h.member m.ChatID x = some px)
    (hfull : ¬ (h.heap px).Send.buf.length < (h.heap px).Send.cap) :
    ∃ step, h.broadcastMessage env m = .ok step ∧
      (step.hub.heap px).Send.closed = true ∧
      (step.hub.heap px).Connection = (h.heap px).Connection.map Conn.Close ∧
      step.hub.member m.ChatID x = none ∧
      (∀ u, step.hub.member m.ChatID u ≠ some px) ∧
      (∀ u p, h.member m.ChatID u = some p →
        (h.heap p).Send.buf.length < (h.heap p).Send.cap →
          (step.hub.heap p).Send.buf = (h.heap p).Send.buf ++ [data] ∧
          (step.hub.heap p).Send.closed = false ∧
          step.hub.member m.ChatID u = some p) := by
  cases hroom : h.chats.lookup m.ChatID with
  | none =>
    simp only [Hub.member, hroom] at hx
    exact Option.noConfusion hx
  | some chat =>
    have hmem : ∀ u, h.member m.ChatID u = chat.lookup u := by
      intro u
      simp only [Hub.member, hroom]
    simp only [hmem] at hopen hinj hx ⊢
    obtain ⟨step, hrun, _, _, hin, hstay, hgone, _, hsub⟩ :=
      Hub.broadcastMessage_spec env h m data chat hroom hm hopen hinj
    have hxfull : (h.heap px).hasRoom = false := by simp [Client.hasRoom, hfull]
    refine ⟨step, hrun, ?_, ?_, hgone x px hx hxfull, ?_, ?_⟩
    · rw [hin x px hx]
      simp [Client.afterOffer, hxfull, Client.tornDown]
    · rw [hin x px hx]
      simp [Client.afterOffer, hxfull, Client.tornDown]
    · intro u hu
      -- an entry for px after the broadcast is an entry for px before it
      have hux : u = x := hinj u x px (hsub u px hu) hx
      rw [hux, hgone x px hx hxfull] at hu
      exact Option.noConfusion hu
    · intro u p hup hr
      have hpr : (h.heap p).hasRoom = true := by simp [Client.hasRoom, hr]
      refine ⟨?_, ?_, hstay u p hup hpr⟩
      · rw [hin u p hup]
        simp [Client.afterOffer, hpr, Client.enqueued]
      · rw [hin u p hup]
        simp [Client.afterOffer, hpr, Client.enqueued, hopen u p hup]

/-- C2, witness: in the sample hub owner 3 of room 7 is on handle 4, whose queue
is full. -/
theorem broadcast_drops_full_member_only_witness :
    ∃ step, sampleHub.broadcastMessage okEnv sampleMessage = .ok step ∧
      (step.hub.heap 4).Send.closed = true ∧
      (step.hub.heap 4).Connection = (sampleHub.heap 4).Connection.map Conn.Close ∧
      step.hub.member sampleMessage.ChatID 3 = none ∧
      (∀ u, step.hub.member sampleMessage.ChatID u ≠ some 4) ∧
      (∀ u p, sampleHub.member sampleMessage.ChatID u = some p →
        (sampleHub.heap p).Send.buf.length < (sampleHub.heap p).Send.cap →
          (step.hub.heap p).Send.buf = (sampleHub.heap p).Send.buf ++ [[104, 105]] ∧
          (step.hub.heap p).Send.closed = false ∧
          step.hub.member sampleMessage.ChatID u = some p) :=
  broadcast_drops_full_member_only okEnv sampleHub sampleMessage [104, 105] 3 4 rfl
    sampleHub_open sampleHub_inj (by decide) (fullClient_full 3 "cy" 7)

/-- C3: when handle c1, with an open queue, is registered for (owner u, room R)
and a new handle c2 of the same owner and room is registered, Hub.registerClient closes c1
(connection and Send queue) and leaves exactly one entry for u in the member
map of R, which is c2; c2 itself is not touched. -/
theorem register_supersedes_existing_handle (env : Env) (h : Hub) (c1 c2 : Ptr)
    (u R : Int)
    (hu : (h.heap c2).ID = u) (hR : (h.heap c2).ChatID = R)
    (hreg : h.member R u = some c1)
    (hopen : (h.heap c1).Send.closed = false)
    (hnew : c2 ≠ c1) :
    ∃ step, h.registerClient env c2 = .ok step ∧
      (step.hub.heap c1).Send.closed = true ∧
      (step.hub.heap c1).Connection = (h.heap c1).Connection.map Conn.Close ∧
      step.hub.member R u = some c2 ∧
      (∀ chat, step.hub.chats.lookup R = some chat →
        chat.entries.filter (fun e => decide (e.1 = u)) = [⟨u, c2⟩]) ∧
      step.hub.heap c2 = h.heap c2 := by
  subst hu hR
  have hopen1 : ∀ p, h.member (h.heap c2).ChatID (h.heap c2).ID = some p →
      (h.heap p).Send.closed = false := by
    intro p hp
    rw [hreg] at hp
    rw [← Option.some.inj hp]
    exact hopen
  obtain ⟨step, hrun, hslot, hold, hrest, _, huniq, _, _⟩ :=
    Hub.registerClient_spec env h c2 hopen1
  refine ⟨step, hrun, ?_, ?_, hslot, huniq, ?_⟩
  · rw [hold c1 hreg]
    rfl
  · rw [hold c1 hreg]
    rfl
  · apply hrest
    rw [hreg]
    intro hc
    exact hnew (Option.some.inj hc).symm

/-- C3, witness: in the sample hub owner 1 of room 7 is on handle 1; handle 2 is
a second connection of owner 1 to room 7. -/
theorem register_supersedes_existing_handle_witness :
    ∃ step, sampleHub.registerClient okEnv 2 = .ok step ∧
      (step.hub.heap 1).Send.closed = true ∧
      (step.hub.heap 1).Connection = (sampleHub.heap 1).Connection.map Conn.Close ∧
      step.hub.member 7 1 = some 2 ∧
      (∀ chat, step.hub.chats.lookup 7 = some chat →
        chat.entries.filter (fun e => decide (e.1 = 1)) = [⟨1, 2⟩]) ∧
      step.hub.heap 2 = sampleHub.heap 2 :=
  register_supersedes_existing_handle okEnv sampleHub 1 2 1 7 rfl rfl (by decide) rfl
    (by decide)

/-- C5: when handle c is the one registered for its owner in its room R and
its queue is open, Hub.unregisterClient closes the Send queue (and the
connection) of c, deletes the entry of c from the member map of R, deletes the
member map of R from the table exactly when c was the last member, and leaves
every other member of R registered and every other handle untouched. -/
theorem unregister_removes_registered_handle (env : Env) (h : Hub) (c : Ptr)
    (hreg : h.member (h.heap c).ChatID (h.heap c).ID = some c)
    (hopen : (h.heap c).Send.closed = false) :
    ∃ step, h.unregisterClient env c = .ok step ∧
      (step.hub.heap c).Send.closed = true ∧
      (step.hub.heap c).Connection = (h.heap c).Connection.map Conn.Close ∧
      step.hub.member (h.heap c).ChatID (h.heap c).ID = none ∧
      (step.hub.chats.lookup (h.heap c).ChatID = none ↔
        ∀ u p, h.member (h.heap c).ChatID u = some p → u = (h.heap c).ID) ∧
      (∀ u, u ≠ (h.heap c).ID →
        step.hub.member (h.heap c).ChatID u = h.member (h.heap c).ChatID u) ∧
      (∀ q, q ≠ c → step.hub.heap q = h.heap q) := by
  cases hroom : h.chats.lookup (h.heap c).ChatID with
  | none =>
    simp only [Hub.member, hroom] at hreg
    exact Option.noConfusion hreg
  | some chat =>
    have hmem : ∀ u, h.member (h.heap c).ChatID u = chat.lookup u := by
      intro u
      simp only [Hub.member, hroom]
    rw [hmem] at hreg
    obtain ⟨step, hrun, hcell, hothers, hgone, hstay, _, hlast, _, _⟩ :=
      Hub.unregisterClient_spec env h c chat c hroom hreg hopen
    refine ⟨step, hrun, ?_, ?_, hgone, ?_, ?_, hothers⟩
    · rw [hcell]
      rfl
    · rw [hcell]
      rfl
    · rw [hlast]
      constructor
      · intro hall u p hup
        by_contra hne
        rw [hmem, hall u hne] at hup
        exact Option.noConfusion hup
      · intro hall u hne
        cases hcu : chat.lookup u with
        | none => rfl
        | some p => exact absurd (hall u p (by rw [hmem, hcu])) hne
    · intro u hne
      rw [hstay u hne, hmem]

/-- C5, witness: in the sample hub handle 3 is the one registered for owner 2
in room 7. -/
theorem unregister_removes_registered_handle_witness :
    ∃ step, sampleHub.unregisterClient okEnv 3 = .ok step ∧
      (step.hub.heap 3).Send.closed = true ∧
      (step.hub.heap 3).Connection = (sampleHub.heap 3).Connection.map Conn.Close ∧
      step.hub.member (sampleHub.heap 3).ChatID (sampleHub.heap 3).ID = none ∧
      (step.hub.chats.lookup (sampleHub.heap 3).ChatID = none ↔
        ∀ u p, sampleHub.member (sampleHub.heap 3).ChatID u = some p →
          u = (sampleHub.heap 3).ID) ∧
      (∀ u, u ≠ (sampleHub.heap 3).ID →
        step.hub.member (sampleHub.heap 3).ChatID u =
          sampleHub.member (sampleHub.heap 3).ChatID u) ∧
      (∀ q, q ≠ 3 → step.hub.heap q = sampleHub.heap q) :=
  unregister_removes_registered_handle okEnv sampleHub 3 (by decide) rfl

/-- C4: Hub.unregisterClient on a superseded handle is not a no-op. From the
empty hub, register handle 1 and then handle 2 for the same owner and room:
handle 2 holds the slot and handle 1 has been closed. Unregister of handle 1 then
finds the slot of its owner occupied, calls Close on handle 1 again and panics on
the closed channel. And when the stale handle still has an open queue (the solo
hub, where owner 1 is on handle 2), Unregister of handle 1 closes handle 1,
deletes the entry of handle 2 and the room, calls RemoveUser and emits the left
notice. -/
theorem unregister_of_superseded_handle_is_not_a_noop :
    (∃ s1 s2, (NewHub sampleHeap).registerClient okEnv 1 = .ok s1 ∧
      s1.hub.registerClient okEnv 2 = .ok s2 ∧
      s2.hub.member 7 1 = some 2 ∧
      (s2.hub.heap 1).Send.closed = true ∧
      s2.hub.unregisterClient okEnv 1 = .error "close of closed channel") ∧
    (∃ s, soloHub.member 7 1 = some 2 ∧
      soloHub.unregisterClient okEnv 1 = .ok s ∧
      s.hub.member 7 1 = none ∧
      s.hub.chats.lookup 7 = none ∧
      (s.hub.heap 1).Send.closed = true ∧
      s.cache = [CacheCall.RemoveUser 7 1] ∧
      s.sent = [Hub.sendSystemMessage okEnv 7 "User ann left the chat"]) := by
  refine ⟨⟨_, _, rfl, rfl, rfl, rfl, rfl⟩, ⟨_, rfl, rfl, rfl, rfl, rfl, rfl, rfl⟩⟩

/-! ## The message pipeline: validation and the inbound task -/

/-- C6: Client.validateMessage returns no error exactly when the byte length of
the content is between 1 and 4000 inclusive and the message type is empty or one
of text, image, file, system. Content of exactly 4000 bytes is accepted and
content of 4001 bytes is rejected. -/
theorem validateMessage_accepts_iff :
    (∀ msg : MessageRequest, validateMessage msg = none ↔
      ((1 ≤ msg.Content.utf8ByteSize ∧ msg.Content.utf8ByteSize ≤ 4000) ∧
        (msg.MessageType = "" ∨ msg.MessageType = "text" ∨ msg.MessageType = "image" ∨
          msg.MessageType = "file" ∨ msg.MessageType = "system"))) ∧
    (bytesOfLength 4000).utf8ByteSize = 4000 ∧
    validateMessage { Content := bytesOfLength 4000, MessageType := "", ReplyToID := none }
      = none ∧
    (bytesOfLength 4001).utf8ByteSize = 4001 ∧
    validateMessage { Content := bytesOfLength 4001, MessageType := "", ReplyToID := none }
      = some "message content too long" := by
  have hiff : ∀ msg : MessageRequest, validateMessage msg = none ↔
      ((1 ≤ msg.Content.utf8ByteSize ∧ msg.Content.utf8ByteSize ≤ 4000) ∧
        (msg.MessageType = "" ∨ msg.MessageType = "text" ∨ msg.MessageType = "image" ∨
          msg.MessageType = "file" ∨ msg.MessageType = "system")) := by
    intro msg
    rw [validateMessage_eq, ← typeAccepted_iff]
    by_cases h0 : msg.Content.utf8ByteSize = 0
    · simp [h0]
    by_cases h1 : msg.Content.utf8ByteSize > 4000
    · simp only [if_neg h0, if_pos h1]
      constructor
      · intro h
        exact Option.noConfusion h
      · intro h
        omega
    simp only [if_neg h0, if_neg h1]
    have hlen : 1 ≤ msg.Content.utf8ByteSize ∧ msg.Content.utf8ByteSize ≤ 4000 := by omega
    cases hv : mapBool validTypes (if msg.MessageType = "" then "text" else msg.MessageType)
    · simp
    · simp [hlen]
  refine ⟨hiff, utf8ByteSize_bytesOfLength 4000, ?_, utf8ByteSize_bytesOfLength 4001, ?_⟩
  · rw [hiff]
    refine ⟨?_, Or.inl rfl⟩
    rw [utf8ByteSize_bytesOfLength]
    omega
  · rw [validateMessage_eq]
    simp only [utf8ByteSize_bytesOfLength]
    rfl

/-- C7: Client.validateMessage applies its rules in order and the first failure
wins: empty content gives the empty-content error and content over 4000 bytes
gives the content-too-long error, whatever the message type is; the invalid-type
error is returned only for a content length between 1 and 4000 (and then the type
is neither empty nor one of the four valid types). -/
theorem validateMessage_first_failure_wins (msg : MessageRequest) :
    (msg.Content.utf8ByteSize = 0 →
      validateMessage msg = some "message content cannot be empty") ∧
    (4000 < msg.Content.utf8ByteSize →
      validateMessage msg = some "message content too long") ∧
    (validateMessage msg = some "invalid message type" →
      (1 ≤ msg.Content.utf8ByteSize ∧ msg.Content.utf8ByteSize ≤ 4000) ∧
        ¬ (msg.MessageType = "" ∨ msg.MessageType = "text" ∨ msg.MessageType = "image" ∨
          msg.MessageType = "file" ∨ msg.MessageType = "system")) := by
  rw [validateMessage_eq, ← typeAccepted_iff]
  refine ⟨?_, ?_, ?_⟩
  · intro h0
    rw [if_pos h0]
  · intro h1
    have h0 : ¬ msg.Content.utf8ByteSize = 0 := by omega
    rw [if_neg h0, if_pos h1]
  · intro h
    by_cases h0 : msg.Content.utf8ByteSize = 0
    · rw [if_pos h0] at h
      exact absurd (Option.some.inj h) (by decide)
    by_cases h1 : msg.Content.utf8ByteSize > 4000
    · rw [if_neg h0, if_pos h1] at h
      exact absurd (Option.some.inj h) (by decide)
    rw [if_neg h0, if_neg h1] at h
    refine ⟨by omega, ?_⟩
    intro hv
    rw [if_pos hv] at h
    exact Option.noConfusion h

/-- C7, witness: an empty content with the unrecognized type video reports the
empty-content error, and a 4001 byte content with the type video reports the
content-too-long error. -/
theorem validateMessage_first_failure_wins_witness :
    validateMessage { Content := "", MessageType := "video", ReplyToID := none }
      = some "message content cannot be empty" ∧
    validateMessage { Content := bytesOfLength 4001, MessageType := "video", ReplyToID := none }
      = some "message content too long" :=
  ⟨(validateMessage_first_failure_wins
      { Content := "", MessageType := "video", ReplyToID := none }).1 rfl,
   (validateMessage_first_failure_wins
      { Content := bytesOfLength 4001, MessageType := "video", ReplyToID := none }).2.1
      (by rw [utf8ByteSize_bytesOfLength]; omega)⟩

/-- C8: the default message type is not applied to the Message readPump builds.
For the payload with content hi and no message_type, validation passes, and the
Message that readPump passes to SaveMessage and the Message it sends on the
broadcast channel both have the empty message type, not text. The same holds
for every payload that passes validation with an empty message_type. -/
theorem readPump_keeps_missing_type_empty :
    validateMessage { Content := "hi", MessageType := "", ReplyToID := none } = none ∧
    (newClient 1 "ann" 7).readPump
        (sampleEnv { Content := "hi", MessageType := "", ReplyToID := none } true) (.ok []) =
      .ok { client := newClient 1 "ann" 7,
            events :=
              [PumpEvent.save
                { ID := 0, ChatID := 7, UserID := 1, Username := "ann", Content := "hi",
                  MessageType := "", ReplyToID := none, EditedAt := none, IsDeleted := false,
                  DeletedAt := none, CreatedAt := 1000, UpdatedAt := 0 },
               PumpEvent.broadcast
                { ID := 42, ChatID := 7, UserID := 1, Username := "ann", Content := "hi",
                  MessageType := "", ReplyToID := none, EditedAt := none, IsDeleted := false,
                  DeletedAt := none, CreatedAt := 1000, UpdatedAt := 1000 }],
            logs := [], continues := true } ∧
    (∀ (env : Env) (c : Client) (incoming : Except String Bytes) (data : Bytes)
        (msg : MessageRequest) (id : Int) (t1 t2 : Time),
      c.ReadMessage incoming = .ok (.ok data) →
      env.unmarshalRequest data = .ok msg →
      validateMessage msg = none →
      msg.MessageType = "" →
      env.dbInsertMessage (c.buildMessage env msg) = .ok (id, t1, t2) →
      ∃ step saved sent, c.readPump env incoming = .ok step ∧
        step.events = [PumpEvent.save saved, PumpEvent.broadcast sent] ∧
        saved.MessageType = "" ∧ sent.MessageType = "") := by
  refine ⟨by decide, rfl, ?_⟩
  intro env c incoming data msg id t1 t2 hread hdec hval hty hdb
  refine ⟨_, _, _, Client.readPump_saved env c incoming data msg id t1 t2 hread hdec hval hdb,
    rfl, hty, hty⟩

/-- C9, as stated, fails: a frame whose payload fails validation (content of
4001 bytes), received on a live handle whose queue of 256 frames is full, does
not leave the connection open. -/
theorem validation_fault_on_full_queue_closes_connection :
    ¬ (∀ (env : Env) (c : Client) (incoming : Except String Bytes) (data : Bytes)
        (msg : MessageRequest) (err : String),
      c.ReadMessage incoming = .ok (.ok data) →
      env.unmarshalRequest data = .ok msg →
      validateMessage msg = some err →
      c.Send.closed = false →
      ∃ step, c.readPump env incoming = .ok step ∧ step.events = [] ∧
        step.continues = true ∧ step.client.Connection = c.Connection) := by
  intro hclaim
  have hval : validateMessage
      { Content := bytesOfLength 4001, MessageType := "text", ReplyToID := none } =
        some "message content too long" := by
    rw [validateMessage_eq]
    simp only [utf8ByteSize_bytesOfLength]
    rfl
  have hfull : (fullClient 1 "ann" 7).hasRoom = false := by
    simp only [Client.hasRoom]
    exact decide_eq_false (fullClient_full 1 "ann" 7)
  have hse : (fullClient 1 "ann" 7).sendError
      (sampleEnv { Content := bytesOfLength 4001, MessageType := "text", ReplyToID := none } true)
      ("Invalid message: " ++ "message content too long") =
        .ok (fullClient 1 "ann" 7).hungUp := by
    rw [Client.sendError_of_open _ _ _ rfl (fun hc => Option.noConfusion hc)]
    show Except.ok (if (fullClient 1 "ann" 7).hasRoom = true then _ else _) = _
    rw [hfull]
    rfl
  obtain ⟨step, hrun, _, _, hconn⟩ :=
    hclaim (sampleEnv { Content := bytesOfLength 4001, MessageType := "text", ReplyToID := none } true)
      (fullClient 1 "ann" 7) (.ok []) []
      { Content := bytesOfLength 4001, MessageType := "text", ReplyToID := none }
      "message content too long" rfl rfl hval rfl
  rw [Client.readPump_invalid
      (sampleEnv { Content := bytesOfLength 4001, MessageType := "text", ReplyToID := none } true)
      (fullClient 1 "ann" 7) (.ok []) []
      { Content := bytesOfLength 4001, MessageType := "text", ReplyToID := none }
      "message content too long" rfl rfl hval, hse] at hrun
  have hstep := Except.ok.inj hrun
  rw [← hstep] at hconn
  exact absurd hconn (by decide)

/-- C9, amended: for a frame read on a handle whose Send queue is open and whose
decoded payload fails validation, readPump calls neither the store nor the
broadcast channel and goes on to the next read; its only effect is sendError on
the own handle. When the queue has room the error envelope is appended and the
connection is left as it is; when the queue is full nothing is enqueued and the
connection is closed; when the envelope cannot be encoded nothing happens. -/
theorem readPump_validation_fault_touches_sender_only (env : Env) (c : Client)
    (incoming : Except String Bytes) (data : Bytes) (msg : MessageRequest) (err : String)
    (hread : c.ReadMessage incoming = .ok (.ok data))
    (hdec : env.unmarshalRequest data = .ok msg)
    (hval : validateMessage msg = some err)
    (hopen : c.Send.closed = false) :
    ∃ step, c.readPump env incoming = .ok step ∧ step.events = [] ∧
      step.continues = true ∧
      c.sendError env ("Invalid message: " ++ err) = .ok step.client ∧
      (∀ frame, env.marshalError ("Invalid message: " ++ err) env.now = .ok frame →
        (c.Send.buf.length < c.Send.cap →
          step.client.Send.buf = c.Send.buf ++ [frame] ∧
          step.client.Connection = c.Connection) ∧
        (¬ c.Send.buf.length < c.Send.cap →
          step.client.Send = c.Send ∧
          step.client.Connection = c.Connection.map Conn.Close)) ∧
      (∀ e, env.marshalError ("Invalid message: " ++ err) env.now = .error e →
        step.client = c) := by
  have hconn := Client.connection_of_ReadMessage c incoming _ hread
  have hse := Client.sendError_of_open env c ("Invalid message: " ++ err) hopen hconn
  refine ⟨_, by rw [Client.readPump_invalid env c incoming data msg err hread hdec hval, hse],
    rfl, rfl, hse, ?_, ?_⟩
  · intro frame hf
    simp only [hf]
    constructor
    · intro hr
      simp [Client.hasRoom, hr, Client.enqueued]
    · intro hr
      simp [Client.hasRoom, hr, Client.hungUp]
  · intro e he
    simp only [he]

/-- C9, witness: a 4001 byte payload on a fresh handle. -/
theorem readPump_validation_fault_touches_sender_only_witness :
    ∃ step, (newClient 1 "ann" 7).readPump
        (sampleEnv { Content := bytesOfLength 4001, MessageType := "text", ReplyToID := none }
          true) (.ok []) = .ok step ∧
      step.events = [] ∧ step.continues = true :=
  have hval : validateMessage
      { Content := bytesOfLength 4001, MessageType := "text", ReplyToID := none } =
        some "message content too long" := by
    rw [validateMessage_eq]
    simp only [utf8ByteSize_bytesOfLength]
    rfl
  match readPump_validation_fault_touches_sender_only
      (sampleEnv { Content := bytesOfLength 4001, MessageType := "text", ReplyToID := none }
        true)
      (newClient 1 "ann" 7) (.ok []) []
      { Content := bytesOfLength 4001, MessageType := "text", ReplyToID := none }
      "message content too long" rfl rfl hval rfl with
  | ⟨step, hrun, hev, hcont, _⟩ => ⟨step, hrun, hev, hcont⟩

/-- C10: when a valid payload is read and ChatService.SaveMessage returns an
error, readPump calls SaveMessage exactly once, sends nothing on the broadcast
channel, reports through sendError on the own handle only, and goes on to the
next read. When the own queue has room the error envelope for the text
Failed to save message is appended to it; when the queue is full sendError drops
the envelope and closes the own connection. -/
theorem readPump_store_failure_not_broadcast (env : Env) (c : Client)
    (incoming : Except String Bytes) (data : Bytes) (msg : MessageRequest) (e : String)
    (hread : c.ReadMessage incoming = .ok (.ok data))
    (hdec : env.unmarshalRequest data = .ok msg)
    (hval : validateMessage msg = none)
    (hsave : (chatService.SaveMessage env (c.buildMessage env msg)).2 = some e)
    (hopen : c.Send.closed = false) :
    ∃ step, c.readPump env incoming = .ok step ∧
      step.events = [PumpEvent.save (c.buildMessage env msg)] ∧
      step.continues = true ∧
      c.sendError env "Failed to save message" = .ok step.client ∧
      (∀ frame, env.marshalError "Failed to save message" env.now = .ok frame →
        (c.Send.buf.length < c.Send.cap →
          step.client.Send.buf = c.Send.buf ++ [frame] ∧
          step.client.Connection = c.Connection) ∧
        (¬ c.Send.buf.length < c.Send.cap →
          step.client.Send = c.Send ∧
          step.client.Connection = c.Connection.map Conn.Close)) := by
  have hconn := Client.connection_of_ReadMessage c incoming _ hread
  have hse := Client.sendError_of_open env c "Failed to save message" hopen hconn
  refine ⟨_, by rw [Client.readPump_store_down env c incoming data msg e hread hdec hval hsave,
    hse], rfl, rfl, hse, ?_⟩
  intro frame hf
  simp only [hf]
  constructor
  · intro hr
    simp [Client.hasRoom, hr, Client.enqueued]
  · intro hr
    simp [Client.hasRoom, hr, Client.hungUp]

/-- C10, witness: the payload hi of type text on a fresh handle, with the
database down. -/
theorem readPump_store_failure_not_broadcast_witness :
    ∃ step, (newClient 1 "ann" 7).readPump
        (sampleEnv { Content := "hi", MessageType := "text", ReplyToID := none } false)
        (.ok []) = .ok step ∧
      step.events = [PumpEvent.save ((newClient 1 "ann" 7).buildMessage
        (sampleEnv { Content := "hi", MessageType := "text", ReplyToID := none } false)
        { Content := "hi", MessageType := "text", ReplyToID := none })] ∧
      step.continues = true :=
  match readPump_store_failure_not_broadcast
      (sampleEnv { Content := "hi", MessageType := "text", ReplyToID := none } false)
      (newClient 1 "ann" 7) (.ok []) []
      { Content := "hi", MessageType := "text", ReplyToID := none }
      "failed to save message: failed to save message: connection refused"
      rfl rfl (by decide) rfl rfl with
  | ⟨step, hrun, hev, hcont, _⟩ => ⟨step, hrun, hev, hcont⟩

/-! ## Inversion lemmas: what a call that returned tells about its input -/

theorem Client.Close_ok (c c1 : Client) (h : c.Close = .ok c1) :
    c.Send.closed = false ∧ c1 = c.tornDown := by
  by_cases hc : c.Send.closed = true
  · rw [Client.Close_of_closed c hc] at h
    exact Except.noConfusion h
  · have ho : c.Send.closed = false := by simpa using hc
    rw [Client.Close_of_open c ho] at h
    exact ⟨ho, (Except.ok.inj h).symm⟩

theorem Hub.member_eq_lookup_getD (h : Hub) (r u : Int) :
    h.member r u = AList.lookup u ((AList.lookup r h.chats).getD ∅) := by
  unfold Hub.member
  cases h.chats.lookup r with
  | none => simp [AList.lookup_empty]
  | some chat => rfl

/-- A Register that returned found the handle it superseded, if any, open. -/
theorem Hub.registerClient_ok_open (env : Env) (h : Hub) (client : Ptr) (step : HubStep)
    (hrun : h.registerClient env client = .ok step) :
    ∀ p, h.member (h.heap client).ChatID (h.heap client).ID = some p →
      (h.heap p).Send.closed = false := by
  intro p hp
  rw [Hub.member_eq_lookup_getD] at hp
  by_cases hc : (h.heap p).Send.closed = true
  · have hcl := Client.Close_of_closed (h.heap p) hc
    simp only [Hub.registerClient, hp, hcl] at hrun
    exact Except.noConfusion hrun
  · simpa using hc

/-- An Unregister that returned either found no entry for the owner of the
handle and changed nothing, or found one and found the handle open. -/
theorem Hub.unregisterClient_ok_cases (env : Env) (h : Hub) (client : Ptr) (step : HubStep)
    (hrun : h.unregisterClient env client = .ok step) :
    (h.member (h.heap client).ChatID (h.heap client).ID = none ∧ step.hub = h ∧
        step.sent = [] ∧ step.cache = []) ∨
    (∃ chat p0, h.chats.lookup (h.heap client).ChatID = some chat ∧
        chat.lookup (h.heap client).ID = some p0 ∧ (h.heap client).Send.closed = false) := by
  cases hm : h.member (h.heap client).ChatID (h.heap client).ID with
  | none =>
    left
    rw [Hub.unregisterClient_absent env h client hm] at hrun
    rw [← Except.ok.inj hrun]
    exact ⟨rfl, rfl, rfl, rfl⟩
  | some p0 =>
    right
    obtain ⟨chat, hroom, hin⟩ := (Hub.member_eq_some h _ _ p0).mp hm
    refine ⟨chat, p0, hroom, hin, ?_⟩
    by_cases hc : (h.heap client).Send.closed = true
    · have hcl := Client.Close_of_closed (h.heap client) hc
      simp only [Hub.unregisterClient, hroom, hin, hcl] at hrun
      exact Except.noConfusion hrun
    · simpa using hc

/-- Hub.registerClient and Hub.unregisterClient change a cell only by tearing it
down: no frame is enqueued, and the owner, name and room of every handle stay. -/
theorem Hub.registerClient_cells (env : Env) (h : Hub) (client : Ptr) (step : HubStep)
    (hrun : h.registerClient env client = .ok step) (p : Ptr) :
    step.hub.heap p = h.heap p ∨ step.hub.heap p = (h.heap p).tornDown := by
  obtain ⟨step1, hrun1, _, hold, hrest, _⟩ :=
    Hub.registerClient_spec env h client (Hub.registerClient_ok_open env h client step hrun)
  rw [hrun] at hrun1
  rw [Except.ok.inj hrun1]
  by_cases hp : h.member (h.heap client).ChatID (h.heap client).ID = some p
  · exact Or.inr (hold p hp)
  · exact Or.inl (hrest p hp)

theorem Hub.unregisterClient_cells (env : Env) (h : Hub) (client : Ptr) (step : HubStep)
    (hrun : h.unregisterClient env client = .ok step) (p : Ptr) :
    step.hub.heap p = h.heap p ∨ step.hub.heap p = (h.heap p).tornDown := by
  rcases Hub.unregisterClient_ok_cases env h client step hrun with
    ⟨_, hhub, _, _⟩ | ⟨chat, p0, hroom, hin, hopen⟩
  · rw [hhub]
    exact Or.inl rfl
  · obtain ⟨step1, hrun1, hcell, hothers, _⟩ :=
      Hub.unregisterClient_spec env h client chat p0 hroom hin hopen
    rw [hrun] at hrun1
    rw [Except.ok.inj hrun1]
    by_cases hp : p = client
    · rw [hp]
      exact Or.inr hcell
    · exact Or.inl (hothers p hp)

/-- What a sendError that returned did to the Send queue. -/
theorem Client.sendError_buf (env : Env) (c c1 : Client) (message : String)
    (h : c.sendError env message = .ok c1) :
    c1.Send.buf = c.Send.buf ∨
      ∃ frame, env.marshalMap (errorEnvelope message env.now) = .ok frame ∧
        c1.Send.buf = c.Send.buf ++ [frame] := by
  unfold Client.sendError at h
  cases hm : env.marshalError message env.now with
  | error e =>
    rw [hm] at h
    left
    rw [← Except.ok.inj h]
  | ok frame =>
    rw [hm] at h
    simp only at h
    by_cases hc : c.Send.closed = true
    · simp [Chan.trySend, hc] at h
    · have ho : c.Send.closed = false := by simpa using hc
      by_cases hr : c.Send.buf.length < c.Send.cap
      · right
        rw [Chan.trySend_room _ _ ho hr] at h
        refine ⟨frame, hm, ?_⟩
        rw [← Except.ok.inj h]
      · left
        rw [Chan.trySend_full _ _ ho hr] at h
        cases hcc : c.Connection with
        | none => simp [hcc] at h
        | some conn =>
          simp only [hcc] at h
          rw [← Except.ok.inj h]

/-! ## Lemmas on the Redis calls -/

/-- The log lines passed to the fan-out loop do not influence the cells and the
room map it computes. -/
theorem Hub.fanOut_logs (data : Bytes) :
    ∀ (l : List (Sigma fun _ : Int => Ptr)) (heap : Ptr → Client) (chat : ChatMap)
      (logs1 logs2 : List String),
      (Hub.fanOut data l heap chat logs1).map (fun r => (r.1, r.2.1)) =
        (Hub.fanOut data l heap chat logs2).map (fun r => (r.1, r.2.1)) := by
  intro l
  induction l with
  | nil =>
    intro heap chat logs1 logs2
    rfl
  | cons hd rest ih =>
    intro heap chat logs1 logs2
    obtain ⟨u, p⟩ := hd
    simp only [Hub.fanOut]
    cases hs : (heap p).Send.trySend data with
    | error e => rfl
    | ok r =>
      cases r with
      | some ch => exact ih _ _ _ _
      | none =>
        simp only
        cases hc : (heap p).Close with
        | error e => rfl
        | ok closed => exact ih _ _ _ _

theorem Hub.process_redis (env1 env2 : Env) (h : Hub) (e : Event)
    (hnow : env1.now = env2.now) (hmm : env1.marshalMessage = env2.marshalMessage) :
    (h.process env1 e).map HubStep.effects = (h.process env2 e).map HubStep.effects := by
  cases e with
  | register client =>
    simp only [Hub.process, Hub.registerClient]
    cases hex : AList.lookup (h.heap client).ID
        ((AList.lookup (h.heap client).ChatID h.chats).getD ∅) with
    | none => simp [Except.map, HubStep.effects, Hub.sendSystemMessage, hnow]
    | some existing =>
      simp only
      cases hc : (h.heap existing).Close with
      | error e => rfl
      | ok closed => simp [Except.map, HubStep.effects, Hub.sendSystemMessage, hnow]
  | unregister client =>
    simp only [Hub.process, Hub.unregisterClient]
    cases hroom : AList.lookup (h.heap client).ChatID h.chats with
    | none => rfl
    | some chat =>
      simp only
      cases hin : AList.lookup (h.heap client).ID chat with
      | none => rfl
      | some p0 =>
        simp only
        cases hc : (h.heap client).Close with
        | error e => rfl
        | ok closed => simp [Except.map, HubStep.effects, Hub.sendSystemMessage, hnow]
  | broadcast m =>
    simp only [Hub.process, Hub.broadcastMessage]
    cases hroom : AList.lookup m.ChatID h.chats with
    | none => rfl
    | some chat =>
      simp only
      rw [hmm]
      cases hm : env2.marshalMessage m with
      | error e => rfl
      | ok data =>
        simp only
        have hl := Hub.fanOut_logs data chat.entries h.heap chat
          (logIfErr env1 (CacheCall.CacheMessage
              { ID := m.ID, ChatID := m.ChatID, UserID := m.UserID, Username := m.Username,
                Content := m.Content, MessageType := m.MessageType, CreatedAt := m.CreatedAt })
              "Failed to cache message" ++
            logIfErr env1 (CacheCall.UpdateChatLastMessage m.ChatID m.CreatedAt)
              "Failed to update chat last message timestamp")
          (logIfErr env2 (CacheCall.CacheMessage
              { ID := m.ID, ChatID := m.ChatID, UserID := m.UserID, Username := m.Username,
                Content := m.Content, MessageType := m.MessageType, CreatedAt := m.CreatedAt })
              "Failed to cache message" ++
            logIfErr env2 (CacheCall.UpdateChatLastMessage m.ChatID m.CreatedAt)
              "Failed to update chat last message timestamp")
        revert hl
        cases Hub.fanOut data chat.entries h.heap chat _ with
        | error e1 =>
          cases Hub.fanOut data chat.entries h.heap chat _ with
          | error e2 =>
            intro hl
            simpa [Except.map] using hl
          | ok r2 =>
            intro hl
            simp [Except.map] at hl
        | ok r1 =>
          cases Hub.fanOut data chat.entries h.heap chat _ with
          | error e2 =>
            intro hl
            simp [Except.map] at hl
          | ok r2 =>
            intro hl
            simp only [Except.map, Except.ok.injEq, Prod.mk.injEq] at hl
            simp [Except.map, HubStep.effects, hl.1, hl.2]

/-! ## Lemmas on the invariant of the hub -/

theorem Client.tornDown_ids (c : Client) :
    c.tornDown.ChatID = c.ChatID ∧ c.tornDown.ID = c.ID ∧ c.tornDown.Username = c.Username ∧
      c.tornDown.Send.buf = c.Send.buf ∧ c.tornDown.Send.closed = true :=
  ⟨rfl, rfl, rfl, rfl, rfl⟩

theorem Client.afterOffer_ids (c : Client) (data : Bytes) :
    (c.afterOffer data).ChatID = c.ChatID ∧ (c.afterOffer data).ID = c.ID ∧
      (c.afterOffer data).Username = c.Username := by
  unfold Client.afterOffer
  cases c.hasRoom <;> exact ⟨rfl, rfl, rfl⟩

theorem Hub.KeyConsistent.inj {h : Hub} (hkc : h.KeyConsistent) (r u1 u2 : Int) (p : Ptr)
    (h1 : h.member r u1 = some p) (h2 : h.member r u2 = some p) : u1 = u2 := by
  rw [← (hkc r u1 p h1).2, ← (hkc r u2 p h2).2]

theorem Hub.member_of_lookup (h : Hub) (r : Int) (chat : ChatMap)
    (hroom : h.chats.lookup r = some chat) (u : Int) : h.member r u = chat.lookup u := by
  simp only [Hub.member, hroom]

theorem Hub.member_of_lookup_eq (h1 h2 : Hub) (r : Int)
    (hl : h1.chats.lookup r = h2.chats.lookup r) (u : Int) : h1.member r u = h2.member r u := by
  simp only [Hub.member, hl]

/-- What a Broadcast that returned did, on a key consistent hub with open
members: nothing, or the fan-out to the room of the message. -/
theorem Hub.broadcastMessage_ok_cases (env : Env) (h : Hub) (m : Message) (step : HubStep)
    (hrun : h.broadcastMessage env m = .ok step)
    (hkc : h.KeyConsistent) (hopen : h.MembersOpen) :
    step.sent = [] ∧
    (step.hub = h ∨
      ∃ data, env.marshalMessage m = .ok data ∧
        (∀ p, (∀ u, h.member m.ChatID u ≠ some p) → step.hub.heap p = h.heap p) ∧
        (∀ u p, h.member m.ChatID u = some p →
          step.hub.heap p = (h.heap p).afterOffer data) ∧
        (∀ u p, h.member m.ChatID u = some p → (h.heap p).hasRoom = true →
          step.hub.member m.ChatID u = some p) ∧
        (∀ u p, h.member m.ChatID u = some p → (h.heap p).hasRoom = false →
          step.hub.member m.ChatID u = none) ∧
        (∀ r, r ≠ m.ChatID → step.hub.chats.lookup r = h.chats.lookup r) ∧
        (∀ u p, step.hub.member m.ChatID u = some p → h.member m.ChatID u = some p) ∧
        step.hub.chats.lookup m.ChatID ≠ none) := by
  cases hroom : h.chats.lookup m.ChatID with
  | none =>
    obtain ⟨step1, hrun1, hhub, hsent⟩ := Hub.broadcastMessage_no_room env h m hroom
    rw [hrun] at hrun1
    rw [Except.ok.inj hrun1]
    exact ⟨hsent, Or.inl hhub⟩
  | some chat =>
    cases hm : env.marshalMessage m with
    | error e =>
      simp only [Hub.broadcastMessage, hroom, hm] at hrun
      rw [← Except.ok.inj hrun]
      exact ⟨rfl, Or.inl rfl⟩
    | ok data =>
      have hmem := Hub.member_of_lookup h m.ChatID chat hroom
      have hopen1 : ∀ u p, chat.lookup u = some p → (h.heap p).Send.closed = false := by
        intro u p hp
        exact hopen m.ChatID u p (by rw [hmem, hp])
      have hinj1 : ∀ u1 u2 p, chat.lookup u1 = some p → chat.lookup u2 = some p → u1 = u2 := by
        intro u1 u2 p h1 h2
        exact hkc.inj m.ChatID u1 u2 p (by rw [hmem, h1]) (by rw [hmem, h2])
      obtain ⟨step1, hrun1, hsent, hout, hin, hstay, hgone, hother, hsub⟩ :=
        Hub.broadcastMessage_spec env h m data chat hroom hm hopen1 hinj1
      have hroom1 : step1.hub.chats.lookup m.ChatID ≠ none := by
        simp only [Hub.broadcastMessage, hroom, hm] at hrun1
        cases hf : Hub.fanOut data chat.entries h.heap chat
            (logIfErr env (CacheCall.CacheMessage
                { ID := m.ID, ChatID := m.ChatID, UserID := m.UserID, Username := m.Username,
                  Content := m.Content, MessageType := m.MessageType,
                  CreatedAt := m.CreatedAt })
                "Failed to cache message" ++
              logIfErr env (CacheCall.UpdateChatLastMessage m.ChatID m.CreatedAt)
                "Failed to update chat last message timestamp") with
        | error e =>
          rw [hf] at hrun1
          exact Except.noConfusion hrun1
        | ok r =>
          rw [hf] at hrun1
          rw [← Except.ok.inj hrun1]
          simp only [AList.lookup_insert]
          exact Option.some_ne_none _
      rw [hrun] at hrun1
      rw [Except.ok.inj hrun1]
      simp only [hmem]
      exact ⟨hsent, Or.inr ⟨data, rfl, hout, hin, hstay, hgone, hother, hsub, hroom1⟩⟩

theorem Hub.cells_buf (c1 c : Client) (h : c1 = c ∨ c1 = c.tornDown) :
    c1.Send.buf = c.Send.buf ∧ c1.ChatID = c.ChatID ∧ c1.ID = c.ID ∧
      (c.Send.closed = true → c1.Send.closed = true) := by
  rcases h with h | h <;> subst h
  · exact ⟨rfl, rfl, rfl, fun hc => hc⟩
  · exact ⟨rfl, rfl, rfl, fun _ => rfl⟩

/-- A Register of a fresh handle keeps the invariant, keeps every retired handle
retired and enqueues nothing on it. -/
theorem Hub.register_keeps (env : Env) (h : Hub) (seen : List Ptr) (client : Ptr)
    (step : HubStep) (hfresh : client ∉ seen) (hopenc : (h.heap client).Send.closed = false)
    (hrun : h.registerClient env client = .ok step) (hinv : Hub.Inv (h, seen)) :
    Hub.Inv (step.hub, client :: seen) ∧
    ∀ p, Hub.Retired (h, seen) p →
      Hub.Retired (step.hub, client :: seen) p ∧
        (step.hub.heap p).Send.buf = (h.heap p).Send.buf := by
  obtain ⟨hkc, hmo, hseen⟩ := hinv
  obtain ⟨step1, hrun1, hslot, _, hrest, hslots, _, _, _⟩ :=
    Hub.registerClient_spec env h client
      (fun p hp => hmo (h.heap client).ChatID (h.heap client).ID p hp)
  have hst : step1 = step := Except.ok.inj (hrun1.symm.trans hrun)
  subst hst
  have hcne : h.member (h.heap client).ChatID (h.heap client).ID ≠ some client :=
    fun hc => hfresh (hseen _ _ _ hc)
  have hcell_c : step1.hub.heap client = h.heap client := hrest client hcne
  have hcells := Hub.registerClient_cells env h client step1 hrun
  have hmem : ∀ r u p, step1.hub.member r u = some p →
      (r = (h.heap client).ChatID ∧ u = (h.heap client).ID ∧ p = client) ∨
      (¬ (r = (h.heap client).ChatID ∧ u = (h.heap client).ID) ∧ h.member r u = some p) := by
    intro r u p hp
    by_cases hru : r = (h.heap client).ChatID ∧ u = (h.heap client).ID
    · left
      obtain ⟨hr, hu⟩ := hru
      subst hr hu
      rw [hslot] at hp
      exact ⟨rfl, rfl, (Option.some.inj hp).symm⟩
    · right
      rw [hslots r u hru] at hp
      exact ⟨hru, hp⟩
  refine ⟨⟨?_, ?_, ?_⟩, ?_⟩
  · intro r u p hp
    rcases hmem r u p hp with ⟨hr, hu, hpc⟩ | ⟨_, hm⟩
    · subst hr hu hpc
      rw [hcell_c]
      exact ⟨rfl, rfl⟩
    · have hb := Hub.cells_buf _ _ (hcells p)
      rw [hb.2.1, hb.2.2.1]
      exact hkc r u p hm
  · intro r u p hp
    rcases hmem r u p hp with ⟨hr, hu, hpc⟩ | ⟨hru, hm⟩
    · subst hpc
      rw [hcell_c]
      exact hopenc
    · have hne : h.member (h.heap client).ChatID (h.heap client).ID ≠ some p := by
        intro he
        have k1 := hkc _ _ p he
        have k2 := hkc r u p hm
        exact hru ⟨k2.1.symm.trans k1.1, k2.2.symm.trans k1.2⟩
      rw [hrest p hne]
      exact hmo r u p hm
  · intro r u p hp
    rcases hmem r u p hp with ⟨hr, hu, hpc⟩ | ⟨_, hm⟩
    · subst hpc
      exact List.mem_cons_self _ _
    · exact List.mem_cons_of_mem _ (hseen r u p hm)
  · intro p hret
    have hb := Hub.cells_buf _ _ (hcells p)
    refine ⟨?_, hb.1⟩
    rcases hret with hclosed | ⟨hs, habs⟩
    · exact Or.inl (hb.2.2.2 hclosed)
    · refine Or.inr ⟨List.mem_cons_of_mem _ hs, ?_⟩
      intro r u hp
      rcases hmem r u p hp with ⟨_, _, hpc⟩ | ⟨_, hm⟩
      · exact hfresh (hpc ▸ hs)
      · exact habs r u hm

/-- An Unregister that returns keeps the invariant, keeps every retired handle
retired and enqueues nothing on it. -/
theorem Hub.unregister_keeps (env : Env) (h : Hub) (seen : List Ptr) (client : Ptr)
    (step : HubStep) (hrun : h.unregisterClient env client = .ok step)
    (hinv : Hub.Inv (h, seen)) :
    Hub.Inv (step.hub, client :: seen) ∧
    ∀ p, Hub.Retired (h, seen) p →
      Hub.Retired (step.hub, client :: seen) p ∧
        (step.hub.heap p).Send.buf = (h.heap p).Send.buf := by
  obtain ⟨hkc, hmo, hseen⟩ := hinv
  have hcells := Hub.unregisterClient_cells env h client step hrun
  -- every entry after the call is an entry before it, and is not the handle itself
  have hmem : ∀ r u p, step.hub.member r u = some p →
      h.member r u = some p ∧ step.hub.heap p = h.heap p := by
    rcases Hub.unregisterClient_ok_cases env h client step hrun with
      ⟨_, hhub, _, _⟩ | ⟨chat, p0, hroom, hin, hopen⟩
    · intro r u p hp
      rw [hhub] at hp ⊢
      exact ⟨hp, rfl⟩
    · obtain ⟨step1, hrun1, _, hothers, hgone, hstay, hrooms, _⟩ :=
        Hub.unregisterClient_spec env h client chat p0 hroom hin hopen
      have hst : step1 = step := Except.ok.inj (hrun1.symm.trans hrun)
      subst hst
      intro r u p hp
      have hm : h.member r u = some p := by
        by_cases hr : r = (h.heap client).ChatID
        · subst hr
          by_cases hu : u = (h.heap client).ID
          · subst hu
            rw [hgone] at hp
            exact Option.noConfusion hp
          · rw [hstay u hu] at hp
            rw [Hub.member_of_lookup h _ chat hroom]
            exact hp
        · rw [← Hub.member_of_lookup_eq step1.hub h r (hrooms r hr) u]
          exact hp
      refine ⟨hm, hothers p ?_⟩
      intro hpc
      subst hpc
      have k := hkc r u p hm
      rw [← k.1, ← k.2, hgone] at hp
      exact Option.noConfusion hp
  refine ⟨⟨?_, ?_, ?_⟩, ?_⟩
  · intro r u p hp
    obtain ⟨hm, hcell⟩ := hmem r u p hp
    rw [hcell]
    exact hkc r u p hm
  · intro r u p hp
    obtain ⟨hm, hcell⟩ := hmem r u p hp
    rw [hcell]
    exact hmo r u p hm
  · intro r u p hp
    exact List.mem_cons_of_mem _ (hseen r u p (hmem r u p hp).1)
  · intro p hret
    have hb := Hub.cells_buf _ _ (hcells p)
    refine ⟨?_, hb.1⟩
    rcases hret with hclosed | ⟨hs, habs⟩
    · exact Or.inl (hb.2.2.2 hclosed)
    · exact Or.inr ⟨List.mem_cons_of_mem _ hs, fun r u hp => habs r u (hmem r u p hp).1⟩

/-- A Broadcast that returns keeps the invariant, keeps every retired handle
retired and enqueues nothing on it. -/
theorem Hub.broadcast_keeps (env : Env) (h : Hub) (seen : List Ptr) (m : Message)
    (step : HubStep) (hrun : h.broadcastMessage env m = .ok step)
    (hinv : Hub.Inv (h, seen)) :
    Hub.Inv (step.hub, seen) ∧
    ∀ p, Hub.Retired (h, seen) p →
      Hub.Retired (step.hub, seen) p ∧ step.hub.heap p = h.heap p := by
  obtain ⟨hkc, hmo, hseen⟩ := hinv
  rcases (Hub.broadcastMessage_ok_cases env h m step hrun hkc hmo).2 with
    hhub | ⟨data, _, hout, hin, hstay, hgone, hother, hsub, _⟩
  · rw [hhub]
    exact ⟨⟨hkc, hmo, hseen⟩, fun p hret => ⟨hret, rfl⟩⟩
  · have hmem : ∀ r u p, step.hub.member r u = some p → h.member r u = some p := by
      intro r u p hp
      by_cases hr : r = m.ChatID
      · subst hr
        exact hsub u p hp
      · rw [← Hub.member_of_lookup_eq step.hub h r (hother r hr) u]
        exact hp
    -- a handle that is not in the table is not offered the frame
    have hfar : ∀ p, (∀ r u, h.member r u ≠ some p) → step.hub.heap p = h.heap p :=
      fun p hp => hout p (fun u => hp m.ChatID u)
    have hids : ∀ p, (step.hub.heap p).ChatID = (h.heap p).ChatID ∧
        (step.hub.heap p).ID = (h.heap p).ID := by
      intro p
      by_cases hp : ∃ u, h.member m.ChatID u = some p
      · obtain ⟨u, hu⟩ := hp
        rw [hin u p hu]
        exact ⟨(Client.afterOffer_ids _ _).1, (Client.afterOffer_ids _ _).2.1⟩
      · rw [hout p (fun u hu => hp ⟨u, hu⟩)]
        exact ⟨rfl, rfl⟩
    refine ⟨⟨?_, ?_, ?_⟩, ?_⟩
    · intro r u p hp
      rw [(hids p).1, (hids p).2]
      exact hkc r u p (hmem r u p hp)
    · intro r u p hp
      have hm := hmem r u p hp
      by_cases hr : r = m.ChatID
      · subst hr
        rw [hin u p hm]
        cases hroom : (h.heap p).hasRoom with
        | true =>
          simp only [Client.afterOffer, hroom, if_true, Client.enqueued]
          exact hmo _ u p hm
        | false =>
          rw [hgone u p hm hroom] at hp
          exact Option.noConfusion hp
      · have hnot : ∀ u1, h.member m.ChatID u1 ≠ some p := by
          intro u1 h1
          exact hr ((hkc r u p hm).1.symm.trans (hkc _ u1 p h1).1)
        rw [hout p hnot]
        exact hmo r u p hm
    · intro r u p hp
      exact hseen r u p (hmem r u p hp)
    · intro p hret
      have habs : ∀ r u, h.member r u ≠ some p := by
        rcases hret with hclosed | ⟨_, habs⟩
        · intro r u hp
          have := hmo r u p hp
          rw [hclosed] at this
          exact Bool.noConfusion this
        · exact habs
      have hcell := hfar p habs
      refine ⟨?_, hcell⟩
      rcases hret with hclosed | ⟨hs, _⟩
      · left
        show (step.hub.heap p).Send.closed = true
        rw [hcell]
        exact hclosed
      · exact Or.inr ⟨hs, fun r u hp => habs r u (hmem r u p hp)⟩

/-- One step keeps the invariant and the retired handles. -/
theorem Hub.Next_keeps (env : Env) (s t : Hub × List Ptr) (hn : Hub.Next env s t)
    (hinv : Hub.Inv s) :
    Hub.Inv t ∧
    ∀ p, Hub.Retired s p →
      Hub.Retired t p ∧ (t.1.heap p).Send.buf = (s.1.heap p).Send.buf := by
  cases hn with
  | register h seen client step hfresh hopenc hrun =>
    exact Hub.register_keeps env h seen client step hfresh hopenc hrun hinv
  | unregister h seen client step hrun =>
    exact Hub.unregister_keeps env h seen client step hrun hinv
  | broadcast h seen m step hrun =>
    obtain ⟨hi, hr⟩ := Hub.broadcast_keeps env h seen m step hrun hinv
    refine ⟨hi, fun p hp => ⟨(hr p hp).1, ?_⟩⟩
    show (step.hub.heap p).Send.buf = (h.heap p).Send.buf
    rw [(hr p hp).2]

/-- Any number of steps keep the invariant and the retired handles. -/
theorem Hub.Reaches_keeps (env : Env) (s t : Hub × List Ptr) (hr : Hub.Reaches env s t)
    (hinv : Hub.Inv s) :
    Hub.Inv t ∧
    ∀ p, Hub.Retired s p →
      Hub.Retired t p ∧ (t.1.heap p).Send.buf = (s.1.heap p).Send.buf := by
  induction hr with
  | refl => exact ⟨hinv, fun p hp => ⟨hp, rfl⟩⟩
  | tail _ hn ih =>
    obtain ⟨hi, hret⟩ := ih
    obtain ⟨hi2, hret2⟩ := Hub.Next_keeps env _ _ hn hi
    refine ⟨hi2, fun p hp => ?_⟩
    obtain ⟨h1, h2⟩ := hret p hp
    obtain ⟨h3, h4⟩ := hret2 p h1
    exact ⟨h3, h4.trans h2⟩

theorem Hub.Inv_NewHub (heap : Ptr → Client) : Hub.Inv (NewHub heap, []) := by
  have hnone : ∀ r u, (NewHub heap).member r u = none := by
    intro r u
    simp [Hub.member, NewHub, AList.lookup_empty]
  refine ⟨?_, ?_, ?_⟩ <;>
    · intro r u p hp
      rw [hnone] at hp
      exact Option.noConfusion hp

/-! ## A slow member alone in its room -/

/-- Hub.broadcastMessage never deletes the room of the message from the table. -/
theorem Hub.broadcastMessage_room_stays (env : Env) (h : Hub) (m : Message) (step : HubStep)
    (chat : ChatMap) (hroom : h.chats.lookup m.ChatID = some chat)
    (hrun : h.broadcastMessage env m = .ok step) :
    step.hub.chats.lookup m.ChatID ≠ none := by
  simp only [Hub.broadcastMessage, hroom] at hrun
  cases hm : env.marshalMessage m with
  | error e =>
    rw [hm] at hrun
    rw [← Except.ok.inj hrun]
    show h.chats.lookup m.ChatID ≠ none
    rw [hroom]
    exact Option.some_ne_none _
  | ok data =>
    rw [hm] at hrun
    simp only at hrun
    split at hrun
    · exact Except.noConfusion hrun
    · rw [← Except.ok.inj hrun]
      show AList.lookup m.ChatID (AList.insert m.ChatID _ h.chats) ≠ none
      rw [AList.lookup_insert]
      exact Option.some_ne_none _

theorem soloWith_room (k : Nat) (s : Hub × List Ptr) (hs : soloWith k s) :
    ∃ chat, s.1.chats.lookup 7 = some chat ∧
      (∀ u p, chat.lookup u = some p → u = 1 ∧ p = 1) ∧ chat.lookup 1 = some 1 := by
  have h1 : s.1.member 7 1 = some 1 := by rw [hs.1 1]; rfl
  obtain ⟨chat, hroom, hl⟩ := (Hub.member_eq_some s.1 7 1 1).mp h1
  refine ⟨chat, hroom, ?_, hl⟩
  intro u p hup
  have := hs.1 u
  rw [Hub.member_of_lookup s.1 7 chat hroom, hup] at this
  by_cases hu : u = 1
  · rw [if_pos hu] at this
    exact ⟨hu, Option.some.inj this⟩
  · rw [if_neg hu] at this
    exact Option.noConfusion this

/-- A Broadcast to the solo room: the step, and the frame reaching handle 1. -/
theorem soloWith_broadcast (k : Nat) (s : Hub × List Ptr) (hs : soloWith k s) :
    ∃ step, s.1.broadcastMessage okEnv sampleMessage = .ok step ∧
      step.hub.heap 1 = (s.1.heap 1).afterOffer [104, 105] ∧
      ((s.1.heap 1).hasRoom = true → step.hub.member 7 1 = some 1) ∧
      ((s.1.heap 1).hasRoom = false → step.hub.member 7 1 = none) ∧
      (∀ u, u ≠ 1 → step.hub.member 7 u = none) ∧
      step.hub.chats.lookup 7 ≠ none := by
  obtain ⟨chat, hroom, honly, h1⟩ := soloWith_room k s hs
  have hopen : ∀ u p, chat.lookup u = some p → (s.1.heap p).Send.closed = false := by
    intro u p hup
    rw [(honly u p hup).2, hs.2]
  have hinj : ∀ u1 u2 p, chat.lookup u1 = some p → chat.lookup u2 = some p → u1 = u2 := by
    intro u1 u2 p hu1 hu2
    rw [(honly u1 p hu1).1, (honly u2 p hu2).1]
  obtain ⟨step, hrun, _, _, hin, hstay, hgone, _, hsub⟩ :=
    Hub.broadcastMessage_spec okEnv s.1 sampleMessage [104, 105] chat hroom rfl hopen hinj
  refine ⟨step, hrun, hin 1 1 h1, hstay 1 1 h1, hgone 1 1 h1, ?_, ?_⟩
  · intro u hu
    cases hm : step.hub.member 7 u with
    | none => rfl
    | some p => exact absurd (honly u p (hsub u p hm)).1 hu
  · exact Hub.broadcastMessage_room_stays okEnv s.1 sampleMessage step chat hroom hrun

/-- From the empty hub, Register of handle 1 and k Broadcasts that nothing
drains lead to the solo room with k pending frames, for k up to the capacity. -/
theorem soloWith_reachable (k : Nat) (hk : k ≤ 256) :
    ∃ s, Hub.Reaches okEnv (NewHub sampleHeap, []) s ∧ soloWith k s := by
  induction k with
  | zero =>
    obtain ⟨step, hrun, hslot, _, hrest, hslots, _, _, _⟩ :=
      Hub.registerClient_spec okEnv (NewHub sampleHeap) 1
        (fun p hp => by simp [Hub.member, NewHub, AList.lookup_empty] at hp)
    refine ⟨(step.hub, [1]), Relation.ReflTransGen.single
      (Hub.Next.register (NewHub sampleHeap) [] 1 step (by decide) rfl hrun), ?_, ?_⟩
    · intro u
      by_cases hu : u = 1
      · subst hu
        exact hslot
      · rw [if_neg hu]
        have := hslots 7 u (fun hc => hu hc.2)
        rw [this]
        simp [Hub.member, NewHub, AList.lookup_empty]
    · have := hrest 1 (by simp [Hub.member, NewHub, AList.lookup_empty])
      rw [this]
      rfl
  | succ k ih =>
    obtain ⟨s, hreach, hs⟩ := ih (by omega)
    obtain ⟨step, hrun, hcell, hstay, _, hothers, _⟩ := soloWith_broadcast k s hs
    have hroom : (s.1.heap 1).hasRoom = true := by
      rw [hs.2]
      simp only [Client.hasRoom, List.length_replicate, decide_eq_true_eq]
      omega
    refine ⟨(step.hub, s.2), Relation.ReflTransGen.tail hreach
      (Hub.Next.broadcast s.1 s.2 sampleMessage step hrun), ?_, ?_⟩
    · intro u
      by_cases hu : u = 1
      · subst hu
        exact hstay hroom
      · rw [if_neg hu]
        exact hothers u hu
    · show step.hub.heap 1 = _
      rw [hcell]
      simp only [Client.afterOffer, hroom, if_true, Client.enqueued]
      rw [hs.2]
      simp only [List.replicate_succ']

/-! ## Frame lemmas: what an event leaves alone -/

/-- The fan-out loop changes no cell other than those of the handles it visits. -/
theorem Hub.fanOut_frame (data : Bytes) :
    ∀ (l : List (Sigma fun _ : Int => Ptr)) (heap : Ptr → Client) (chat : ChatMap)
      (logs : List String) (r : (Ptr → Client) × ChatMap × List String),
      Hub.fanOut data l heap chat logs = .ok r →
      ∀ p, p ∉ l.map (fun e => e.2) → r.1 p = heap p := by
  intro l
  induction l with
  | nil =>
    intro heap chat logs r hrun p _
    simp only [Hub.fanOut] at hrun
    rw [← Except.ok.inj hrun]
  | cons hd rest ih =>
    intro heap chat logs r hrun p hp
    obtain ⟨u, q⟩ := hd
    rw [List.map_cons, List.mem_cons, not_or] at hp
    simp only [Hub.fanOut] at hrun
    split at hrun
    · exact Except.noConfusion hrun
    · rw [ih _ _ _ r hrun p hp.2]
      exact Function.update_noteq hp.1 _ _
    · split at hrun
      · exact Except.noConfusion hrun
      · rw [ih _ _ _ r hrun p hp.2]
        exact Function.update_noteq hp.1 _ _

/-- A Broadcast that returned left every other room map, and every handle that
is not in the room of the message, as they were. -/
theorem Hub.broadcastMessage_frame (env : Env) (h : Hub) (m : Message) (step : HubStep)
    (hrun : h.broadcastMessage env m = .ok step) :
    (∀ r, r ≠ m.ChatID → step.hub.chats.lookup r = h.chats.lookup r) ∧
    (∀ p, (∀ u, h.member m.ChatID u ≠ some p) → step.hub.heap p = h.heap p) := by
  cases hroom : h.chats.lookup m.ChatID with
  | none =>
    obtain ⟨step1, hrun1, hhub, _⟩ := Hub.broadcastMessage_no_room env h m hroom
    rw [hrun] at hrun1
    rw [Except.ok.inj hrun1, hhub]
    exact ⟨fun _ _ => rfl, fun _ _ => rfl⟩
  | some chat =>
    simp only [Hub.broadcastMessage, hroom] at hrun
    cases hm : env.marshalMessage m with
    | error e =>
      rw [hm] at hrun
      rw [← Except.ok.inj hrun]
      exact ⟨fun _ _ => rfl, fun _ _ => rfl⟩
    | ok data =>
      rw [hm] at hrun
      simp only at hrun
      split at hrun
      · exact Except.noConfusion hrun
      · rename_i heap1 chat1 logs1 hf
        rw [← Except.ok.inj hrun]
        refine ⟨fun r hr => AList.lookup_insert_ne hr, ?_⟩
        intro p hp
        apply Hub.fanOut_frame data chat.entries h.heap chat _ _ hf p
        intro hmem
        obtain ⟨e, he, hep⟩ := List.mem_map.mp hmem
        apply hp e.1
        rw [Hub.member_of_lookup h m.ChatID chat hroom, ← hep]
        exact (ChatMap.mem_entries chat e).mp he

/-- A Register that returned left every other room map as it was. -/
theorem Hub.registerClient_rooms (env : Env) (h : Hub) (client : Ptr) (step : HubStep)
    (hrun : h.registerClient env client = .ok step) :
    ∀ r, r ≠ (h.heap client).ChatID → step.hub.chats.lookup r = h.chats.lookup r := by
  intro r hr
  simp only [Hub.registerClient] at hrun
  split at hrun
  · exact Except.noConfusion hrun
  · rw [← Except.ok.inj hrun]
    exact AList.lookup_insert_ne hr

/-- An Unregister that returned left every other room map as it was. -/
theorem Hub.unregisterClient_rooms (env : Env) (h : Hub) (client : Ptr) (step : HubStep)
    (hrun : h.unregisterClient env client = .ok step) :
    ∀ r, r ≠ (h.heap client).ChatID → step.hub.chats.lookup r = h.chats.lookup r := by
  intro r hr
  rcases Hub.unregisterClient_ok_cases env h client step hrun with
    ⟨_, hhub, _, _⟩ | ⟨chat, p0, hroom, hin, hopen⟩
  · rw [hhub]
  · obtain ⟨step1, hrun1, _, _, _, _, hrooms, _⟩ :=
      Hub.unregisterClient_spec env h client chat p0 hroom hin hopen
    rw [hrun] at hrun1
    rw [Except.ok.inj hrun1]
    exact hrooms r hr

/-- The cell of a handle registered in another room is not touched by an event. -/
theorem Hub.process_frame (env : Env) (h : Hub) (e : Event) (step : HubStep)
    (hkc : h.KeyConsistent) (hrun : h.process env e = .ok step) (r : Int)
    (hr : r ≠ e.room h) :
    step.hub.chats.lookup r = h.chats.lookup r ∧
    ∀ u p, h.member r u = some p → step.hub.heap p = h.heap p := by
  cases e with
  | register client =>
    refine ⟨Hub.registerClient_rooms env h client step hrun r hr, ?_⟩
    intro u p hp
    obtain ⟨step1, hrun1, _, _, hrest, _⟩ :=
      Hub.registerClient_spec env h client (Hub.registerClient_ok_open env h client step hrun)
    have hst : step1 = step := Except.ok.inj (hrun1.symm.trans hrun)
    subst hst
    apply hrest
    intro he
    exact hr ((hkc r u p hp).1.symm.trans (hkc _ _ p he).1)
  | unregister client =>
    refine ⟨Hub.unregisterClient_rooms env h client step hrun r hr, ?_⟩
    intro u p hp
    have hne : p ≠ client := by
      intro hpc
      subst hpc
      exact hr (hkc r u p hp).1.symm
    rcases Hub.unregisterClient_ok_cases env h client step hrun with
      ⟨_, hhub, _, _⟩ | ⟨chat, p0, hroom, hin, hopen⟩
    · rw [hhub]
    · obtain ⟨step1, hrun1, _, hothers, _⟩ :=
        Hub.unregisterClient_spec env h client chat p0 hroom hin hopen
      have hst : step1 = step := Except.ok.inj (hrun1.symm.trans hrun)
      subst hst
      exact hothers p hne
  | broadcast m =>
    obtain ⟨hrooms, hcells⟩ := Hub.broadcastMessage_frame env h m step hrun
    refine ⟨hrooms r hr, ?_⟩
    intro u p hp
    apply hcells
    intro u1 h1
    exact hr ((hkc r u p hp).1.symm.trans (hkc _ u1 p h1).1)

/-! ## Lemmas on the queries of the table -/

theorem Hub.IsUserInChat_eq (h : Hub) (r u : Int) :
    h.IsUserInChat r u = (h.member r u).isSome := by
  unfold Hub.IsUserInChat Hub.member
  cases h.chats.lookup r <;> rfl

theorem Hub.mem_GetChatClients (h : Hub) (r : Int) (p : Ptr) :
    p ∈ h.GetChatClients r ↔ ∃ u, h.member r u = some p := by
  unfold Hub.GetChatClients Hub.member
  cases hroom : h.chats.lookup r with
  | none => simp
  | some chat =>
    simp only [List.mem_map]
    constructor
    · rintro ⟨e, he, rfl⟩
      exact ⟨e.1, (ChatMap.mem_entries chat e).mp he⟩
    · rintro ⟨u, hu⟩
      exact ⟨⟨u, p⟩, (ChatMap.mem_entries chat ⟨u, p⟩).mpr hu, rfl⟩

/-- Register of a handle that does not hold the slot of its owner keeps the table
key consistent and its handles open. -/
theorem Hub.register_wf (env : Env) (h : Hub) (client : Ptr) (step : HubStep)
    (hkc : h.KeyConsistent) (hmo : h.MembersOpen)
    (hcne : h.member (h.heap client).ChatID (h.heap client).ID ≠ some client)
    (hopenc : (h.heap client).Send.closed = false)
    (hrun : h.registerClient env client = .ok step) :
    step.hub.KeyConsistent ∧ step.hub.MembersOpen := by
  obtain ⟨step1, hrun1, hslot, _, hrest, hslots, _, _, _⟩ :=
    Hub.registerClient_spec env h client
      (fun p hp => hmo (h.heap client).ChatID (h.heap client).ID p hp)
  have hst : step1 = step := Except.ok.inj (hrun1.symm.trans hrun)
  subst hst
  have hcell_c : step1.hub.heap client = h.heap client := hrest client hcne
  have hcells := Hub.registerClient_cells env h client step1 hrun
  have hmem : ∀ r u p, step1.hub.member r u = some p →
      (r = (h.heap client).ChatID ∧ u = (h.heap client).ID ∧ p = client) ∨
      (¬ (r = (h.heap client).ChatID ∧ u = (h.heap client).ID) ∧ h.member r u = some p) := by
    intro r u p hp
    by_cases hru : r = (h.heap client).ChatID ∧ u = (h.heap client).ID
    · left
      obtain ⟨hr, hu⟩ := hru
      subst hr hu
      rw [hslot] at hp
      exact ⟨rfl, rfl, (Option.some.inj hp).symm⟩
    · right
      rw [hslots r u hru] at hp
      exact ⟨hru, hp⟩
  constructor
  · intro r u p hp
    rcases hmem r u p hp with ⟨hr, hu, hpc⟩ | ⟨_, hm⟩
    · subst hr hu hpc
      rw [hcell_c]
      exact ⟨rfl, rfl⟩
    · have hb := Hub.cells_buf _ _ (hcells p)
      rw [hb.2.1, hb.2.2.1]
      exact hkc r u p hm
  · intro r u p hp
    rcases hmem r u p hp with ⟨hr, hu, hpc⟩ | ⟨hru, hm⟩
    · subst hpc
      rw [hcell_c]
      exact hopenc
    · have hne : h.member (h.heap client).ChatID (h.heap client).ID ≠ some p := by
        intro he
        have k1 := hkc _ _ p he
        have k2 := hkc r u p hm
        exact hru ⟨k2.1.symm.trans k1.1, k2.2.symm.trans k1.2⟩
      rw [hrest p hne]
      exact hmo r u p hm

/-! ## Facts about the sample hub with two rooms -/

theorem pairHub_member (r u : Int) (p : Ptr) (h : pairHub.member r u = some p) :
    (r = 7 ∧ u = 1 ∧ p = 1) ∨ (r = 7 ∧ u = 2 ∧ p = 3) ∨ (r = 8 ∧ u = 9 ∧ p = 5) := by
  unfold Hub.member pairHub at h
  simp only at h
  by_cases h7 : r = 7
  · subst h7
    rw [AList.lookup_insert] at h
    simp only at h
    by_cases h2 : u = 2
    · subst h2
      rw [AList.lookup_insert] at h
      exact Or.inr (Or.inl ⟨rfl, rfl, (Option.some.inj h).symm⟩)
    rw [AList.lookup_insert_ne h2] at h
    by_cases h1 : u = 1
    · subst h1
      rw [AList.lookup_insert] at h
      exact Or.inl ⟨rfl, rfl, (Option.some.inj h).symm⟩
    rw [AList.lookup_insert_ne h1, AList.lookup_empty] at h
    exact Option.noConfusion h
  rw [AList.lookup_insert_ne h7] at h
  by_cases h8 : r = 8
  · subst h8
    rw [AList.lookup_insert] at h
    simp only at h
    by_cases h9 : u = 9
    · subst h9
      rw [AList.lookup_insert] at h
      exact Or.inr (Or.inr ⟨rfl, rfl, (Option.some.inj h).symm⟩)
    rw [AList.lookup_insert_ne h9, AList.lookup_empty] at h
    exact Option.noConfusion h
  rw [AList.lookup_insert_ne h8, AList.lookup_empty] at h
  exact Option.noConfusion h

theorem pairHub_keyConsistent : pairHub.KeyConsistent := by
  intro r u p h
  rcases pairHub_member r u p h with ⟨rfl, rfl, rfl⟩ | ⟨rfl, rfl, rfl⟩ | ⟨rfl, rfl, rfl⟩ <;>
    exact ⟨rfl, rfl⟩

theorem pairHub_membersOpen : pairHub.MembersOpen := by
  intro r u p h
  rcases pairHub_member r u p h with ⟨rfl, rfl, rfl⟩ | ⟨rfl, rfl, rfl⟩ | ⟨rfl, rfl, rfl⟩ <;> rfl

/-! ## Lemmas on the chat service -/

theorem isMemberLoop_iff (userID : Int) (members : List Int) :
    isMemberLoop userID members = true ↔ userID ∈ members := by
  induction members with
  | nil => simp [isMemberLoop]
  | cons m rest ih =>
    by_cases hm : m = userID
    · simp [isMemberLoop, hm]
    · have hne : userID ≠ m := fun h => hm h.symm
      simp [isMemberLoop, hm, hne, ih]

theorem int64_of_inRange (x : Int) (hlo : -(2 ^ 63) ≤ x) (hhi : x < 2 ^ 63) : int64 x = x := by
  unfold int64
  omega

/-! ## Key consistency under any call that returns -/

/-- The fan-out loop, whenever it returns, has kept the owner and room of every
handle and has only deleted entries from the room map. -/
theorem Hub.fanOut_shrinks (data : Bytes) :
    ∀ (l : List (Sigma fun _ : Int => Ptr)) (heap : Ptr → Client) (chat : ChatMap)
      (logs : List String) (r : (Ptr → Client) × ChatMap × List String),
      Hub.fanOut data l heap chat logs = .ok r →
      (∀ p, (r.1 p).ChatID = (heap p).ChatID ∧ (r.1 p).ID = (heap p).ID) ∧
      (∀ u q, r.2.1.lookup u = some q → chat.lookup u = some q) := by
  intro l
  induction l with
  | nil =>
    intro heap chat logs r hrun
    simp only [Hub.fanOut] at hrun
    rw [← Except.ok.inj hrun]
    exact ⟨fun _ => ⟨rfl, rfl⟩, fun _ _ hq => hq⟩
  | cons hd rest ih =>
    intro heap chat logs r hrun
    obtain ⟨k, c⟩ := hd
    simp only [Hub.fanOut] at hrun
    split at hrun
    · exact Except.noConfusion hrun
    · obtain ⟨hids, hsub⟩ := ih _ _ _ r hrun
      refine ⟨fun p => ?_, hsub⟩
      rw [(hids p).1, (hids p).2]
      by_cases hp : p = c
      · subst hp
        simp only [Function.update_same, and_self]
      · simp only [Function.update_noteq hp, and_self]
    · split at hrun
      · exact Except.noConfusion hrun
      · rename_i closed hcl
        obtain ⟨hids, hsub⟩ := ih _ _ _ r hrun
        have hclosed := (Client.Close_ok _ _ hcl).2
        constructor
        · intro p
          rw [(hids p).1, (hids p).2]
          by_cases hp : p = c
          · subst hp
            simp only [Function.update_same, hclosed, Client.tornDown, and_self]
          · simp only [Function.update_noteq hp, and_self]
        · intro u q hq
          have h1 := hsub u q hq
          by_cases hu : u = k
          · rw [hu, AList.lookup_erase] at h1
            exact Option.noConfusion h1
          · rwa [AList.lookup_erase_ne hu] at h1

/-- A Broadcast that returned has kept the owner and room of every handle and
has added no entry to the table. -/
theorem Hub.broadcastMessage_shrinks (env : Env) (h : Hub) (m : Message) (step : HubStep)
    (hrun : h.broadcastMessage env m = .ok step) :
    (∀ p, (step.hub.heap p).ChatID = (h.heap p).ChatID ∧
      (step.hub.heap p).ID = (h.heap p).ID) ∧
    (∀ r u q, step.hub.member r u = some q → h.member r u = some q) := by
  cases hroom : h.chats.lookup m.ChatID with
  | none =>
    obtain ⟨step1, hrun1, hhub, _⟩ := Hub.broadcastMessage_no_room env h m hroom
    rw [hrun] at hrun1
    rw [Except.ok.inj hrun1, hhub]
    exact ⟨fun _ => ⟨rfl, rfl⟩, fun _ _ _ hq => hq⟩
  | some chat =>
    simp only [Hub.broadcastMessage, hroom] at hrun
    cases hm : env.marshalMessage m with
    | error e =>
      rw [hm] at hrun
      rw [← Except.ok.inj hrun]
      exact ⟨fun _ => ⟨rfl, rfl⟩, fun _ _ _ hq => hq⟩
    | ok data =>
      rw [hm] at hrun
      simp only at hrun
      split at hrun
      · exact Except.noConfusion hrun
      · rename_i heap1 chat1 logs1 hf
        obtain ⟨hids, hsub⟩ := Hub.fanOut_shrinks data chat.entries h.heap chat _ _ hf
        rw [← Except.ok.inj hrun]
        refine ⟨hids, ?_⟩
        intro r u q hq
        by_cases hr : r = m.ChatID
        · subst hr
          simp only [Hub.member, AList.lookup_insert] at hq
          rw [Hub.member_of_lookup h m.ChatID chat hroom]
          exact hsub u q hq
        · simp only [Hub.member, AList.lookup_insert_ne hr] at hq
          exact hq

/-- The handler of any event, when it returns, keeps the table key consistent. -/
theorem Hub.process_keyConsistent (env : Env) (h : Hub) (e : Event) (step : HubStep)
    (hrun : h.process env e = .ok step) (hkc : h.KeyConsistent) :
    step.hub.KeyConsistent := by
  cases e with
  | register client =>
    obtain ⟨step1, hrun1, hslot, _, _, hslots, _⟩ :=
      Hub.registerClient_spec env h client (Hub.registerClient_ok_open env h client step hrun)
    have hst : step1 = step := Except.ok.inj (hrun1.symm.trans hrun)
    subst hst
    have hcells := Hub.registerClient_cells env h client step1 hrun
    intro r u p hp
    have hb := Hub.cells_buf _ _ (hcells p)
    rw [hb.2.1, hb.2.2.1]
    by_cases hru : r = (h.heap client).ChatID ∧ u = (h.heap client).ID
    · obtain ⟨hr, hu⟩ := hru
      subst hr hu
      rw [hslot] at hp
      rw [← Option.some.inj hp]
      exact ⟨rfl, rfl⟩
    · rw [hslots r u hru] at hp
      exact hkc r u p hp
  | unregister client =>
    have hcells := Hub.unregisterClient_cells env h client step hrun
    have hmem : ∀ r u p, step.hub.member r u = some p → h.member r u = some p := by
      rcases Hub.unregisterClient_ok_cases env h client step hrun with
        ⟨_, hhub, _, _⟩ | ⟨chat, p0, hroom, hin, hopen⟩
      · intro r u p hp
        rw [hhub] at hp
        exact hp
      · obtain ⟨step1, hrun1, _, _, hgone, hstay, hrooms, _⟩ :=
          Hub.unregisterClient_spec env h client chat p0 hroom hin hopen
        have hst : step1 = step := Except.ok.inj (hrun1.symm.trans hrun)
        subst hst
        intro r u p hp
        by_cases hr : r = (h.heap client).ChatID
        · subst hr
          by_cases hu : u = (h.heap client).ID
          · subst hu
            rw [hgone] at hp
            exact Option.noConfusion hp
          · rw [hstay u hu] at hp
            rw [Hub.member_of_lookup h _ chat hroom]
            exact hp
        · rw [← Hub.member_of_lookup_eq step1.hub h r (hrooms r hr) u]
          exact hp
    intro r u p hp
    have hb := Hub.cells_buf _ _ (hcells p)
    rw [hb.2.1, hb.2.2.1]
    exact hkc r u p (hmem r u p hp)
  | broadcast m =>
    obtain ⟨hids, hsub⟩ := Hub.broadcastMessage_shrinks env h m step hrun
    intro r u p hp
    rw [(hids p).1, (hids p).2]
    exact hkc r u p (hsub r u p hp)

/-- Hub.Close leaves no entry in the table. -/
theorem Hub.Close_member (h h1 : Hub) (hrun : h.Close = .ok h1) (r u : Int) :
    h1.member r u = none ∧ h1.chats.entries = [] := by
  unfold Hub.Close at hrun
  split at hrun
  · exact Except.noConfusion hrun
  · rw [← Except.ok.inj hrun]
    exact ⟨by simp [Hub.member, AList.lookup_empty], rfl⟩

/-- Any call that returns keeps the table key consistent. -/
theorem Hub.AnyNext_keyConsistent (env : Env) (h t : Hub) (hn : Hub.AnyNext env h t)
    (hkc : h.KeyConsistent) : t.KeyConsistent := by
  cases hn with
  | event e step hrun => exact Hub.process_keyConsistent env h e step hrun hkc
  | close _ hrun =>
    intro r u p hp
    rw [(Hub.Close_member h t hrun r u).1] at hp
    exact Option.noConfusion hp

/-! ## Lemmas on Hub.Close -/

/-- Closing a list of distinct handles with open queues returns: each of them is
torn down, every other cell is as it was. -/
theorem Hub.closeAll_spec :
    ∀ (l : List Ptr) (heap : Ptr → Client), l.Nodup →
      (∀ p ∈ l, (heap p).Send.closed = false) →
      ∃ heap1, Hub.closeAll l heap = .ok heap1 ∧
        (∀ p ∈ l, heap1 p = (heap p).tornDown) ∧
        (∀ p, p ∉ l → heap1 p = heap p) := by
  intro l
  induction l with
  | nil =>
    intro heap _ _
    exact ⟨heap, rfl, fun p hp => absurd hp (List.not_mem_nil p), fun _ _ => rfl⟩
  | cons c rest ih =>
    intro heap hnd hopen
    rw [List.nodup_cons] at hnd
    have hc := Client.Close_of_open (heap c) (hopen c (List.mem_cons_self _ _))
    have hagree : ∀ p ∈ rest, Function.update heap c (heap c).tornDown p = heap p := by
      intro p hp
      have hne : p ≠ c := fun hpc => hnd.1 (hpc ▸ hp)
      exact Function.update_noteq hne _ _
    obtain ⟨heap1, hrun, hin, hout⟩ := ih (Function.update heap c (heap c).tornDown) hnd.2
      (fun p hp => by rw [hagree p hp]; exact hopen p (List.mem_cons_of_mem _ hp))
    refine ⟨heap1, by simp only [Hub.closeAll, hc]; exact hrun, ?_, ?_⟩
    · intro p hp
      rcases List.mem_cons.mp hp with rfl | hp
      · rw [hout p hnd.1]
        exact Function.update_same _ _ _
      · rw [hin p hp, hagree p hp]
    · intro p hp
      rw [List.mem_cons, not_or] at hp
      rw [hout p hp.2]
      exact Function.update_noteq hp.1 _ _

theorem Hub.mem_allClients (h : Hub) (p : Ptr) :
    p ∈ h.allClients ↔ ∃ r u, h.member r u = some p := by
  unfold Hub.allClients
  rw [List.mem_flatMap]
  constructor
  · rintro ⟨room, hroom, hp⟩
    obtain ⟨e, he, hep⟩ := List.mem_map.mp hp
    have hl : h.chats.lookup room.1 = some room.2 := AList.mem_lookup_iff.mpr hroom
    refine ⟨room.1, e.1, ?_⟩
    rw [Hub.member_of_lookup h room.1 room.2 hl, ← hep]
    exact (ChatMap.mem_entries room.2 e).mp he
  · rintro ⟨r, u, hm⟩
    obtain ⟨chat, hroom, hin⟩ := (Hub.member_eq_some h r u p).mp hm
    exact ⟨⟨r, chat⟩, AList.mem_lookup_iff.mp hroom,
      List.mem_map.mpr ⟨⟨u, p⟩, (ChatMap.mem_entries chat ⟨u, p⟩).mpr hin, rfl⟩⟩

theorem Hub.allClients_nodup (h : Hub) (hkc : h.KeyConsistent) : h.allClients.Nodup := by
  unfold Hub.allClients
  rw [List.nodup_flatMap]
  constructor
  · intro room hroom
    have hl : h.chats.lookup room.1 = some room.2 := AList.mem_lookup_iff.mpr hroom
    apply ChatMap.ptrs_nodup
    intro u1 u2 p h1 h2
    have hmem := Hub.member_of_lookup h room.1 room.2 hl
    exact hkc.inj room.1 u1 u2 p (by rw [hmem, h1]) (by rw [hmem, h2])
  · have hpw := List.nodupKeys_iff_pairwise.mp h.chats.nodupKeys
    refine List.Pairwise.imp_of_mem ?_ hpw
    intro a b ha hb hab p hpa hpb
    have hla : h.chats.lookup a.1 = some a.2 := AList.mem_lookup_iff.mpr ha
    have hlb : h.chats.lookup b.1 = some b.2 := AList.mem_lookup_iff.mpr hb
    obtain ⟨ea, hea, heap1⟩ := List.mem_map.mp hpa
    obtain ⟨eb, heb, heap2⟩ := List.mem_map.mp hpb
    have hma : h.member a.1 ea.1 = some p := by
      rw [Hub.member_of_lookup h a.1 a.2 hla, ← heap1]
      exact (ChatMap.mem_entries a.2 ea).mp hea
    have hmb : h.member b.1 eb.1 = some p := by
      rw [Hub.member_of_lookup h b.1 b.2 hlb, ← heap2]
      exact (ChatMap.mem_entries b.2 eb).mp heb
    exact hab ((hkc _ _ p hma).1.symm.trans (hkc _ _ p hmb).1)

/-! ## Closing a handle, the error envelope, and the hub goroutine -/

/-- C12: Client.Close is not idempotent. Close on a handle whose Send queue is
open returns, and a second Close on the result panics with close of closed
channel: this holds for every handle, and for the fresh handle of owner 1 in
room 7. -/
theorem close_twice_panics :
    (∀ c c1 : Client, c.Close = .ok c1 → c1.Close = .error "close of closed channel") ∧
    (∃ c1, (newClient 1 "ann" 7).Close = .ok c1 ∧
      c1.Close = .error "close of closed channel") := by
  constructor
  · intro c c1 h
    apply Client.Close_of_closed
    by_cases hc : c.Send.closed = true
    · rw [Client.Close_of_closed c hc] at h
      exact Except.noConfusion h
    · have ho : c.Send.closed = false := by simpa using hc
      rw [Client.Close_of_open c ho] at h
      rw [← Except.ok.inj h]
      rfl
  · exact ⟨_, rfl, rfl⟩

/-- C20: Client.sendError on a live handle (Send queue open, connection not
nil), when the envelope can be encoded. The envelope is the map with type error,
the given message and the time. The call returns; when the own queue has room
exactly that one frame is appended at the tail and the connection is left as it
is; when the queue is full nothing is enqueued and the connection is closed. The
owner, name and room of the handle never change, and the call has no access to
any other handle. -/
theorem sendError_enqueues_or_closes_own (env : Env) (c : Client) (message : String)
    (frame : Bytes)
    (hopen : c.Send.closed = false) (hconn : c.Connection ≠ none)
    (hframe : env.marshalMap
      [("type", JsonValue.str "error"), ("message", JsonValue.str message),
       ("time", JsonValue.time env.now)] = .ok frame) :
    ∃ c1, c.sendError env message = .ok c1 ∧
      c1.ID = c.ID ∧ c1.Username = c.Username ∧ c1.ChatID = c.ChatID ∧
      (c.Send.buf.length < c.Send.cap →
        c1.Send.buf = c.Send.buf ++ [frame] ∧ c1.Send.closed = false ∧
        c1.Connection = c.Connection) ∧
      (¬ c.Send.buf.length < c.Send.cap →
        c1.Send = c.Send ∧ c1.Connection = c.Connection.map Conn.Close ∧
        ∀ conn, c1.Connection = some conn → conn.closed = true) := by
  have hm : env.marshalError message env.now = .ok frame := hframe
  have hse := Client.sendError_of_open env c message hopen hconn
  rw [hm] at hse
  by_cases hr : c.Send.buf.length < c.Send.cap
  · have h1 : c.hasRoom = true := by simp [Client.hasRoom, hr]
    simp only [h1, if_true] at hse
    refine ⟨_, hse, rfl, rfl, rfl, ?_, fun h => absurd hr h⟩
    intro _
    exact ⟨rfl, hopen, rfl⟩
  · have h1 : c.hasRoom = false := by simp [Client.hasRoom, hr]
    simp only [h1, Bool.false_eq_true, if_false] at hse
    refine ⟨_, hse, rfl, rfl, rfl, fun h => absurd h hr, ?_⟩
    intro _
    refine ⟨rfl, rfl, ?_⟩
    intro conn hc
    cases hcc : c.Connection with
    | none => exact absurd hcc hconn
    | some c0 =>
      simp only [Client.hungUp, hcc, Option.map_some', Option.some.injEq] at hc
      rw [← hc]
      rfl

/-- C20, witness: the fresh handle of owner 1 in room 7 and the message oops. -/
theorem sendError_enqueues_or_closes_own_witness :
    ∃ c1, (newClient 1 "ann" 7).sendError okEnv "oops" = .ok c1 ∧
      c1.ID = 1 ∧ c1.Username = "ann" ∧ c1.ChatID = 7 ∧
      ((newClient 1 "ann" 7).Send.buf.length < (newClient 1 "ann" 7).Send.cap →
        c1.Send.buf = (newClient 1 "ann" 7).Send.buf ++
          [[116, 121, 112, 101, 109, 101, 115, 115, 97, 103, 101, 116, 105, 109, 101]] ∧
        c1.Send.closed = false ∧
        c1.Connection = (newClient 1 "ann" 7).Connection) ∧
      (¬ (newClient 1 "ann" 7).Send.buf.length < (newClient 1 "ann" 7).Send.cap →
        c1.Send = (newClient 1 "ann" 7).Send ∧
        c1.Connection = (newClient 1 "ann" 7).Connection.map Conn.Close ∧
        ∀ conn, c1.Connection = some conn → conn.closed = true) :=
  sendError_enqueues_or_closes_own okEnv (newClient 1 "ann" 7) "oops" _ rfl
    (fun hc => Option.noConfusion hc) rfl

/-- C13: handling a Register does not complete. When registerClient has made
its changes, the Hub.Run goroutine is at the send of the join notice on
h.broadcast (first part; likewise for any handler that emits a notice, second
part). That send can complete only with another goroutine receiving on
h.broadcast, and no other goroutine receives on a hub channel (they only send
on them); so with the hub goroutine at index 0 no send on any hub channel, by
any goroutine, can complete (third part). Evaluated on the empty hub and a fresh handle, with a
readPump waiting to broadcast and a ServeWS waiting to register (fourth part). -/
theorem register_blocks_run_on_its_own_notice :
    (∀ (env : Env) (h : Hub) (client : Ptr) (step : HubStep),
      h.registerClient env client = .ok step →
      h.Run env (Event.register client) = .ok (step.hub,
        RunPc.sendNotice (Hub.sendSystemMessage env (h.heap client).ChatID
          ("User " ++ (h.heap client).Username ++ " joined the chat")))) ∧
    (∀ (env : Env) (h : Hub) (e : Event) (step : HubStep) (m : Message) (rest : List Message),
      h.process env e = .ok step → step.sent = m :: rest →
      h.Run env e = .ok (step.hub, RunPc.sendNotice m)) ∧
    (∀ (m : Message) (others : List ChanOp),
      (∀ op ∈ others, ∀ chan, op.receives chan = false) →
      ∀ i chan, sendCanComplete ((RunPc.sendNotice m).op :: others) i chan = false) ∧
    (∃ hub1, (NewHub sampleHeap).Run okEnv (Event.register 1) = .ok (hub1,
        RunPc.sendNotice (Hub.sendSystemMessage okEnv 7 "User ann joined the chat")) ∧
      hub1.member 7 1 = some 1 ∧
      sendCanComplete
        [(RunPc.sendNotice (Hub.sendSystemMessage okEnv 7 "User ann joined the chat")).op,
          ChanOp.send ChanId.broadcast, ChanOp.send ChanId.register] 0 ChanId.broadcast
        = false) := by
  have hsecond : ∀ (env : Env) (h : Hub) (e : Event) (step : HubStep) (m : Message)
      (rest : List Message), h.process env e = .ok step → step.sent = m :: rest →
      h.Run env e = .ok (step.hub, RunPc.sendNotice m) := by
    intro env h e step m rest hrun hsent
    simp only [Hub.Run, hrun, hsent]
  refine ⟨?_, hsecond, ?_, ⟨_, rfl, rfl, rfl⟩⟩
  · intro env h client step hrun
    obtain ⟨step1, hrun1, _, _, _, _, _, _, hsent⟩ :=
      Hub.registerClient_spec env h client (Hub.registerClient_ok_open env h client step hrun)
    rw [hrun] at hrun1
    rw [← Except.ok.inj hrun1] at hsent
    exact hsecond env h (Event.register client) step _ [] hrun hsent
  · intro m others hothers i chan
    unfold sendCanComplete
    rw [List.any_eq_false]
    intro op hop
    have hmem := List.mem_of_mem_eraseIdx hop
    rcases List.mem_cons.mp hmem with rfl | hmem
    · simp [RunPc.op, ChanOp.receives]
    · rw [hothers op hmem chan]
      exact Bool.false_ne_true

/-- C18, as stated, fails: a pass of the read loop of a handle can enqueue a
frame onto the Send queue of that handle. On the fresh handle of owner 1 in room
7 a frame with empty content makes readPump append the error envelope. -/
theorem readPump_writes_to_own_send_queue :
    ¬ (∀ (env : Env) (c : Client) (incoming : Except String Bytes) (step : PumpStep),
      c.readPump env incoming = .ok step → step.client.Send.buf = c.Send.buf) := by
  intro hclaim
  have h := hclaim (sampleEnv { Content := "", MessageType := "", ReplyToID := none } true)
    (newClient 1 "ann" 7) (.ok []) _ rfl
  exact absurd h (by decide)

/-- C18, amended: the Send queue of a handle is written to by the broadcast
path of the hub and by Client.sendError of the own inbound task, and by nothing
else in the hub or the read loop. Hub.registerClient and Hub.unregisterClient
leave the pending frames of every handle as they were, and a pass of readPump
leaves the pending frames of its handle as they were or appends exactly one
frame, the encoding of an error envelope. -/
theorem send_queue_writers :
    (∀ (env : Env) (h : Hub) (client : Ptr) (step : HubStep),
      h.registerClient env client = .ok step →
      ∀ p, (step.hub.heap p).Send.buf = (h.heap p).Send.buf) ∧
    (∀ (env : Env) (h : Hub) (client : Ptr) (step : HubStep),
      h.unregisterClient env client = .ok step →
      ∀ p, (step.hub.heap p).Send.buf = (h.heap p).Send.buf) ∧
    (∀ (env : Env) (c : Client) (incoming : Except String Bytes) (step : PumpStep),
      c.readPump env incoming = .ok step →
      step.client.Send.buf = c.Send.buf ∨
        ∃ message frame, env.marshalMap (errorEnvelope message env.now) = .ok frame ∧
          step.client.Send.buf = c.Send.buf ++ [frame]) := by
  refine ⟨?_, ?_, ?_⟩
  · intro env h client step hrun p
    rcases Hub.registerClient_cells env h client step hrun p with hp | hp
    · rw [hp]
    · rw [hp, Client.tornDown]
  · intro env h client step hrun p
    rcases Hub.unregisterClient_cells env h client step hrun p with hp | hp
    · rw [hp]
    · rw [hp, Client.tornDown]
  · intro env c incoming step hrun
    unfold Client.readPump at hrun
    split at hrun
    · exact Except.noConfusion hrun
    · left
      rw [← Except.ok.inj hrun]
    · split at hrun
      · left
        rw [← Except.ok.inj hrun]
      · split at hrun
        · split at hrun
          · exact Except.noConfusion hrun
          · rename_i c1 hse
            rw [← Except.ok.inj hrun]
            rcases Client.sendError_buf env c c1 _ hse with hb | ⟨frame, hf, hb⟩
            · exact Or.inl hb
            · exact Or.inr ⟨_, frame, hf, hb⟩
        · simp only at hrun
          split at hrun
          · split at hrun
            · exact Except.noConfusion hrun
            · rename_i c1 hse
              rw [← Except.ok.inj hrun]
              rcases Client.sendError_buf env c c1 _ hse with hb | ⟨frame, hf, hb⟩
              · exact Or.inl hb
              · exact Or.inr ⟨_, frame, hf, hb⟩
          · left
            rw [← Except.ok.inj hrun]

/-- C19: the result of a Redis call changes nothing but the log. For every hub,
every event and every two behaviours of the Redis client, processing the event
panics in both cases or returns in both cases with the same hub (membership
table and every handle cell, hence the same closed handles and the same pending
frames), the same Redis calls and the same notices. -/
theorem cache_failures_are_ignored (env : Env) (r1 r2 : CacheCall → GoError) (h : Hub)
    (e : Event) :
    (h.process { env with redis := r1 } e).map HubStep.effects =
      (h.process { env with redis := r2 } e).map HubStep.effects :=
  Hub.process_redis { env with redis := r1 } { env with redis := r2 } h e rfl rfl

/-! ## Reachable states of the hub -/

/-- C14: no handle is fanned out to after removal. In every state s reached
from the empty hub by Register of fresh handles, Unregister and Broadcast events
that return, every handle in the table has an open Send queue; and a handle that
is retired in s (its queue has been closed, or it has occurred in an event and
has no entry in the table) has no entry in s, and in every state t reached from
s it is still retired, has no entry, and has exactly the pending frames it had
in s. -/
theorem no_fan_out_after_removal (env : Env) (heap0 : Ptr → Client)
    (s t : Hub × List Ptr)
    (hs : Hub.Reaches env (NewHub heap0, []) s) (ht : Hub.Reaches env s t) :
    (∀ r u p, s.1.member r u = some p → (s.1.heap p).Send.closed = false) ∧
    (∀ p, Hub.Retired s p →
      (∀ r u, s.1.member r u ≠ some p) ∧
      Hub.Retired t p ∧
      (∀ r u, t.1.member r u ≠ some p) ∧
      (t.1.heap p).Send.buf = (s.1.heap p).Send.buf) := by
  obtain ⟨hinv_s, _⟩ := Hub.Reaches_keeps env _ s hs (Hub.Inv_NewHub heap0)
  obtain ⟨hinv_t, hret⟩ := Hub.Reaches_keeps env s t ht hinv_s
  have habsent : ∀ (x : Hub × List Ptr), Hub.Inv x → ∀ p, Hub.Retired x p →
      ∀ r u, x.1.member r u ≠ some p := by
    intro x hx p hp r u hm
    rcases hp with hclosed | ⟨_, habs⟩
    · have := hx.2.1 r u p hm
      rw [hclosed] at this
      exact Bool.noConfusion this
    · exact habs r u hm
  refine ⟨hinv_s.2.1, fun p hp => ?_⟩
  obtain ⟨h1, h2⟩ := hret p hp
  exact ⟨habsent s hinv_s p hp, h1, habsent t hinv_t p h1, h2⟩

/-- C14, witness: from the empty hub, Register of handle 1 and of handle 2 (the
same owner and room) lead to a state where handle 1 is retired; a Broadcast to
room 7 follows. -/
theorem no_fan_out_after_removal_witness :
    (∀ r u p, supersededHub.member r u = some p →
      (supersededHub.heap p).Send.closed = false) ∧
    (∀ p, Hub.Retired (supersededHub, [2, 1]) p →
      (∀ r u, supersededHub.member r u ≠ some p) ∧
      Hub.Retired ((supersededHub.stepOrStay okEnv (Event.broadcast sampleMessage)).hub,
        [2, 1]) p ∧
      (∀ r u, (supersededHub.stepOrStay okEnv (Event.broadcast sampleMessage)).hub.member r u
        ≠ some p) ∧
      ((supersededHub.stepOrStay okEnv (Event.broadcast sampleMessage)).hub.heap p).Send.buf =
        (supersededHub.heap p).Send.buf) :=
  no_fan_out_after_removal okEnv sampleHeap (supersededHub, [2, 1])
    ((supersededHub.stepOrStay okEnv (Event.broadcast sampleMessage)).hub, [2, 1])
    (Relation.ReflTransGen.tail
      (Relation.ReflTransGen.tail Relation.ReflTransGen.refl
        (Hub.Next.register (NewHub sampleHeap) [] 1
          ((NewHub sampleHeap).stepOrStay okEnv (Event.register 1))
          (by decide) rfl rfl))
      (Hub.Next.register ((NewHub sampleHeap).stepOrStay okEnv (Event.register 1)).hub [1] 2
        (((NewHub sampleHeap).stepOrStay okEnv (Event.register 1)).hub.stepOrStay okEnv
          (Event.register 2))
        (by decide) rfl rfl))
    (Relation.ReflTransGen.tail Relation.ReflTransGen.refl
      (Hub.Next.broadcast supersededHub [2, 1] sampleMessage
        (supersededHub.stepOrStay okEnv (Event.broadcast sampleMessage)) rfl))

/-- C15: a room can be left in the table with an empty member map. From the
empty hub, Register of the fresh handle 1 (owner 1, room 7, capacity 256) and 257
Broadcasts to room 7 with nothing draining the queue all return; the last one
finds the queue full, closes handle 1 and deletes its entry, and room 7 stays in
the table with no entries. -/
theorem broadcast_leaves_empty_room_in_table :
    ∃ s chat, Hub.Reaches okEnv (NewHub sampleHeap, []) s ∧
      s.1.chats.lookup 7 = some chat ∧ chat.entries = [] ∧
      (s.1.heap 1).Send.closed = true := by
  obtain ⟨s, hreach, hs⟩ := soloWith_reachable 256 (le_refl _)
  obtain ⟨step, hrun, hcell, _, hgone, hothers, hroom⟩ := soloWith_broadcast 256 s hs
  have hfull : (s.1.heap 1).hasRoom = false := by
    rw [hs.2]
    simp only [Client.hasRoom, List.length_replicate, lt_self_iff_false, decide_False]
  cases hl : step.hub.chats.lookup 7 with
  | none => exact absurd hl hroom
  | some chat =>
    refine ⟨(step.hub, s.2), chat, Relation.ReflTransGen.tail hreach
      (Hub.Next.broadcast s.1 s.2 sampleMessage step hrun), hl, ?_, ?_⟩
    · rw [← List.length_eq_zero, ChatMap.entries_eq_nil_iff]
      intro u
      rw [← Hub.member_of_lookup step.hub 7 chat hl u]
      by_cases hu : u = 1
      · rw [hu]
        exact hgone hfull
      · exact hothers u hu
    · show (step.hub.heap 1).Send.closed = true
      rw [hcell]
      simp only [Client.afterOffer, hfull, Bool.false_eq_true, if_false, Client.tornDown]

/-! ## From an inbound frame to the queues of the room -/

/-- C11: a valid payload read on handle a, which is registered in its room,
with a store that succeeds. readPump leaves the handle as it is, calls
SaveMessage once and submits for broadcast a Message whose sender id, sender
name and room id are those of the handle, whose content and type are those of
the payload, and whose id is the one the store assigned. When that Message is
encoded and broadcast on a key consistent hub with open members, every member of
the room whose queue is not full, handle a included, has the encoded bytes
appended to its queue, and the handles registered in any other room are left as
they were. -/
theorem valid_payload_reaches_the_room (env : Env) (h : Hub) (a : Ptr)
    (incoming : Except String Bytes) (data : Bytes) (msg : MessageRequest)
    (id : Int) (t1 t2 : Time)
    (hread : (h.heap a).ReadMessage incoming = .ok (.ok data))
    (hdec : env.unmarshalRequest data = .ok msg)
    (hval : validateMessage msg = none)
    (hdb : env.dbInsertMessage ((h.heap a).buildMessage env msg) = .ok (id, t1, t2))
    (hreg : h.member (h.heap a).ChatID (h.heap a).ID = some a)
    (hkc : h.KeyConsistent) (hopen : h.MembersOpen) :
    ∃ pstep built sent, (h.heap a).readPump env incoming = .ok pstep ∧
      pstep.client = h.heap a ∧
      pstep.events = [PumpEvent.save built, PumpEvent.broadcast sent] ∧
      sent.UserID = (h.heap a).ID ∧ sent.Username = (h.heap a).Username ∧
      sent.ChatID = (h.heap a).ChatID ∧ sent.Content = msg.Content ∧
      sent.MessageType = msg.MessageType ∧ sent.ID = id ∧
      ∀ frame, env.marshalMessage sent = .ok frame →
        ∃ hstep, h.broadcastMessage env sent = .ok hstep ∧
          (∀ u p, h.member (h.heap a).ChatID u = some p →
            (h.heap p).Send.buf.length < (h.heap p).Send.cap →
              (hstep.hub.heap p).Send.buf = (h.heap p).Send.buf ++ [frame]) ∧
          ((h.heap a).Send.buf.length < (h.heap a).Send.cap →
            (hstep.hub.heap a).Send.buf = (h.heap a).Send.buf ++ [frame]) ∧
          (∀ r u p, r ≠ (h.heap a).ChatID → h.member r u = some p →
            hstep.hub.heap p = h.heap p) := by
  refine ⟨_, _, _, Client.readPump_saved env (h.heap a) incoming data msg id t1 t2
    hread hdec hval hdb, rfl, rfl, rfl, rfl, rfl, rfl, rfl, rfl, ?_⟩
  intro frame hframe
  obtain ⟨chat, hroom, _⟩ := (Hub.member_eq_some h _ _ a).mp hreg
  have hmem := Hub.member_of_lookup h (h.heap a).ChatID chat hroom
  have hopen1 : ∀ u p, chat.lookup u = some p → (h.heap p).Send.closed = false := by
    intro u p hp
    exact hopen (h.heap a).ChatID u p (by rw [hmem, hp])
  have hinj1 : ∀ u1 u2 p, chat.lookup u1 = some p → chat.lookup u2 = some p → u1 = u2 := by
    intro u1 u2 p h1 h2
    exact hkc.inj (h.heap a).ChatID u1 u2 p (by rw [hmem, h1]) (by rw [hmem, h2])
  obtain ⟨hstep, hrun, _, hout, hin, _⟩ :=
    Hub.broadcastMessage_spec env h _ frame chat hroom hframe hopen1 hinj1
  have hdeliver : ∀ u p, h.member (h.heap a).ChatID u = some p →
      (h.heap p).Send.buf.length < (h.heap p).Send.cap →
        (hstep.hub.heap p).Send.buf = (h.heap p).Send.buf ++ [frame] := by
    intro u p hp hr
    rw [hmem] at hp
    rw [hin u p hp]
    simp [Client.afterOffer, Client.hasRoom, hr, Client.enqueued]
  refine ⟨hstep, hrun, hdeliver, hdeliver _ a hreg, ?_⟩
  intro r u p hr hp
  apply hout
  intro u1 h1
  rw [← hmem] at h1
  exact hr ((hkc r u p hp).1.symm.trans (hkc _ u1 p h1).1)

/-- C11, witness: handles 1 (owner 1, ann) and 3 (owner 2, bob) are in room 7
and handle 5 is in room 8; handle 1 reads the payload hi of type text and the
store assigns id 42. -/
theorem valid_payload_reaches_the_room_witness :
    ∃ pstep built sent, (pairHub.heap 1).readPump okEnv (.ok []) = .ok pstep ∧
      pstep.client = pairHub.heap 1 ∧
      pstep.events = [PumpEvent.save built, PumpEvent.broadcast sent] ∧
      sent.UserID = (pairHub.heap 1).ID ∧ sent.Username = (pairHub.heap 1).Username ∧
      sent.ChatID = (pairHub.heap 1).ChatID ∧ sent.Content = "hi" ∧
      sent.MessageType = "text" ∧ sent.ID = 42 ∧
      ∀ frame, okEnv.marshalMessage sent = .ok frame →
        ∃ hstep, pairHub.broadcastMessage okEnv sent = .ok hstep ∧
          (∀ u p, pairHub.member (pairHub.heap 1).ChatID u = some p →
            (pairHub.heap p).Send.buf.length < (pairHub.heap p).Send.cap →
              (hstep.hub.heap p).Send.buf = (pairHub.heap p).Send.buf ++ [frame]) ∧
          ((pairHub.heap 1).Send.buf.length < (pairHub.heap 1).Send.cap →
            (hstep.hub.heap 1).Send.buf = (pairHub.heap 1).Send.buf ++ [frame]) ∧
          (∀ r u p, r ≠ (pairHub.heap 1).ChatID → pairHub.member r u = some p →
            hstep.hub.heap p = pairHub.heap p) :=
  valid_payload_reaches_the_room okEnv pairHub 1 (.ok []) []
    { Content := "hi", MessageType := "text", ReplyToID := none } 42 1000 1000
    rfl rfl (by decide) rfl (by decide) pairHub_keyConsistent pairHub_membersOpen

/-- C16: room isolation. On a key consistent hub, an event that concerns room R
and whose handler returns (whatever the Redis calls return, and whether or not a
queue was full) leaves the member map of every other room as it was and leaves
the cell of every handle registered in another room, in particular its pending
frames, as it was. -/
theorem other_rooms_are_untouched (env : Env) (h : Hub) (e : Event) (step : HubStep)
    (hkc : h.KeyConsistent) (hrun : h.process env e = .ok step) :
    ∀ r, r ≠ e.room h →
      step.hub.chats.lookup r = h.chats.lookup r ∧
      ∀ u p, h.member r u = some p →
        step.hub.heap p = h.heap p ∧ (step.hub.heap p).Send.buf = (h.heap p).Send.buf := by
  intro r hr
  obtain ⟨h1, h2⟩ := Hub.process_frame env h e step hkc hrun r hr
  refine ⟨h1, fun u p hp => ⟨h2 u p hp, ?_⟩⟩
  rw [h2 u p hp]

/-- C16, witness: a Broadcast to room 7 of the hub with rooms 7 and 8 leaves
room 8 and its handle alone. -/
theorem other_rooms_are_untouched_witness :
    (pairHub.stepOrStay okEnv (Event.broadcast sampleMessage)).hub.chats.lookup 8 =
        pairHub.chats.lookup 8 ∧
      ∀ u p, pairHub.member 8 u = some p →
        (pairHub.stepOrStay okEnv (Event.broadcast sampleMessage)).hub.heap p = pairHub.heap p ∧
        ((pairHub.stepOrStay okEnv (Event.broadcast sampleMessage)).hub.heap p).Send.buf =
          (pairHub.heap p).Send.buf :=
  other_rooms_are_untouched okEnv pairHub (Event.broadcast sampleMessage)
    (pairHub.stepOrStay okEnv (Event.broadcast sampleMessage)) pairHub_keyConsistent rfl
    8 (by decide)

/-- C17: Register of a fresh handle c (no entry anywhere in the table, queue
open and not full) on a key consistent hub with open members. The call returns;
afterwards c is the entry of its owner in its room, IsUserInChat is true and
GetChatClients contains c; every member of that room with another owner that
was registered before is still registered; and a Broadcast to that room that
follows returns and appends the encoded message to the queue of c. -/
theorem register_makes_handle_reachable (env : Env) (h : Hub) (c : Ptr) (m : Message)
    (data : Bytes)
    (hkc : h.KeyConsistent) (hopen : h.MembersOpen)
    (hfresh : h.Absent c)
    (hcopen : (h.heap c).Send.closed = false)
    (hcroom : (h.heap c).Send.buf.length < (h.heap c).Send.cap)
    (hroom : m.ChatID = (h.heap c).ChatID)
    (hm : env.marshalMessage m = .ok data) :
    ∃ step, h.registerClient env c = .ok step ∧
      step.hub.member (h.heap c).ChatID (h.heap c).ID = some c ∧
      step.hub.IsUserInChat (h.heap c).ChatID (h.heap c).ID = true ∧
      c ∈ step.hub.GetChatClients (h.heap c).ChatID ∧
      (∀ u p, u ≠ (h.heap c).ID → h.member (h.heap c).ChatID u = some p →
        step.hub.member (h.heap c).ChatID u = some p) ∧
      ∃ step2, step.hub.broadcastMessage env m = .ok step2 ∧
        (step2.hub.heap c).Send.buf = (h.heap c).Send.buf ++ [data] := by
  obtain ⟨step, hrun, hslot, _, hrest, hslots, _, _, _⟩ :=
    Hub.registerClient_spec env h c
      (fun p hp => hopen (h.heap c).ChatID (h.heap c).ID p hp)
  have hcne : h.member (h.heap c).ChatID (h.heap c).ID ≠ some c := hfresh _ _
  have hcell : step.hub.heap c = h.heap c := hrest c hcne
  obtain ⟨hkc1, hopen1⟩ := Hub.register_wf env h c step hkc hopen hcne hcopen hrun
  refine ⟨step, hrun, hslot, ?_, ?_, ?_, ?_⟩
  · rw [Hub.IsUserInChat_eq, hslot]
    rfl
  · exact (Hub.mem_GetChatClients step.hub _ c).mpr ⟨_, hslot⟩
  · intro u p hu hp
    rw [hslots _ u (fun hc => hu hc.2)]
    exact hp
  · obtain ⟨chat, hlook, hin⟩ := (Hub.member_eq_some step.hub _ _ c).mp hslot
    rw [← hroom] at hlook
    have hmem := Hub.member_of_lookup step.hub m.ChatID chat hlook
    have hopen2 : ∀ u p, chat.lookup u = some p → (step.hub.heap p).Send.closed = false := by
      intro u p hp
      exact hopen1 m.ChatID u p (by rw [hmem, hp])
    have hinj2 : ∀ u1 u2 p, chat.lookup u1 = some p → chat.lookup u2 = some p → u1 = u2 := by
      intro u1 u2 p h1 h2
      exact hkc1.inj m.ChatID u1 u2 p (by rw [hmem, h1]) (by rw [hmem, h2])
    obtain ⟨step2, hrun2, _, _, hin2, _⟩ :=
      Hub.broadcastMessage_spec env step.hub m data chat hlook hm hopen2 hinj2
    refine ⟨step2, hrun2, ?_⟩
    rw [hin2 _ c hin, hcell]
    simp [Client.afterOffer, Client.hasRoom, hcroom, Client.enqueued]

/-- C17, witness: handle 2, a fresh handle of owner 1 for room 7, is registered
on the hub with rooms 7 and 8 before any event has named it; the sample message
for room 7 is broadcast next. -/
theorem register_makes_handle_reachable_witness :
    ∃ step, pairHub.registerClient okEnv 2 = .ok step ∧
      step.hub.member (pairHub.heap 2).ChatID (pairHub.heap 2).ID = some 2 ∧
      step.hub.IsUserInChat (pairHub.heap 2).ChatID (pairHub.heap 2).ID = true ∧
      2 ∈ step.hub.GetChatClients (pairHub.heap 2).ChatID ∧
      (∀ u p, u ≠ (pairHub.heap 2).ID → pairHub.member (pairHub.heap 2).ChatID u = some p →
        step.hub.member (pairHub.heap 2).ChatID u = some p) ∧
      ∃ step2, step.hub.broadcastMessage okEnv sampleMessage = .ok step2 ∧
        (step2.hub.heap 2).Send.buf = (pairHub.heap 2).Send.buf ++ [[104, 105]] :=
  register_makes_handle_reachable okEnv pairHub 2 sampleMessage [104, 105]
    pairHub_keyConsistent pairHub_membersOpen
    (fun r u hp => by
      rcases pairHub_member r u 2 hp with ⟨_, _, hc⟩ | ⟨_, _, hc⟩ | ⟨_, _, hc⟩ <;>
        exact absurd hc (by decide))
    rfl (by decide) rfl rfl

/-! ## Notices, constants and the no-op cases -/

/-- C21: every notice Hub.registerClient or Hub.unregisterClient emits through
Hub.sendSystemMessage has sender id 0, display name System, type system and the
room id of the handle concerned. On Register exactly one notice is emitted and
its content is User, the display name of the handle, joined the chat; on
Unregister every notice emitted has the content User, the display name, left the
chat. So the content holds the display name followed by joined, or by left. -/
theorem system_notice_fields (env : Env) (h : Hub) (c : Ptr) :
    (∀ chatID content, (Hub.sendSystemMessage env chatID content).UserID = 0 ∧
      (Hub.sendSystemMessage env chatID content).Username = "System" ∧
      (Hub.sendSystemMessage env chatID content).MessageType = "system" ∧
      (Hub.sendSystemMessage env chatID content).ChatID = chatID ∧
      (Hub.sendSystemMessage env chatID content).Content = content) ∧
    (∀ step, h.registerClient env c = .ok step →
      ∃ m, step.sent = [m] ∧ m.UserID = 0 ∧ m.Username = "System" ∧
        m.MessageType = "system" ∧ m.ChatID = (h.heap c).ChatID ∧
        m.Content = "User " ++ (h.heap c).Username ++ " joined the chat" ∧
        m.Content = "User " ++ ((h.heap c).Username ++ " joined") ++ " the chat") ∧
    (∀ step, h.unregisterClient env c = .ok step →
      ∀ m ∈ step.sent, m.UserID = 0 ∧ m.Username = "System" ∧
        m.MessageType = "system" ∧ m.ChatID = (h.heap c).ChatID ∧
        m.Content = "User " ++ (h.heap c).Username ++ " left the chat" ∧
        m.Content = "User " ++ ((h.heap c).Username ++ " left") ++ " the chat") := by
  have hjoin : ∀ n : String, "User " ++ n ++ " joined the chat" =
      "User " ++ (n ++ " joined") ++ " the chat" := by
    intro n
    rw [String.append_assoc, String.append_assoc, String.append_assoc]
    rfl
  have hleft : ∀ n : String, "User " ++ n ++ " left the chat" =
      "User " ++ (n ++ " left") ++ " the chat" := by
    intro n
    rw [String.append_assoc, String.append_assoc, String.append_assoc]
    rfl
  refine ⟨fun _ _ => ⟨rfl, rfl, rfl, rfl, rfl⟩, ?_, ?_⟩
  · intro step hrun
    obtain ⟨step1, hrun1, _, _, _, _, _, _, hsent⟩ :=
      Hub.registerClient_spec env h c (Hub.registerClient_ok_open env h c step hrun)
    rw [hrun] at hrun1
    rw [← Except.ok.inj hrun1] at hsent
    exact ⟨_, hsent, rfl, rfl, rfl, rfl, rfl, hjoin _⟩
  · intro step hrun m hm
    rcases Hub.unregisterClient_ok_cases env h c step hrun with
      ⟨_, _, hsent, _⟩ | ⟨chat, p0, hroom, hin, hopen⟩
    · rw [hsent] at hm
      exact absurd hm (List.not_mem_nil m)
    · obtain ⟨step1, hrun1, _, _, _, _, _, _, _, hsent⟩ :=
        Hub.unregisterClient_spec env h c chat p0 hroom hin hopen
      rw [hrun] at hrun1
      rw [← Except.ok.inj hrun1] at hsent
      rw [hsent, List.mem_singleton] at hm
      subst hm
      exact ⟨rfl, rfl, rfl, rfl, rfl, hleft _⟩

/-- C24: the keepalive period is nine tenths of the idle timeout. pongWait is
60 seconds, pingPeriod is (pongWait * 9) / 10, which is 54 seconds exactly (ten
times pingPeriod is nine times pongWait), so pingPeriod is strictly less than
pongWait; writeWait is 10 seconds. -/
theorem pingPeriod_is_nine_tenths_of_pongWait :
    pongWait = 60 * Second ∧
    pingPeriod = Int.tdiv (pongWait * 9) 10 ∧
    pingPeriod = 54 * Second ∧
    pingPeriod * 10 = pongWait * 9 ∧
    pingPeriod < pongWait ∧
    writeWait = 10 * Second ∧
    Second = 1000000000 := by
  refine ⟨rfl, rfl, ?_, ?_, ?_, rfl, rfl⟩ <;> decide

/-- C25: Hub.unregisterClient on a handle whose owner id has no entry in the
room of the handle (the room is unknown, or the room is known and the owner is
absent) returns and does nothing: the hub, that is the table and every handle
cell, is as it was, no Redis call is made and no notice is emitted. -/
theorem unregister_without_entry_is_noop (env : Env) (h : Hub) (c : Ptr)
    (habs : h.chats.lookup (h.heap c).ChatID = none ∨
      ∃ chat, h.chats.lookup (h.heap c).ChatID = some chat ∧
        chat.lookup (h.heap c).ID = none) :
    ∃ step, h.unregisterClient env c = .ok step ∧
      step.hub = h ∧ step.hub.chats = h.chats ∧ (∀ p, step.hub.heap p = h.heap p) ∧
      step.cache = [] ∧ step.sent = [] := by
  have hm : h.member (h.heap c).ChatID (h.heap c).ID = none := by
    rcases habs with hroom | ⟨chat, hroom, hin⟩
    · simp only [Hub.member, hroom]
    · simp only [Hub.member, hroom, hin]
  exact ⟨_, Hub.unregisterClient_absent env h c hm, rfl, rfl, fun _ => rfl, rfl, rfl⟩

/-- C25, witness: in the sample hub only room 7 exists; handle 5 is owner 9 in
room 8. -/
theorem unregister_without_entry_is_noop_witness :
    ∃ step, sampleHub.unregisterClient okEnv 5 = .ok step ∧
      step.hub = sampleHub ∧ step.hub.chats = sampleHub.chats ∧
      (∀ p, step.hub.heap p = sampleHub.heap p) ∧
      step.cache = [] ∧ step.sent = [] :=
  unregister_without_entry_is_noop okEnv sampleHub 5 (Or.inl (by decide))

/-- C27: a frame that is read but does not decode into a message request is
skipped by readPump: no call of the store, nothing sent on the broadcast
channel, the handle and its Send queue exactly as they were (so no error envelope
is enqueued), and the loop goes on to the next read. -/
theorem readPump_skips_undecodable_frame (env : Env) (c : Client)
    (incoming : Except String Bytes) (data : Bytes) (e : String)
    (hread : c.ReadMessage incoming = .ok (.ok data))
    (hdec : env.unmarshalRequest data = .error e) :
    ∃ step, c.readPump env incoming = .ok step ∧
      step.events = [] ∧ step.client = c ∧ step.client.Send.buf = c.Send.buf ∧
      step.continues = true := by
  refine ⟨{ client := c, events := [], logs := ["Failed to parse message"],
            continues := true }, ?_, rfl, rfl, rfl, rfl⟩
  simp only [Client.readPump, hread, hdec]

/-- C27, witness: a frame of two bytes on a fresh handle, in the environment in
which no frame decodes. -/
theorem readPump_skips_undecodable_frame_witness :
    ∃ step, (newClient 1 "ann" 7).readPump badJsonEnv (.ok [123, 33]) = .ok step ∧
      step.events = [] ∧ step.client = newClient 1 "ann" 7 ∧
      step.client.Send.buf = (newClient 1 "ann" 7).Send.buf ∧
      step.continues = true :=
  readPump_skips_undecodable_frame badJsonEnv (newClient 1 "ann" 7) (.ok [123, 33])
    [123, 33] "invalid character" rfl rfl

/-! ## The chat service and the admission of a connection -/

/-- C29: chatService.JoinChat calls AddUserToChat, for this user and chat with
the role member and with no other arguments, exactly when the chat is found and
active, the member list is read, the user is not in it and the number of members
is strictly less than MaxMembers. In every other case it returns an error and
makes no such call; it returns no error only when the call was made. A user who
is already in the list gets the already-in-chat error whether or not the chat is
full. -/
theorem joinChat_adds_only_when_allowed (repo : ChatRepo) (userID chatID : Int) :
    (RepoCall.AddUserToChat userID chatID "member" ∈ (chatService.JoinChat repo userID chatID).2 ↔
      ∃ chat members, repo.GetChatByID chatID = .ok chat ∧ chat.IsActive = true ∧
        repo.GetChatMembers chatID = .ok members ∧ userID ∉ members ∧
        (members.length : Int) < chat.MaxMembers) ∧
    (∀ u c role, RepoCall.AddUserToChat u c role ∈ (chatService.JoinChat repo userID chatID).2 →
      u = userID ∧ c = chatID ∧ role = "member") ∧
    (RepoCall.AddUserToChat userID chatID "member" ∉ (chatService.JoinChat repo userID chatID).2 →
      (chatService.JoinChat repo userID chatID).1 ≠ none) ∧
    (∀ chat members, repo.GetChatByID chatID = .ok chat → chat.IsActive = true →
      repo.GetChatMembers chatID = .ok members → userID ∈ members →
      (chatService.JoinChat repo userID chatID).1 = some "user already in chat") ∧
    (∀ chat members, repo.GetChatByID chatID = .ok chat → chat.IsActive = true →
      repo.GetChatMembers chatID = .ok members → userID ∉ members →
      chat.MaxMembers ≤ (members.length : Int) →
      (chatService.JoinChat repo userID chatID).1 = some "chat is full") := by
  unfold chatService.JoinChat
  cases hchat : repo.GetChatByID chatID with
  | error e => simp
  | ok chat =>
    simp only
    cases hact : chat.IsActive with
    | false =>
      simp [hact]
      constructor <;>
        · intro c1 ms hc h1
          subst hc
          rw [hact] at h1
          exact Bool.noConfusion h1
    | true =>
      simp only [Bool.not_true, Bool.false_eq_true, if_false]
      cases hmem : repo.GetChatMembers chatID with
      | error e => simp
      | ok members =>
        simp only
        by_cases hin : userID ∈ members
        · have hloop := (isMemberLoop_iff userID members).mpr hin
          simp [hloop, hin]
        · have hloop : isMemberLoop userID members = false := by
            cases hl : isMemberLoop userID members with
            | false => rfl
            | true => exact absurd ((isMemberLoop_iff userID members).mp hl) hin
          by_cases hfull : (members.length : Int) ≥ chat.MaxMembers
          · have hnlt : ¬ (members.length : Int) < chat.MaxMembers := by omega
            simp [hloop, hin, hfull, hnlt]
          · have hlt : (members.length : Int) < chat.MaxMembers := by omega
            have hnle : ¬ chat.MaxMembers ≤ (members.length : Int) := by omega
            cases hadd : repo.AddUserToChat userID chatID "member" with
            | none => simp [hloop, hin, hfull, hlt, hnle, hact]
            | some e => simp [hloop, hin, hfull, hlt, hnle, hact]

/-- C30: a chatService.GetMessages that succeeds returns the messages and the
total of the repository unchanged, and HasMore is true exactly when offset plus
the number of returned messages, computed in the type int, is less than total;
when that sum is within the range of int it is the sum of the integers. -/
theorem getMessages_hasMore (repo : ChatRepo) (chatID limit offset : Int)
    (resp : MessageListResponse)
    (hok : chatService.GetMessages repo chatID limit offset = .ok resp) :
    ∃ messages total, repo.GetMessages chatID limit offset = .ok (messages, total) ∧
      resp.Messages = messages ∧ resp.Total = total ∧
      (resp.HasMore = true ↔ goAdd offset messages.length < total) ∧
      (-(2 ^ 63) ≤ offset + messages.length → offset + messages.length < 2 ^ 63 →
        (resp.HasMore = true ↔ offset + messages.length < total)) := by
  unfold chatService.GetMessages at hok
  cases hrepo : repo.GetMessages chatID limit offset with
  | error e =>
    rw [hrepo] at hok
    exact Except.noConfusion hok
  | ok r =>
    obtain ⟨messages, total⟩ := r
    rw [hrepo] at hok
    simp only at hok
    rw [← Except.ok.inj hok]
    refine ⟨messages, total, rfl, rfl, rfl, ?_, ?_⟩
    · simp
    · intro hlo hhi
      simp only [decide_eq_true_eq, goAdd, int64_of_inRange _ hlo hhi]

/-- C30, witness: the sample repository returns one message and the total 5 for
offset 0, so there is more. -/
theorem getMessages_hasMore_witness :
    ∃ messages total, sampleRepo.GetMessages 7 50 0 = .ok (messages, total) ∧
      [sampleMessage] = messages ∧ (5 : Int) = total ∧
      (true = true ↔ goAdd 0 messages.length < total) ∧
      (-(2 ^ 63) ≤ (0 : Int) + messages.length → (0 : Int) + messages.length < 2 ^ 63 →
        (true = true ↔ (0 : Int) + messages.length < total)) :=
  getMessages_hasMore sampleRepo 7 50 0
    { Messages := [sampleMessage], Total := 5, HasMore := true } rfl

/-- C23: Handler.ServeWS sends a handle on the register channel only after the
membership check has succeeded. If a Register is among its events then the user
id, the name and the room id were read, GetChatMembers returned a list without
error, the user id occurs in that list, the handle carries that user id, name
and room id, and the events are exactly: the one call of GetChatMembers, the
upgrade, the Register, the start of the pumps. When GetChatMembers returns an
error, or a list without the user id, no Register is among the events. In every
case GetChatMembers is called at most once. -/
theorem serveWS_registers_only_after_membership_check (repo : ChatRepo) (inp : ServeInput) :
    (∀ client, ServeEvent.register client ∈ (Handler.ServeWS repo inp).events →
      ∃ userID username chatID members,
        inp.userID = .ok userID ∧ inp.username = .ok username ∧ inp.chatID = .ok chatID ∧
        repo.GetChatMembers chatID = .ok members ∧ userID ∈ members ∧
        client.ID = userID ∧ client.Username = username ∧ client.ChatID = chatID ∧
        (Handler.ServeWS repo inp).events =
          [ServeEvent.getChatMembers chatID, ServeEvent.upgrade, ServeEvent.register client,
           ServeEvent.startPumps]) ∧
    (∀ chatID e, inp.chatID = .ok chatID → repo.GetChatMembers chatID = .error e →
      ∀ client, ServeEvent.register client ∉ (Handler.ServeWS repo inp).events) ∧
    (∀ userID chatID members, inp.userID = .ok userID → inp.chatID = .ok chatID →
      repo.GetChatMembers chatID = .ok members → userID ∉ members →
      ∀ client, ServeEvent.register client ∉ (Handler.ServeWS repo inp).events) ∧
    (∀ chatID, (Handler.ServeWS repo inp).events.count (ServeEvent.getChatMembers chatID) ≤ 1) := by
  unfold Handler.ServeWS chatService.GetChatMembers
  cases hu : inp.userID with
  | error e => simp
  | ok userID =>
    cases hn : inp.username with
    | error e => simp
    | ok username =>
      cases hc : inp.chatID with
      | error e => simp
      | ok chatID =>
        cases hm : repo.GetChatMembers chatID with
        | error e =>
          simp [hm]
          intro c1
          by_cases hcc : chatID = c1 <;> simp [List.count_cons, hcc]
        | ok members =>
          by_cases hin : userID ∈ members
          · have hloop := (isMemberLoop_iff userID members).mpr hin
            cases hup : inp.upgrade with
            | error e =>
              simp [hm, hloop, hin]
              intro c1
              by_cases hcc : chatID = c1 <;> simp [List.count_cons, hcc]
            | ok conn =>
              simp only [hm, hloop, Bool.not_true, Bool.false_eq_true, if_false]
              refine ⟨?_, ?_, ?_, ?_⟩
              · intro client hcl
                simp only [List.mem_cons, List.mem_singleton, ServeEvent.register.injEq,
                  List.not_mem_nil, or_false, false_or, reduceCtorEq] at hcl
                subst hcl
                exact ⟨userID, username, chatID, members, rfl, rfl, rfl, hm, hin, rfl, rfl, rfl,
                  rfl⟩
              · intro c1 e hc1 he
                rw [← Except.ok.inj hc1, hm] at he
                exact Except.noConfusion he
              · intro u1 c1 m1 hu1 hc1 hm1 hnin
                rw [← Except.ok.inj hc1, hm] at hm1
                rw [← Except.ok.inj hu1, ← Except.ok.inj hm1] at hnin
                exact absurd hin hnin
              · intro c1
                by_cases hcc : chatID = c1
                · subst hcc
                  simp [List.count_cons]
                · simp [List.count_cons, hcc]
          · have hloop : isMemberLoop userID members = false := by
              cases hl : isMemberLoop userID members with
              | false => rfl
              | true => exact absurd ((isMemberLoop_iff userID members).mp hl) hin
            simp only [hm, hloop, Bool.not_false, if_true]
            refine ⟨?_, ?_, ?_, ?_⟩
            · intro client hcl
              simp at hcl
            · intro c1 e _ _ client hcl
              simp at hcl
            · intro u1 c1 m1 _ _ _ _ client hcl
              simp at hcl
            · intro c1
              by_cases hcc : chatID = c1
              · subst hcc
                simp [List.count_cons]
              · simp [List.count_cons, hcc]

/-! ## Queries on the table, key consistency and Hub.Close -/

/-- C22: the three queries read the membership table. On a key consistent hub,
Hub.GetChatClients returns exactly the handles of the member map of the room,
each once (and nothing for a room that has no entry in the table),
Hub.GetChatClientCount is the length of that list, and Hub.IsUserInChat is true
exactly when the owner has an entry in the room, which is exactly when one of the
returned handles has that owner id. The three queries are functions of the hub
that return no hub: they change nothing. -/
theorem queries_read_the_table (h : Hub) (hkc : h.KeyConsistent) (r u : Int) :
    (∀ p, p ∈ h.GetChatClients r ↔ ∃ u1, h.member r u1 = some p) ∧
    (h.GetChatClients r).Nodup ∧
    (h.chats.lookup r = none → h.GetChatClients r = [] ∧ h.GetChatClientCount r = 0) ∧
    h.GetChatClientCount r = (h.GetChatClients r).length ∧
    (h.IsUserInChat r u = true ↔ ∃ p, h.member r u = some p) ∧
    (h.IsUserInChat r u = true ↔ ∃ p, p ∈ h.GetChatClients r ∧ (h.heap p).ID = u) := by
  have hin : h.IsUserInChat r u = true ↔ ∃ p, h.member r u = some p := by
    rw [Hub.IsUserInChat_eq, Option.isSome_iff_exists]
  refine ⟨Hub.mem_GetChatClients h r, ?_, ?_, ?_, hin, ?_⟩
  · unfold Hub.GetChatClients
    cases hroom : h.chats.lookup r with
    | none => exact List.nodup_nil
    | some chat =>
      apply ChatMap.ptrs_nodup
      intro u1 u2 p h1 h2
      have hmem := Hub.member_of_lookup h r chat hroom
      exact hkc.inj r u1 u2 p (by rw [hmem, h1]) (by rw [hmem, h2])
  · intro hroom
    simp only [Hub.GetChatClients, Hub.GetChatClientCount, hroom, and_self]
  · unfold Hub.GetChatClients Hub.GetChatClientCount
    cases h.chats.lookup r with
    | none => rfl
    | some chat => simp only [List.length_map]
  · rw [hin]
    constructor
    · rintro ⟨p, hp⟩
      exact ⟨p, (Hub.mem_GetChatClients h r p).mpr ⟨u, hp⟩, (hkc r u p hp).2⟩
    · rintro ⟨p, hp, hid⟩
      obtain ⟨u1, hu1⟩ := (Hub.mem_GetChatClients h r p).mp hp
      have : u1 = u := (hkc r u1 p hu1).2.symm.trans hid
      subst this
      exact ⟨p, hu1⟩

/-- C22, witness: room 7 and owner 1 of the hub with rooms 7 and 8. -/
theorem queries_read_the_table_witness :
    (∀ p, p ∈ pairHub.GetChatClients 7 ↔ ∃ u1, pairHub.member 7 u1 = some p) ∧
    (pairHub.GetChatClients 7).Nodup ∧
    (pairHub.chats.lookup 7 = none →
      pairHub.GetChatClients 7 = [] ∧ pairHub.GetChatClientCount 7 = 0) ∧
    pairHub.GetChatClientCount 7 = (pairHub.GetChatClients 7).length ∧
    (pairHub.IsUserInChat 7 1 = true ↔ ∃ p, pairHub.member 7 1 = some p) ∧
    (pairHub.IsUserInChat 7 1 = true ↔
      ∃ p, p ∈ pairHub.GetChatClients 7 ∧ (pairHub.heap p).ID = 1) :=
  queries_read_the_table pairHub pairHub_keyConsistent 7 1

/-- C26: key consistency of the membership table. In every hub reached from the
empty hub by calls that return, each one the handler of a Register, Unregister
or Broadcast event or Hub.Close, every entry chats[r][u] = c has c.ChatID = r and
c.ID = u. -/
theorem table_is_key_consistent (env : Env) (heap0 : Ptr → Client) (h : Hub)
    (hreach : Relation.ReflTransGen (Hub.AnyNext env) (NewHub heap0) h) :
    ∀ r u c, h.member r u = some c → (h.heap c).ChatID = r ∧ (h.heap c).ID = u := by
  have hkc : h.KeyConsistent := by
    induction hreach with
    | refl => exact (Hub.Inv_NewHub heap0).1
    | tail _ hn ih => exact Hub.AnyNext_keyConsistent env _ _ hn ih
  exact hkc

/-- C26, witness: the empty hub, Register of handle 1, Register of handle 2;
owner 1 of room 7 is then on handle 2. -/
theorem table_is_key_consistent_witness :
    supersededHub.member 7 1 = some 2 ∧
      (supersededHub.heap 2).ChatID = 7 ∧ (supersededHub.heap 2).ID = 1 :=
  ⟨rfl, table_is_key_consistent okEnv sampleHeap supersededHub
    (Relation.ReflTransGen.tail
      (Relation.ReflTransGen.tail Relation.ReflTransGen.refl
        (Hub.AnyNext.event (NewHub sampleHeap) (Event.register 1)
          ((NewHub sampleHeap).stepOrStay okEnv (Event.register 1)) rfl))
      (Hub.AnyNext.event ((NewHub sampleHeap).stepOrStay okEnv (Event.register 1)).hub
        (Event.register 2)
        (((NewHub sampleHeap).stepOrStay okEnv (Event.register 1)).hub.stepOrStay okEnv
          (Event.register 2)) rfl))
    7 1 2 rfl⟩

/-- C28: Hub.Close on a key consistent hub whose handles have open queues
returns. It calls Close on the handles of the table, a list in which each handle
of the table occurs exactly once, so each of them is torn down, and a handle
that is not in the table is not touched. The table is left empty: afterwards
GetChatClientCount is 0 and GetChatClients is empty for every room, and
IsUserInChat is false for every room and owner. -/
theorem hub_close_closes_every_handle_once (h : Hub) (hkc : h.KeyConsistent)
    (hopen : h.MembersOpen) :
    ∃ h1, h.Close = .ok h1 ∧
      h.allClients.Nodup ∧
      (∀ p, p ∈ h.allClients ↔ ∃ r u, h.member r u = some p) ∧
      (∀ r u p, h.member r u = some p → h1.heap p = (h.heap p).tornDown) ∧
      (∀ p, h.Absent p → h1.heap p = h.heap p) ∧
      h1.chats.entries = [] ∧
      (∀ r, h1.GetChatClientCount r = 0 ∧ h1.GetChatClients r = []) ∧
      (∀ r u, h1.IsUserInChat r u = false) := by
  have hnd := Hub.allClients_nodup h hkc
  have hall : ∀ p ∈ h.allClients, (h.heap p).Send.closed = false := by
    intro p hp
    obtain ⟨r, u, hm⟩ := (Hub.mem_allClients h p).mp hp
    exact hopen r u p hm
  obtain ⟨heap1, hrun, hin, hout⟩ := Hub.closeAll_spec h.allClients h.heap hnd hall
  have hclose : h.Close = .ok { chats := ∅, heap := heap1 } := by
    simp only [Hub.Close, hrun]
  refine ⟨_, hclose, hnd, Hub.mem_allClients h, ?_, ?_, rfl, ?_, ?_⟩
  · intro r u p hm
    exact hin p ((Hub.mem_allClients h p).mpr ⟨r, u, hm⟩)
  · intro p hp
    apply hout
    intro hmem
    obtain ⟨r, u, hm⟩ := (Hub.mem_allClients h p).mp hmem
    exact hp r u hm
  · intro r
    simp only [Hub.GetChatClientCount, Hub.GetChatClients, AList.lookup_empty, and_self]
  · intro r u
    simp only [Hub.IsUserInChat, AList.lookup_empty]

/-- C28, witness: the hub with rooms 7 and 8. -/
theorem hub_close_closes_every_handle_once_witness :
    ∃ h1, pairHub.Close = .ok h1 ∧
      pairHub.allClients.Nodup ∧
      (∀ p, p ∈ pairHub.allClients ↔ ∃ r u, pairHub.member r u = some p) ∧
      (∀ r u p, pairHub.member r u = some p → h1.heap p = (pairHub.heap p).tornDown) ∧
      (∀ p, pairHub.Absent p → h1.heap p = pairHub.heap p) ∧
      h1.chats.entries = [] ∧
      (∀ r, h1.GetChatClientCount r = 0 ∧ h1.GetChatClients r = []) ∧
      (∀ r u, h1.IsUserInChat r u = false) :=
  hub_close_closes_every_handle_once pairHub pairHub_keyConsistent pairHub_membersOpen

end OnlineChat
